import Mathlib

/-!
# GameServerQuery: decoders of the game server replies

A shallow embedding of the parsing and dispatch layer of `GameServerQuery.cpp`
(`SanitizeCommand`, `ParseKeyValues`, `ParseGetStatusPlayers`, `ParseRconStatusPlayers`,
`EscapeJson`, `ToJson`, the two `ProcessCommand` handlers and
`ProcessGameServerCommand`) together with theorems about it.

Conventions of the embedding:
* a `std::string` is a `List Char` (one `Char` per byte);
* a `std::map<std::string, std::string>` is a list of pairs kept in ascending key order;
* `std::string::npos` is `none`;
* a `while` loop over indices is a recursive function with a step budget, started with a
  budget that the loop cannot exhaust;
* `ResolveHostname` and `SendUDPQuery` are parameters of the functions that call them, and
  such a function returns the list of the calls it made next to its result.
-/

namespace GameServerQuery

/-- A `std::string`: the sequence of its bytes. -/
abbrev Str := List Char

/-- A `std::map<std::string, std::string>`: entries in ascending key order. -/
abbrev StrMap := List (Str × Str)

/-! ## Character classes of the C locale -/

/-- The `isspace` of the C locale: space, `\t`, `\n`, `\v`, `\f`, `\r`. -/
def isspace (c : Char) : Bool :=
  c == ' ' || c == '\t' || c == '\n' || c == '\x0b' || c == '\x0c' || c == '\r'

/-- The `isdigit` of the C locale: `'0'` to `'9'`. -/
def isdigit (c : Char) : Bool :=
  decide ('0'.toNat ≤ c.toNat) && decide (c.toNat ≤ '9'.toNat)

/-- The `tolower` of the C locale: `'A'..'Z'` go to `'a'..'z'`, the rest is unchanged. -/
def tolower (c : Char) : Char :=
  if 'A'.toNat ≤ c.toNat ∧ c.toNat ≤ 'Z'.toNat then Char.ofNat (c.toNat + 32) else c

/-! ## `std::string` operations -/

/-- The call `s.substr(pos, n)`, for `pos ≤ s.size()` (every call of the source is such). -/
def substr (s : Str) (pos n : Nat) : Str := (s.drop pos).take n

/-- The call `s.substr(pos)`. -/
def substrFrom (s : Str) (pos : Nat) : Str := s.drop pos

/-- The call `s.find(c, pos)` for a character `c`: the first index `≥ pos` holding `c`. -/
def findChar (s : Str) (c : Char) (pos : Nat) : Option Nat :=
  if c ∈ s.drop pos then some (pos + ((s.drop pos).takeWhile (fun d => d != c)).length)
  else none

/-- The call `s.find(pat)` for a string `pat`: the first index where `pat` occurs. -/
def findStr (pat : Str) : Str → Option Nat
  | [] => if pat.isPrefixOf [] then some 0 else none
  | c :: cs =>
    if pat.isPrefixOf (c :: cs) then some 0 else (findStr pat cs).map (fun n => n + 1)

/-- The test `s.find(pat) != std::string::npos`. -/
def containsStr (s pat : Str) : Bool := (findStr pat s).isSome

/-- The test `s.find(pat) == 0`. -/
def startsWith (s pat : Str) : Bool := findStr pat s == some 0

/-- The character `s[i]` (for `i < s.size()`). -/
def charAt (s : Str) (i : Nat) : Char := s.getD i '\x00'

/-- The loop `while (std::getline(ss, line))`, with the line read so far in `cur`: a line
feed ends the line; at the end of the text, what was read is a last line unless nothing
was read. -/
def getlinesAux : Str → Str → List Str
  | [], cur => if cur = [] then [] else [cur]
  | c :: cs, cur => if c = '\n' then cur :: getlinesAux cs [] else getlinesAux cs (cur ++ [c])

/-- The lines `std::getline` reads from a stream over `s`. -/
def getlines (s : Str) : List Str := getlinesAux s []

/-- The two `erase` calls that trim a line: leading, then trailing `isspace` bytes go. -/
def trim (line : Str) : Str :=
  ((line.dropWhile isspace).reverse.dropWhile isspace).reverse

/-! ## `std::map` operations -/

/-- Byte-wise lexicographic order of `std::string` (`operator<`). -/
def strLt : Str → Str → Bool
  | [], [] => false
  | [], _ :: _ => true
  | _ :: _, [] => false
  | a :: as, b :: bs =>
    if a.toNat < b.toNat then true
    else if b.toNat < a.toNat then false
    else strLt as bs

/-- The test `m.count(k) != 0`. -/
def mapContains (m : StrMap) (k : Str) : Bool := m.any (fun e => e.1 == k)

/-- The call `m.at(k)`; `none` stands for the `std::out_of_range` it throws. -/
def mapAt (m : StrMap) (k : Str) : Option Str := (m.find? (fun e => e.1 == k)).map Prod.snd

/-- Reading `m[k]`: the value stored, the empty string when there is none. -/
def mapGet (m : StrMap) (k : Str) : Str := (mapAt m k).getD []

/-- A new entry is placed before the first entry with a greater key. -/
def mapInsertNew (k v : Str) : StrMap → StrMap
  | [] => [(k, v)]
  | e :: es => if strLt k e.1 then (k, v) :: e :: es else e :: mapInsertNew k v es

/-- The assignment `m[k] = v`: the value of an existing key is replaced, a new key is
inserted at its place in the order. -/
def mapAssign (m : StrMap) (k v : Str) : StrMap :=
  if mapContains m k then m.map (fun e => if e.1 == k then (e.1, v) else e)
  else mapInsertNew k v m

/-! ## `ParseKeyValues` -/

/-- The end of the value that starts at `pos`: the index `next` after the second `find`
and its two fallbacks (the next backslash, else the next line feed, else the end of the
text). -/
def valueEnd (response : Str) (pos : Nat) : Nat :=
  match findChar response '\\' pos with
  | some n => n
  | none =>
    match findChar response '\n' pos with
    | some n => n
    | none => response.length

/-- The main loop of `ParseKeyValues`; every round moves `pos` forward. -/
def parseKeyValuesLoop (response : Str) : Nat → Nat → StrMap → StrMap
  | 0, _, result => result
  | fuel + 1, pos, result =>
    if pos < response.length then
      if charAt response pos != '\\' then result
      else
        let pos1 := pos + 1
        match findChar response '\\' pos1 with
        | none => result
        | some next =>
          let key := substr response pos1 (next - pos1)
          let pos2 := next + 1
          let next2 := valueEnd response pos2
          let result2 :=
            if key ≠ [] then mapAssign result key (substr response pos2 (next2 - pos2))
            else result
          parseKeyValuesLoop response fuel next2 result2
    else result

/-- The function `ParseKeyValues`: leading line feeds are skipped, then `\key\value` pairs
are read until the text stops being one. -/
def ParseKeyValues (response : Str) : StrMap :=
  let pos := (response.takeWhile (fun c => c == '\n')).length
  parseKeyValuesLoop response response.length pos []

/-! ## `ParseGetStatusPlayers` -/

/-- The keys of a player record. -/
def kSlot : Str := "slot".toList

/-- The key `score`. -/
def kScore : Str := "score".toList

/-- The key `ping`. -/
def kPing : Str := "ping".toList

/-- The key `name`. -/
def kName : Str := "name".toList

/-- The key `lastmsg`. -/
def kLastmsg : Str := "lastmsg".toList

/-- The key `address`. -/
def kAddress : Str := "address".toList

/-- The key `qport`. -/
def kQport : Str := "qport".toList

/-- The key `rate`. -/
def kRate : Str := "rate".toList

/-- The key `guid`. -/
def kGuid : Str := "guid".toList

/-- The key `playerid`. -/
def kPlayerid : Str := "playerid".toList

/-- The key `steamid`. -/
def kSteamid : Str := "steamid".toList

/-- The element `tokens[i]` of the token vector. -/
def tok (tokens : List Str) (i : Nat) : Str := tokens.getD i []

/-- The test on `score` made before a record is kept: empty, all digits, or `-` followed
by at least one byte, all of them digits. -/
def scoreOk (score : Str) : Bool :=
  score.isEmpty || score.all isdigit ||
    (decide (score.length > 1) && charAt score 0 == '-' && (score.drop 1).all isdigit)

/-- The test on `ping` made before a record is kept: empty or all digits. -/
def pingOk (ping : Str) : Bool := ping.isEmpty || ping.all isdigit

/-- The loop `for (char c : line)` of `ParseGetStatusPlayers`, on the bytes still to read,
with `tokens`, `token` and `inQuotes` as they stand; it gives the final `tokens` and
`token`. -/
def statusTokensAux : Str → List Str → Str → Bool → List Str × Str
  | [], tokens, token, _ => (tokens, token)
  | c :: cs, tokens, token, inQuotes =>
    if c = '"' then statusTokensAux cs tokens (token ++ [c]) (!inQuotes)
    else if c = ' ' ∧ inQuotes = false ∧ token ≠ [] then
      statusTokensAux cs (tokens ++ [token]) [] inQuotes
    else statusTokensAux cs tokens (token ++ [c]) inQuotes

/-- The tokens of a trimmed line: the loop, then the push of a last non-empty token. -/
def statusTokens (line : Str) : List Str :=
  let r := statusTokensAux line [] [] false
  if r.2 ≠ [] then r.1 ++ [r.2] else r.1

/-- A token that is a quoted name: at least two bytes, first and last a double quote. -/
def isQuoted (name : Str) : Bool :=
  decide (name.length ≥ 2) && charAt name 0 == '"' && name.getLast? == some '"'

/-- What `ParseGetStatusPlayers` makes of one trimmed non-empty line: the record it pushes,
or `none` when it pushes nothing. -/
def statusRow (protocolId : Int) (line : Str) : Option StrMap :=
  let tokens := statusTokens line
  if protocolId = 1 ∧ tokens.length ≥ 2 then
    let player0 := mapAssign [] kSlot (tok tokens 0)
    let name := tok tokens 1
    if isQuoted name then
      let player1 := mapAssign player0 kName (substr name 1 (name.length - 2))
      let player2 := mapAssign player1 kScore "0".toList
      let player3 := mapAssign player2 kPing "0".toList
      if (mapGet player3 kSlot).all isdigit then some player3 else none
    else none
  else if protocolId = 2 ∧ tokens.length ≥ 3 then
    let player0 := mapAssign [] kScore (tok tokens 0)
    let player1 := mapAssign player0 kPing (tok tokens 1)
    let name := tok tokens 2
    if isQuoted name then
      let player2 := mapAssign player1 kName (substr name 1 (name.length - 2))
      let player3 := mapAssign player2 kSlot "0".toList
      if scoreOk (mapGet player3 kScore) && pingOk (mapGet player3 kPing) then some player3
      else none
    else none
  else none

/-- The loop over the lines of `ParseGetStatusPlayers`, with `inKeyValues` and `players`
as they stand. -/
def statusLoop (protocolId : Int) : List Str → Bool → List StrMap → List StrMap
  | [], _, players => players
  | line :: rest, inKeyValues, players =>
    if line = [] then statusLoop protocolId rest false players
    else if inKeyValues = true ∧ charAt line 0 = '\\' then
      statusLoop protocolId rest inKeyValues players
    else
      let trimmed := trim line
      if trimmed = [] then statusLoop protocolId rest false players
      else
        match statusRow protocolId trimmed with
        | some player => statusLoop protocolId rest false (players ++ [player])
        | none => statusLoop protocolId rest false players

/-- The function `ParseGetStatusPlayers`. -/
def ParseGetStatusPlayers (response : Str) (protocolId : Int) : List StrMap :=
  statusLoop protocolId (getlines response) true []

/-! ## `ParseRconStatusPlayers` -/

/-- The first loop of `ParseRconStatusPlayers`: the value of `isSteam` when it ends. -/
def detectSteam : List Str → Bool
  | [] => false
  | line :: rest =>
    let trimmed := trim line
    if trimmed = [] then detectSteam rest
    else
      let lowerLine := trimmed.map tolower
      if startsWith lowerLine "hostname:".toList then true
      else if startsWith lowerLine "map:".toList then false
      else if containsStr lowerLine "num score ping playerid steamid name".toList then true
      else if containsStr lowerLine "num score ping guid name".toList then false
      else detectSteam rest

/-- The test `// Skip headers` on a trimmed line. -/
def isHeaderLine (line : Str) : Bool :=
  containsStr line "map:".toList ||
  containsStr line "num score ping".toList ||
  containsStr line "----".toList ||
  containsStr line "hostname:".toList ||
  containsStr line "version :".toList ||
  containsStr line "udp/ip  :".toList ||
  containsStr line "os      :".toList ||
  containsStr line "type    :".toList

/-- The loop `while (n < line.size() && line[n] == ' ') n++`: the value of `n` after it. -/
def skipSpaces (line : Str) (n : Nat) : Nat :=
  n + ((line.drop n).takeWhile (fun c => c == ' ')).length

/-- The loop `while (n < line.size() && line[n] != ' ') n++`: the value of `n` after it. -/
def skipWord (line : Str) (n : Nat) : Nat :=
  n + ((line.drop n).takeWhile (fun c => c != ' ')).length

/-- The loop `while (!token.empty() && token.back() == ' ') token.pop_back()`. -/
def popSpaces (token : Str) : Str := (token.reverse.dropWhile (fun c => c == ' ')).reverse

/-- The value of `nameField`. -/
def nameFieldOf (protocolId : Int) (isSteam : Bool) : Nat :=
  if protocolId = 1 then 3 else if isSteam then 5 else 4

/-- The test `// Capture last field` on `fieldCount`. -/
def isLastField (protocolId : Int) (isSteam : Bool) (fieldCount : Nat) : Bool :=
  (decide (protocolId = 1) && decide (fieldCount = 7)) ||
    (decide (protocolId = 2) && decide (fieldCount = if isSteam then 9 else 8))

/-- The loop `while (nextField < line.size() && !foundLastmsg)` of the name field, with
`nextField` and `lastCaret7` as they stand; it gives their final values. Every round moves
`nextField` forward. -/
def nameScan (line : Str) (protocolId : Int) : Nat → Nat → Option Nat → Nat × Option Nat
  | 0, nextField, lastCaret7 => (nextField, lastCaret7)
  | fuel + 1, nextField, lastCaret7 =>
    if nextField < line.length then
      let numStart := skipSpaces line nextField
      let numEnd := skipWord line numStart
      let maybeNumber := substr line numStart (numEnd - numStart)
      if maybeNumber ≠ [] ∧ maybeNumber.all isdigit = true then (nextField, lastCaret7)
      else
        let lastCaret7b :=
          if protocolId = 2 ∧ numStart ≥ 2 ∧ charAt line (numStart - 2) = '^' ∧
              charAt line (numStart - 1) = '7' then some (numStart - 2)
          else lastCaret7
        nameScan line protocolId fuel (numEnd + 1) lastCaret7b
    else (nextField, lastCaret7)

/-- The end of the name field: `nextField` after the scan and after the back-off to the
last `^7` that was recorded. -/
def nameEnd (line : Str) (protocolId : Int) (i : Nat) : Nat :=
  let r := nameScan line protocolId line.length i none
  match r.2 with
  | some lastCaret7 =>
    if protocolId = 2 ∧ lastCaret7 ≥ i then skipSpaces line (lastCaret7 + 2) else r.1
  | none => r.1

/-- The variables of the tokenizer loop of `ParseRconStatusPlayers`. -/
structure RconTok where
  /-- The index `i` into the line. -/
  i : Nat
  /-- The token being read. -/
  token : Str
  /-- The tokens pushed so far. -/
  tokens : List Str
  /-- The number of fields closed so far. -/
  fieldCount : Nat
deriving DecidableEq, Repr

/-- The loop `while (i < line.size())` of `ParseRconStatusPlayers`. A round either closes
the name field, or moves `i` forward, or leaves the loop (`break`). The flag `inName` of
the source is false whenever it is read and is left out. -/
def rconTokenLoop (line : Str) (protocolId : Int) (isSteam : Bool) : Nat → RconTok → RconTok
  | 0, s => s
  | fuel + 1, s =>
    if s.i < line.length then
      if s.fieldCount = nameFieldOf protocolId isSteam then
        let nextField := nameEnd line protocolId s.i
        let token := popSpaces (substr line s.i (nextField - s.i))
        rconTokenLoop line protocolId isSteam fuel
          ⟨skipSpaces line nextField, [], s.tokens ++ [token], s.fieldCount + 1⟩
      else if charAt line s.i = ' ' ∧ s.token ≠ [] then
        rconTokenLoop line protocolId isSteam fuel
          ⟨skipSpaces line (s.i + 1), [], s.tokens ++ [s.token], s.fieldCount + 1⟩
      else if isLastField protocolId isSteam s.fieldCount = true then
        let token := popSpaces (substrFrom line s.i)
        ⟨s.i, token, if token ≠ [] then s.tokens ++ [token] else s.tokens, s.fieldCount⟩
      else
        rconTokenLoop line protocolId isSteam fuel
          ⟨s.i + 1, s.token ++ [charAt line s.i], s.tokens, s.fieldCount⟩
    else s

/-- The tokens of a trimmed line: the loop, then the push of a last non-empty token. -/
def rconTokens (line : Str) (protocolId : Int) (isSteam : Bool) : List Str :=
  let s := rconTokenLoop line protocolId isSteam (line.length + 1) ⟨0, [], [], 0⟩
  if s.token ≠ [] then s.tokens ++ [s.token] else s.tokens

/-- The test made before a record of `ParseRconStatusPlayers` is kept. -/
def rconKeep (player : StrMap) : Bool :=
  (mapGet player kSlot).all isdigit && scoreOk (mapGet player kScore) &&
    pingOk (mapGet player kPing)

/-- What `ParseRconStatusPlayers` makes of one trimmed line that is not a header: the
record it pushes, or `none` when it pushes nothing. -/
def rconRow (protocolId : Int) (isSteam : Bool) (line : Str) : Option StrMap :=
  let tokens := rconTokens line protocolId isSteam
  if protocolId = 1 ∧ tokens.length ≥ 8 then
    let p0 := mapAssign [] kSlot (tok tokens 0)
    let p1 := mapAssign p0 kScore (tok tokens 1)
    let p2 := mapAssign p1 kPing (tok tokens 2)
    let p3 := mapAssign p2 kName (tok tokens 3)
    let p4 := mapAssign p3 kLastmsg (tok tokens 4)
    let p5 := mapAssign p4 kAddress (tok tokens 5)
    let p6 := mapAssign p5 kQport (tok tokens 6)
    let p7 := mapAssign p6 kRate (tok tokens 7)
    if rconKeep p7 then some p7 else none
  else if protocolId = 2 ∧ tokens.length ≥ (if isSteam then 10 else 9) then
    let p0 := mapAssign [] kSlot (tok tokens 0)
    let p1 := mapAssign p0 kScore (tok tokens 1)
    let p2 := mapAssign p1 kPing (tok tokens 2)
    let p9 :=
      if isSteam then
        let p3 := mapAssign p2 kPlayerid (tok tokens 3)
        let p4 := mapAssign p3 kSteamid (tok tokens 4)
        let p5 := mapAssign p4 kName (tok tokens 5)
        let p6 := mapAssign p5 kLastmsg (tok tokens 6)
        let p7 := mapAssign p6 kAddress (tok tokens 7)
        let p8 := mapAssign p7 kQport (tok tokens 8)
        mapAssign p8 kRate (tok tokens 9)
      else
        let p3 := mapAssign p2 kGuid (tok tokens 3)
        let p4 := mapAssign p3 kName (tok tokens 4)
        let p5 := mapAssign p4 kLastmsg (tok tokens 5)
        let p6 := mapAssign p5 kAddress (tok tokens 6)
        let p7 := mapAssign p6 kQport (tok tokens 7)
        mapAssign p7 kRate (tok tokens 8)
    if rconKeep p9 then some p9 else none
  else none

/-- What the second loop of `ParseRconStatusPlayers` makes of one line as read. -/
def rconLine (protocolId : Int) (isSteam : Bool) (line : Str) : Option StrMap :=
  let trimmed := trim line
  if trimmed = [] then none
  else if isHeaderLine trimmed then none
  else rconRow protocolId isSteam trimmed

/-- The function `ParseRconStatusPlayers`: the variant is detected, then every line is
read again and gives at most one record, in the order of the lines. -/
def ParseRconStatusPlayers (response : Str) (protocolId : Int) : List StrMap :=
  let isSteam := detectSteam (getlines response)
  (getlines response).filterMap (rconLine protocolId isSteam)

/-! ## `EscapeJson`, `ToJson` and the serialization of the rcon status players -/

/-- The function `EscapeJson`: the loop `for (char c : input)` over `result`. -/
def EscapeJson (input : Str) : Str :=
  input.foldl
    (fun result c =>
      if c = '"' then result ++ "\\\"".toList
      else if c = '\\' then result ++ "\\\\".toList
      else if c = '\n' then result ++ "\\n".toList
      else if c = '\r' then result
      else result ++ [c])
    []

/-- The loop of `ToJson` over the pairs of `kv`, with `first` and `result` as they stand. -/
def serverLoop : StrMap → Bool → Str → Str
  | [], _, result => result
  | pair :: rest, first, result =>
    let result1 := if first then result else result ++ ",".toList
    let result2 := result1 ++
      ("\"".toList ++ EscapeJson pair.1 ++ "\":\"".toList ++ EscapeJson pair.2 ++ "\"".toList)
    serverLoop rest false result2

/-- A loop `for (const auto& player : players)` that appends one object per player, with
`first` and `result` as they stand; `object` appends the members of one player and is
`none` when a call of `at` throws. -/
def playersLoop (object : StrMap → Str → Option Str) : List StrMap → Bool → Str → Option Str
  | [], _, result => some result
  | player :: rest, first, result =>
    let result1 := if first then result else result ++ ",".toList
    match object player (result1 ++ "\x7b".toList) with
    | none => none
    | some result2 => playersLoop object rest false (result2 ++ "\x7d".toList)

/-- A statement `result += "\"key\":\"" + EscapeJson(player.at("key")) + tail`. -/
def member (player : StrMap) (key tail result : Str) : Option Str :=
  (mapAt player key).map
    (fun value => result ++ ("\"".toList ++ key ++ "\":\"".toList ++ EscapeJson value ++ tail))

/-- A statement
`if (player.count("key")) result += ",\"key\":\"" + EscapeJson(player.at("key")) + "\""`. -/
def optionalMember (player : StrMap) (key result : Str) : Option Str :=
  if mapContains player key then
    (mapAt player key).map
      (fun value =>
        result ++ (",\"".toList ++ key ++ "\":\"".toList ++ EscapeJson value ++ "\"".toList))
  else some result

/-- The members `ToJson` writes for one player. -/
def toJsonObject (player : StrMap) (result : Str) : Option Str := do
  let r1 ← member player kSlot "\",".toList result
  let r2 ← member player kScore "\",".toList r1
  let r3 ← member player kPing "\",".toList r2
  let r4 ← member player kName "\"".toList r3
  let r5 ← optionalMember player kLastmsg r4
  let r6 ← optionalMember player kAddress r5
  let r7 ← optionalMember player kQport r6
  let r8 ← optionalMember player kRate r7
  let r9 ← optionalMember player kGuid r8
  let r10 ← optionalMember player kPlayerid r9
  optionalMember player kSteamid r10

/-- The function `ToJson`; `none` stands for the `std::out_of_range` thrown by `at`. -/
def ToJson (kv : StrMap) (players : List StrMap) : Option Str := do
  let result1 := serverLoop kv true ("\x7b".toList ++ "\"server\":\x7b".toList)
  let result2 ← playersLoop toJsonObject players true (result1 ++ "\x7d,\"players\":[".toList)
  some (result2 ++ "]\x7d".toList)

/-- The members `MedalOfHonorHandler::ProcessCommand` writes for one player of the rcon
status. -/
def rconObjectA (player : StrMap) (result : Str) : Option Str := do
  let r1 ← member player kSlot "\",".toList result
  let r2 ← member player kScore "\",".toList r1
  let r3 ← member player kPing "\",".toList r2
  let r4 ← member player kName "\",".toList r3
  let r5 ← member player kLastmsg "\",".toList r4
  let r6 ← member player kAddress "\",".toList r5
  let r7 ← member player kQport "\",".toList r6
  member player kRate "\"".toList r7

/-- The members `CallOfDutyHandler::ProcessCommand` writes for one player of the rcon
status. -/
def rconObjectB (player : StrMap) (result : Str) : Option Str := do
  let r8 ← rconObjectA player result
  let r9 ← optionalMember player kGuid r8
  let r10 ← optionalMember player kPlayerid r9
  optionalMember player kSteamid r10

/-- The serialization of the rcon status players in `MedalOfHonorHandler::ProcessCommand`. -/
def rconStatusJsonA (players : List StrMap) : Option Str := do
  let result ← playersLoop rconObjectA players true "\x7b\"players\":[".toList
  some (result ++ "]\x7d".toList)

/-- The serialization of the rcon status players in `CallOfDutyHandler::ProcessCommand`. -/
def rconStatusJsonB (players : List StrMap) : Option Str := do
  let result ← playersLoop rconObjectB players true "\x7b\"players\":[".toList
  some (result ++ "]\x7d".toList)

/-! ## The key/value text of a list of pairs -/

/-- The wire form of a list of pairs: each pair written as `\key\value`, one after another. -/
def encodePairs : List (Str × Str) → Str
  | [] => []
  | e :: es => '\\' :: (e.1 ++ '\\' :: (e.2 ++ encodePairs es))

/-! ## The field values the claims speak of -/

/-- A non-empty string of decimal digits. -/
def isNumber (s : Str) : Bool := !s.isEmpty && s.all isdigit

/-- A non-empty string of decimal digits, or `-` followed by one. -/
def isSignedNumber (s : Str) : Bool :=
  isNumber s ||
    match s with
    | '-' :: ds => isNumber ds
    | _ => false

/-! ## The records of the rcon status, in key order -/

/-- The record of a Protocol A row. -/
def playerA (slot score ping name lastmsg address qport rate : Str) : StrMap :=
  [(kAddress, address), (kLastmsg, lastmsg), (kName, name), (kPing, ping), (kQport, qport),
    (kRate, rate), (kScore, score), (kSlot, slot)]

/-- The record of a Protocol B row of the layout with a `guid` column. -/
def playerGuid (slot score ping guid name lastmsg address qport rate : Str) : StrMap :=
  [(kAddress, address), (kGuid, guid), (kLastmsg, lastmsg), (kName, name), (kPing, ping),
    (kQport, qport), (kRate, rate), (kScore, score), (kSlot, slot)]

/-- The record of a Protocol B row of the layout with `playerid` and `steamid` columns. -/
def playerSteam (slot score ping playerid steamid name lastmsg address qport rate : Str) :
    StrMap :=
  [(kAddress, address), (kLastmsg, lastmsg), (kName, name), (kPing, ping),
    (kPlayerid, playerid), (kQport, qport), (kRate, rate), (kScore, score), (kSlot, slot),
    (kSteamid, steamid)]

/-! ## The variant markers -/

/-- A line matches a variant marker: trimmed and in lower case, it starts with `hostname:`
or `map:`, or contains one of the two column headers. -/
def matchesMarker (line : Str) : Bool :=
  startsWith ((trim line).map tolower) "hostname:".toList ||
  startsWith ((trim line).map tolower) "map:".toList ||
  containsStr ((trim line).map tolower) "num score ping playerid steamid name".toList ||
  containsStr ((trim line).map tolower) "num score ping guid name".toList

/-- A line is a `guid` header that no marker of higher rank claims: trimmed and in lower
case, it contains `num score ping guid name`, does not start with `hostname:` and does not
contain `num score ping playerid steamid name`. -/
def isGuidHeader (line : Str) : Bool :=
  containsStr ((trim line).map tolower) "num score ping guid name".toList &&
  !startsWith ((trim line).map tolower) "hostname:".toList &&
  !containsStr ((trim line).map tolower) "num score ping playerid steamid name".toList

/-! ## The words of a name -/

/-- Some word of the text that starts at or after the current byte is a non-empty digit
string; a word is a maximal run of bytes other than the space, and `atStart` tells that
the previous byte is a space or that there is none. -/
def numericWordFrom : Bool → Str → Bool
  | _, [] => false
  | atStart, c :: cs =>
    (atStart && isNumber ((c :: cs).takeWhile (fun d => d != ' '))) ||
      numericWordFrom (c == ' ') cs

/-- Some space-delimited word of `s` is a non-empty digit string. -/
def hasNumericWord (s : Str) : Bool := numericWordFrom true s

/-- From the state `s`, `n` rounds of the tokenizer loop lead to the state `t`, whatever
budget is left after them. -/
def ReachesIn (line : Str) (protocolId : Int) (isSteam : Bool) (n : Nat) (s t : RconTok) :
    Prop :=
  ∀ fuel, rconTokenLoop line protocolId isSteam (n + fuel) s =
    rconTokenLoop line protocolId isSteam fuel t

/-- The text of fields that are each followed by one space. -/
def fieldsText : List Str → Str
  | [] => []
  | w :: ws => w ++ ' ' :: fieldsText ws

/-- Fields joined by single spaces. -/
def joinSpaces : List Str → Str
  | [] => []
  | [w] => w
  | w :: v :: ws => w ++ ' ' :: joinSpaces (v :: ws)

/-- No byte of `s` is a whitespace byte (`isspace`). -/
def spaceFree (s : Str) : Bool := s.all (fun c => !isspace c)

/-- The text of a row of the rcon status: the fields `front`, the name, the fields `back`
and the last field, with one space between two neighbours. -/
def rowText (front : List Str) (name : Str) (back : List Str) (rate : Str) : Str :=
  fieldsText front ++ (name ++ ' ' :: (fieldsText back ++ rate))

/-- The column header of the rcon status table with a `guid` column. -/
def headerGuid : Str := "num score ping guid name lastmsg address qport rate".toList

/-- The column header of the rcon status table with `playerid` and `steamid` columns. -/
def headerSteam : Str :=
  "num score ping playerid steamid name lastmsg address qport rate".toList

/-! ## `SanitizeCommand` -/

/-- The function `SanitizeCommand`: `std::remove_if` with `erase` drops every byte that is
`;`, a line feed or a carriage return, and keeps the other bytes in their order. -/
def SanitizeCommand (command : Str) : Str :=
  command.filter (fun c => !(c == ';' || c == '\n' || c == '\r'))

/-! ## The protocol handlers and `ProcessGameServerCommand`

The two collaborators are parameters: `resolve` stands for `ResolveHostname` and `send` for
`SendUDPQuery` (ip, port, query, timeout). A function that may call them returns, next to
its result, the list of the calls it made, in order. -/

/-- A call of a collaborator. -/
inductive Call where
  /-- A call `ResolveHostname(hostname)`. -/
  | resolve (hostname : Str)
  /-- A call `SendUDPQuery(ip, port, query, timeoutMs)`. -/
  | send (ip : Str) (port : Int) (query : Str) (timeoutMs : Int)
deriving DecidableEq, Repr

/-- The acknowledgment of a map change for the command `cmd`. -/
def mapChanged (cmd : Str) : Str :=
  "\x7b\"status\":\"success\",\"message\":\"Map changed to ".toList ++
    EscapeJson (substrFrom cmd 9) ++ "\"\x7d".toList

/-- The part of both `ProcessCommand` that handles an rcon reply (`cmd` starts with
`rcon `): the text after `print`, then the players of `rcon status` through `players`, or
the text of another command without its leading line feeds. -/
def afterPrint (players : Str → Option Str) (raw : Bool) (cmd response : Str) : Option Str :=
  match findStr "print".toList response with
  | none => some ("error=Invalid server response;raw=".toList ++ response)
  | some pos =>
    let response2 := substrFrom response (pos + 5)
    if response2 = [] then
      some ("error=Empty response after header removal;raw=".toList ++ response2)
    else if cmd = "rcon status".toList then
      if raw then some response2 else players response2
    else
      let response3 := response2.dropWhile (fun c => c == '\n')
      some (if raw then response3
        else "\x7b\"response\":\"".toList ++ EscapeJson response3 ++ "\"\x7d".toList)

/-- The part of both `ProcessCommand` that handles a `getinfo` or `getstatus` reply: the
text after the marker (`marker` with length `n`), raw or decoded for `protocolId`. -/
def afterMarker (marker : Str) (n : Nat) (protocolId : Int) (raw : Bool) (response : Str) :
    Option Str :=
  match findStr marker response with
  | none => some ("error=Invalid server response;raw=".toList ++ response)
  | some pos =>
    let response2 := substrFrom response (pos + n)
    if response2 = [] then
      some ("error=Empty response after header removal;raw=".toList ++ response2)
    else if raw then some response2
    else ToJson (ParseKeyValues response2) (ParseGetStatusPlayers response2 protocolId)

/-- What `MedalOfHonorHandler::ProcessCommand` does once the transport has answered
`response` to the sanitized command `cmd`; `none` stands for an exception. -/
def mohAfterSend (raw : Bool) (cmd response : Str) : Option Str :=
  if startsWith cmd "rcon map ".toList then some (mapChanged cmd)
  else if startsWith response "error=".toList ∨ response = [] then
    some (if response = [] then "error=Empty response from server".toList else response)
  else if cmd = "getstatus".toList then
    afterMarker "statusResponse".toList 14 1 raw response
  else if startsWith cmd "rcon ".toList then
    afterPrint (fun body => rconStatusJsonA (ParseRconStatusPlayers body 1)) raw cmd response
  else some "error=Unsupported command".toList

/-- What `CallOfDutyHandler::ProcessCommand` does once the transport has answered
`response` to the sanitized command `cmd`; `none` stands for an exception. -/
def codAfterSend (raw : Bool) (cmd response : Str) : Option Str :=
  if startsWith cmd "rcon map ".toList then some (mapChanged cmd)
  else if startsWith response "error=".toList ∨ response = [] then
    some (if response = [] then "error=Empty response from server".toList else response)
  else if cmd = "getinfo".toList ∨ cmd = "getstatus".toList then
    if cmd = "getinfo".toList then afterMarker "infoResponse".toList 12 2 raw response
    else afterMarker "statusResponse".toList 14 2 raw response
  else if startsWith cmd "rcon ".toList then
    afterPrint (fun body => rconStatusJsonB (ParseRconStatusPlayers body 2)) raw cmd response
  else some "error=Unsupported command".toList

/-- The query `MedalOfHonorHandler::ProcessCommand` builds for the sanitized command `cmd`;
`none` when the command is outside the grammar. -/
def mohQuery (cmd rconPassword : Str) : Option Str :=
  if cmd = "getstatus".toList then some "\xff\xff\xff\xff\x02getstatus".toList
  else if startsWith cmd "rcon ".toList then
    some ("\xff\xff\xff\xff\x02rcon \"".toList ++ rconPassword ++ "\" ".toList ++
      substrFrom cmd 5)
  else none

/-- The query `CallOfDutyHandler::ProcessCommand` builds for the sanitized command `cmd`;
`none` when the command is outside the grammar. -/
def codQuery (cmd rconPassword : Str) : Option Str :=
  if cmd = "getinfo".toList then some "\xff\xff\xff\xffgetinfo".toList
  else if cmd = "getstatus".toList then some "\xff\xff\xff\xffgetstatus".toList
  else if startsWith cmd "rcon ".toList then
    some ("\xff\xff\xff\xffrcon \"".toList ++ rconPassword ++ "\" ".toList ++ substrFrom cmd 5)
  else none

/-- The timeout of the transport call: 2000 ms for a map change, 1000 ms otherwise. -/
def queryTimeout (cmd : Str) : Int := if startsWith cmd "rcon map ".toList then 2000 else 1000

/-- The function `MedalOfHonorHandler::ProcessCommand`: its result (`none` for an exception)
and the calls it made. -/
def MedalOfHonorHandler.ProcessCommand (send : Str → Int → Str → Int → Str) (raw : Bool)
    (ip : Str) (port : Int) (command rconPassword : Str) : Option Str × List Call :=
  let cmd := SanitizeCommand command
  match mohQuery cmd rconPassword with
  | none => (some "error=Invalid command".toList, [])
  | some query =>
    let response := send ip port query (queryTimeout cmd)
    (mohAfterSend raw cmd response, [Call.send ip port query (queryTimeout cmd)])

/-- The function `CallOfDutyHandler::ProcessCommand`: its result (`none` for an exception)
and the calls it made. -/
def CallOfDutyHandler.ProcessCommand (send : Str → Int → Str → Int → Str) (raw : Bool)
    (ip : Str) (port : Int) (command rconPassword : Str) : Option Str × List Call :=
  let cmd := SanitizeCommand command
  match codQuery cmd rconPassword with
  | none => (some "error=Invalid command".toList, [])
  | some query =>
    let response := send ip port query (queryTimeout cmd)
    (codAfterSend raw cmd response, [Call.send ip port query (queryTimeout cmd)])

/-- The table `protocolRegistry` after its initialization: id 1 is the Medal of Honor
handler, id 2 the Call of Duty handler. -/
def protocolRegistry (protocolId : Int) :
    Option ((Str → Int → Str → Int → Str) → Bool → Str → Int → Str → Str →
      Option Str × List Call) :=
  if protocolId = 1 then some MedalOfHonorHandler.ProcessCommand
  else if protocolId = 2 then some CallOfDutyHandler.ProcessCommand
  else none

/-- The function `ProcessGameServerCommand`: the text it returns and the calls it made. A
null pointer is `none`; an exception of the handler gives `error=Unexpected exception`.
The texts are C strings: the arguments and the transport reply hold no NUL byte, so the
copy `_strdup(result.c_str())` returns the whole result. -/
def ProcessGameServerCommand (resolve : Str → Str) (send : Str → Int → Str → Int → Str)
    (protocolId : Int) (raw : Bool) (ipOrHostname : Option Str) (port : Int)
    (command rconPassword : Option Str) : Str × List Call :=
  match ipOrHostname, command with
  | some hostname, some commandText =>
    if port < 1 ∨ port > 65535 then ("error=Invalid port".toList, [])
    else
      match protocolRegistry protocolId with
      | none => ("error=Invalid protocol ID".toList, [])
      | some handler =>
        let ip := resolve hostname
        if startsWith ip "error=".toList then (ip, [Call.resolve hostname])
        else
          let cmd := SanitizeCommand commandText
          if cmd = [] then ("error=Empty command".toList, [Call.resolve hostname])
          else
            let rcon := rconPassword.getD []
            let r := handler send raw ip port cmd rcon
            match r.1 with
            | some result => (result, Call.resolve hostname :: r.2)
            | none => ("error=Unexpected exception".toList, Call.resolve hostname :: r.2)
  | _, _ => ("error=Null input parameters".toList, [])

/-! ## The serializer and the sanitizer in the words of the specification -/

/-- The text without its `;`, line feeds and carriage returns, byte by byte: such a byte is
left out, any other byte is kept. -/
def withoutSeparators : Str → Str
  | [] => []
  | c :: cs =>
    if c = ';' ∨ c = '\n' ∨ c = '\r' then withoutSeparators cs else c :: withoutSeparators cs

/-- The image of one byte under the escaping rule: `"` gives backslash-quote, a backslash
gives two backslashes, a line feed gives backslash-n, a carriage return gives nothing,
any other byte gives itself. -/
def jsonImage (c : Char) : Str :=
  if c = '"' then ['\\', '"']
  else if c = '\\' then ['\\', '\\']
  else if c = '\n' then ['\\', 'n']
  else if c = '\r' then []
  else [c]

/-- The images of the bytes of a text, one after another. -/
def escapeAll : Str → Str
  | [] => []
  | c :: cs => jsonImage c ++ escapeAll cs

/-- Texts joined by commas. -/
def joinComma : List Str → Str
  | [] => []
  | [x] => x
  | x :: y :: rest => x ++ ',' :: joinComma (y :: rest)

/-- The eleven keys of a player object, in the order of the output. -/
def objectKeys : List Str :=
  [kSlot, kScore, kPing, kName, kLastmsg, kAddress, kQport, kRate, kGuid, kPlayerid, kSteamid]

/-- The member `"key":"value"` of a player object, when the record has the key. -/
def memberText (player : StrMap) (key : Str) : Option Str :=
  (mapAt player key).map
    (fun value => "\"".toList ++ key ++ "\":\"".toList ++ EscapeJson value ++ "\"".toList)

/-- The object of a player: the members of the keys the record has, in the order of
`objectKeys`, joined by commas, between braces. -/
def objectText (player : StrMap) : Str :=
  "\x7b".toList ++ joinComma (objectKeys.filterMap (memberText player)) ++ "\x7d".toList

/-! ## The header markers of the rcon status -/

/-- The eight texts that mark a header line of the rcon status. -/
def headerMarkers : List Str :=
  ["map:".toList, "num score ping".toList, "----".toList, "hostname:".toList,
    "version :".toList, "udp/ip  :".toList, "os      :".toList, "type    :".toList]

/-! ## The server object in the words of the specification -/

/-- The member `"key":"value"` of the server object, both texts escaped. -/
def serverMember (e : Str × Str) : Str :=
  "\"".toList ++ EscapeJson e.1 ++ "\":\"".toList ++ EscapeJson e.2 ++ "\"".toList

/-! ## The name of an rcon status row in the words of the specification -/

/-- The text up to the first space-delimited word that is a non-empty digit string; a word
is a maximal run of bytes other than the space, and `atStart` tells that the previous byte
is a space or that there is none. The whole text when it has no such word. Only the space
byte delimits a word, as in the scan of the source: a tab or another whitespace byte is
part of the word it stands in (compare `uptoNumericWordWs`). -/
def uptoNumericWord : Bool → Str → Str
  | _, [] => []
  | atStart, c :: cs =>
    if atStart && isNumber ((c :: cs).takeWhile (fun d => d != ' ')) then []
    else c :: uptoNumericWord (c == ' ') cs

/-- The name read from the text that starts at the name column: the text up to the first
numeric word, without its trailing spaces. -/
def nameText (s : Str) : Str := popSpaces (uptoNumericWord true s)

/-- The text after the first `n` fields of a line: a field runs up to the next space, and
the spaces that follow it go with it. -/
def dropFields : Nat → Str → Str
  | 0, s => s
  | n + 1, s =>
    dropFields n ((s.dropWhile (fun c => c != ' ')).dropWhile (fun c => c == ' '))

/-! ## Words delimited by any whitespace byte

The reading of "whitespace-delimited" by the letter: a word ends at any `isspace` byte. The
source delimits the words of a name by the space byte only, so these definitions differ
from `hasNumericWord` and `uptoNumericWord` on a text that holds a tab. -/

/-- The text up to the first whitespace-delimited word that is a non-empty digit string;
the whole text when it has no such word. -/
def uptoNumericWordWs : Bool → Str → Str
  | _, [] => []
  | atStart, c :: cs =>
    if atStart && isNumber ((c :: cs).takeWhile (fun d => !isspace d)) then []
    else c :: uptoNumericWordWs (isspace c) cs

/-! ## Predicates used in the proofs -/

/-- The first of the tokens, the one being read included, starts with `c`. -/
def startsToken (c : Char) (tokens : List Str) (token : Str) : Prop :=
  ∃ t ts, tokens ++ [token] = (c :: t) :: ts

/-- The shape of a record of `ParseRconStatusPlayers` made from the tokens `T`. -/
def rconShape (protocolId : Int) (isSteam : Bool) (T : List Str) (r : StrMap) : Prop :=
  (protocolId = 1 ∧ 8 ≤ T.length ∧
      r = playerA (tok T 0) (tok T 1) (tok T 2) (tok T 3) (tok T 4) (tok T 5) (tok T 6)
        (tok T 7)) ∨
    (protocolId = 2 ∧ isSteam = false ∧ 9 ≤ T.length ∧
      r = playerGuid (tok T 0) (tok T 1) (tok T 2) (tok T 3) (tok T 4) (tok T 5) (tok T 6)
        (tok T 7) (tok T 8)) ∨
    (protocolId = 2 ∧ isSteam = true ∧ 10 ≤ T.length ∧
      r = playerSteam (tok T 0) (tok T 1) (tok T 2) (tok T 3) (tok T 4) (tok T 5) (tok T 6)
        (tok T 7) (tok T 8) (tok T 9))

/-- The first three tokens are not empty, and no field is counted without a token. -/
def tokInv (s : RconTok) : Prop :=
  (∀ t ∈ s.tokens.take 3, t ≠ []) ∧ s.fieldCount ≤ s.tokens.length

/-- The statement of the player-row invariant for one record: `slot`, `score` and `ping`
are present; `slot` is a non-empty digit string, `score` is empty, a non-empty digit string
or `-` followed by one, `ping` is empty or a non-empty digit string. -/
def rowInvariant (r : StrMap) : Prop :=
  ∃ slot score ping, mapAt r kSlot = some slot ∧ mapAt r kScore = some score ∧
    mapAt r kPing = some ping ∧ isNumber slot = true ∧
    (score = [] ∨ isSignedNumber score = true) ∧ (ping = [] ∨ isNumber ping = true)

/-- A bound on the rounds the tokenizer loop still makes from the state `s`: the bytes
left, and one more while the name field is still to come. -/
def roundsLeft (line : Str) (protocolId : Int) (isSteam : Bool) (s : RconTok) : Nat :=
  (line.length - s.i) + (if s.fieldCount ≤ nameFieldOf protocolId isSteam then 1 else 0)

/-- The position `i` starts a field: the byte before it is a space and the byte at it, if
there is one, is not. -/
def fieldStart (line : Str) (i : Nat) : Prop :=
  1 ≤ i ∧ charAt line (i - 1) = ' ' ∧ (i < line.length → charAt line i ≠ ' ')

/-- The invariant of the tokenizer loop of `ParseRconStatusPlayers` about the name field
`n`: before it, the text still to read leads to the name column; at it, the position starts
a field; right after it, the name is the name text of the name column and the token being
read completes to a number; later, the name and the number are among the tokens. -/
def nameInv (line : Str) (n : Nat) (s : RconTok) : Prop :=
  (s.fieldCount < n ∧ s.tokens.length = s.fieldCount ∧
      (s.token = [] → s.i < line.length → charAt line s.i ≠ ' ') ∧
      dropFields (n - s.fieldCount) (line.drop s.i) = dropFields n line) ∨
    (s.fieldCount = n ∧ s.tokens.length = n ∧ s.token = [] ∧ fieldStart line s.i ∧
      line.drop s.i = dropFields n line) ∨
    (s.fieldCount = n + 1 ∧ s.tokens.length = n + 1 ∧
      tok s.tokens n = nameText (dropFields n line) ∧
      (dropFields n line).head? ≠ some ' ' ∧
      ((s.token = [] ∧ line.length ≤ s.i) ∨
        isNumber (s.token ++ (line.drop s.i).takeWhile (fun c => c != ' ')) = true)) ∨
    (n + 2 ≤ s.fieldCount ∧ n + 2 ≤ s.tokens.length ∧
      tok s.tokens n = nameText (dropFields n line) ∧
      (dropFields n line).head? ≠ some ' ' ∧ isNumber (tok s.tokens (n + 1)) = true)

/-- What the tokens `T` of a line say about the name field `n`: the token of the name is
the name text of the name column, and a token after it is a number. -/
def nameFacts (line : Str) (n : Nat) (T : List Str) : Prop :=
  tok T n = nameText (dropFields n line) ∧
    (n + 2 ≤ T.length →
      (dropFields n line).head? ≠ some ' ' ∧ isNumber (tok T (n + 1)) = true)

/-! ## Positions in a text that is given as a concatenation -/

theorem drop_at (pre s : Str) (n : Nat) (hn : n = pre.length) : (pre ++ s).drop n = s := by
  subst hn; exact List.drop_left pre s

theorem charAt_at (pre : Str) (c : Char) (rest : Str) (n : Nat) (hn : n = pre.length) :
    charAt (pre ++ c :: rest) n = c := by
  subst hn; rw [charAt, List.getD_append_right _ _ _ _ (le_refl _)]; simp

theorem substr_at (pre w rest : Str) (n m : Nat) (hn : n = pre.length) (hm : m = w.length) :
    substr (pre ++ (w ++ rest)) n m = w := by
  subst hn; subst hm; simp [substr]

theorem findChar_at (pre w rest : Str) (c : Char) (n : Nat) (hn : n = pre.length)
    (hw : c ∉ w) : findChar (pre ++ (w ++ c :: rest)) c n = some (n + w.length) := by
  have h1 : (w ++ c :: rest).takeWhile (fun d => d != c) = w := by
    rw [List.takeWhile_append_of_pos]
    · simp
    · intro a ha
      have : a ≠ c := fun h => hw (h ▸ ha)
      simpa using this
  simp [findChar, drop_at pre _ n hn, h1]

theorem findChar_none (pre w : Str) (c : Char) (n : Nat) (hn : n = pre.length)
    (hw : c ∉ w) : findChar (pre ++ w) c n = none := by
  simp [findChar, drop_at pre _ n hn, hw]

/-! ## `ParseKeyValues` on the text of a list of pairs -/

theorem encodePairs_head (es : List (Str × Str)) :
    encodePairs es = [] ∨ ∃ t, encodePairs es = '\\' :: t := by
  cases es with
  | nil => exact Or.inl rfl
  | cons e es => exact Or.inr ⟨_, rfl⟩

theorem parseKeyValuesLoop_pair (pre k v rest : Str) (fuel : Nat) (acc : StrMap)
    (hk : k ≠ []) (hkb : '\\' ∉ k) (hvb : '\\' ∉ v) (hvn : '\n' ∉ v)
    (hrest : rest = [] ∨ ∃ t, rest = '\\' :: t) :
    parseKeyValuesLoop (pre ++ '\\' :: (k ++ '\\' :: (v ++ rest))) (fuel + 1) pre.length acc =
      parseKeyValuesLoop (pre ++ '\\' :: (k ++ '\\' :: (v ++ rest))) fuel
        (pre ++ '\\' :: (k ++ ['\\'] ++ v)).length (mapAssign acc k v) := by
  have e1 : pre ++ '\\' :: (k ++ '\\' :: (v ++ rest)) =
      (pre ++ ['\\']) ++ (k ++ '\\' :: (v ++ rest)) := by simp
  have e2 : pre ++ '\\' :: (k ++ '\\' :: (v ++ rest)) =
      (pre ++ '\\' :: (k ++ ['\\'])) ++ (v ++ rest) := by simp
  have f1 : findChar (pre ++ '\\' :: (k ++ '\\' :: (v ++ rest))) '\\' (pre.length + 1) =
      some (pre.length + 1 + k.length) := by
    rw [e1]; exact findChar_at _ _ _ _ _ (by simp) hkb
  have s1 : substr (pre ++ '\\' :: (k ++ '\\' :: (v ++ rest))) (pre.length + 1)
      (pre.length + 1 + k.length - (pre.length + 1)) = k := by
    rw [e1]; exact substr_at _ _ _ _ _ (by simp) (by omega)
  have hp2 : pre.length + 1 + k.length + 1 = (pre ++ '\\' :: (k ++ ['\\'])).length := by
    simp only [List.length_append, List.length_cons, List.length_nil]; omega
  have f2 : valueEnd (pre ++ '\\' :: (k ++ '\\' :: (v ++ rest)))
      (pre.length + 1 + k.length + 1) = pre.length + 1 + k.length + 1 + v.length := by
    rcases hrest with h | ⟨t, h⟩
    · subst h
      have g1 := findChar_none (pre ++ '\\' :: (k ++ ['\\'])) (v ++ []) '\\' _ hp2
        (by simpa using hvb)
      have g2 := findChar_none (pre ++ '\\' :: (k ++ ['\\'])) (v ++ []) '\n' _ hp2
        (by simpa using hvn)
      rw [valueEnd, e2, g1, g2]
      simp only [List.length_append, List.length_cons, List.length_nil]
      ring
    · subst h
      have g1 := findChar_at (pre ++ '\\' :: (k ++ ['\\'])) v t '\\' _ hp2 hvb
      rw [valueEnd, e2, g1]
  have s2 : substr (pre ++ '\\' :: (k ++ '\\' :: (v ++ rest))) (pre.length + 1 + k.length + 1)
      (pre.length + 1 + k.length + 1 + v.length - (pre.length + 1 + k.length + 1)) = v := by
    rw [e2]; exact substr_at _ _ _ _ _ hp2 (by omega)
  have hlt : pre.length < (pre ++ '\\' :: (k ++ '\\' :: (v ++ rest))).length := by simp
  have hc : charAt (pre ++ '\\' :: (k ++ '\\' :: (v ++ rest))) pre.length = '\\' :=
    charAt_at _ _ _ _ rfl
  rw [parseKeyValuesLoop]
  simp only [hlt, hc, if_true, f1, s1, f2, s2, bne_self_eq_false, Bool.false_eq_true,
    if_false, ne_eq, hk, not_false_eq_true]
  congr 1
  simp only [List.length_append, List.length_cons, List.length_nil]; ring

theorem parseKeyValuesLoop_end (response : Str) (fuel pos : Nat) (acc : StrMap)
    (h : response.length ≤ pos) : parseKeyValuesLoop response fuel pos acc = acc := by
  cases fuel with
  | zero => rfl
  | succ f => rw [parseKeyValuesLoop]; simp [Nat.not_lt.mpr h]

theorem parseKeyValuesLoop_encode (pairs : List (Str × Str)) :
    ∀ (pre : Str) (fuel : Nat) (acc : StrMap), pairs.length ≤ fuel →
      (∀ e ∈ pairs, e.1 ≠ [] ∧ '\\' ∉ e.1 ∧ '\\' ∉ e.2 ∧ '\n' ∉ e.2) →
      parseKeyValuesLoop (pre ++ encodePairs pairs) fuel pre.length acc =
        pairs.foldl (fun m e => mapAssign m e.1 e.2) acc := by
  induction pairs with
  | nil =>
    intro pre fuel acc _ _
    simp only [encodePairs, List.append_nil, List.foldl_nil]
    exact parseKeyValuesLoop_end _ _ _ _ (le_refl _)
  | cons e es ih =>
    intro pre fuel acc hfuel hall
    obtain ⟨hk, hkb, hvb, hvn⟩ := hall e (List.mem_cons_self _ _)
    cases fuel with
    | zero => simp at hfuel
    | succ f =>
      have hstep := parseKeyValuesLoop_pair pre e.1 e.2 (encodePairs es) f acc hk hkb hvb hvn
        (encodePairs_head es)
      have hih := ih (pre ++ '\\' :: (e.1 ++ ['\\'] ++ e.2)) f (mapAssign acc e.1 e.2)
        (by simpa using hfuel) (fun x hx => hall x (List.mem_cons_of_mem _ hx))
      have e3 : pre ++ '\\' :: (e.1 ++ ['\\'] ++ e.2) ++ encodePairs es =
          pre ++ '\\' :: (e.1 ++ '\\' :: (e.2 ++ encodePairs es)) := by simp
      rw [e3] at hih
      simp only [encodePairs, List.foldl_cons]
      rw [hstep, hih]

/-! ## Facts about the map operations -/

theorem mapInsertNew_perm (k v : Str) (m : StrMap) :
    List.Perm (mapInsertNew k v m) ((k, v) :: m) := by
  induction m with
  | nil => exact List.Perm.refl _
  | cons e es ih =>
    simp only [mapInsertNew]
    split
    · exact List.Perm.refl _
    · exact (List.Perm.cons e ih).trans (List.Perm.swap _ _ _)

theorem mapContains_iff (m : StrMap) (k : Str) :
    mapContains m k = true ↔ k ∈ m.map Prod.fst := by
  simp only [mapContains, List.any_eq_true, beq_iff_eq, List.mem_map]

theorem mapAssign_new_perm (m : StrMap) (k v : Str) (h : k ∉ m.map Prod.fst) :
    List.Perm (mapAssign m k v) ((k, v) :: m) := by
  have hc : mapContains m k = false := by
    cases hb : mapContains m k with
    | false => rfl
    | true => exact absurd ((mapContains_iff m k).mp hb) h
  simp only [mapAssign, hc, Bool.false_eq_true, if_false]
  exact mapInsertNew_perm k v m

theorem foldl_mapAssign_perm (pairs : List (Str × Str)) :
    ∀ acc : StrMap, ((acc ++ pairs).map Prod.fst).Nodup →
      List.Perm (pairs.foldl (fun m e => mapAssign m e.1 e.2) acc) (acc ++ pairs) := by
  induction pairs with
  | nil => intro acc _; simp
  | cons e es ih =>
    intro acc hnd
    have hperm : List.Perm (acc ++ e :: es) (e :: acc ++ es) := by
      simp
    have hnd2 : ((e :: acc ++ es).map Prod.fst).Nodup :=
      (List.Perm.nodup_iff (hperm.map Prod.fst)).mp hnd
    have hk : e.1 ∉ acc.map Prod.fst := by
      intro hmem
      simp only [List.cons_append, List.map_cons, List.map_append, List.nodup_cons,
        List.mem_append] at hnd2
      exact hnd2.1 (Or.inl hmem)
    have h1 := mapAssign_new_perm acc e.1 e.2 hk
    have hnd3 : ((mapAssign acc e.1 e.2 ++ es).map Prod.fst).Nodup := by
      refine (List.Perm.nodup_iff (List.Perm.map Prod.fst ?_)).mpr hnd2
      exact List.Perm.append_right es h1
    simp only [List.foldl_cons]
    exact (ih _ hnd3).trans ((List.Perm.append_right es h1).trans hperm.symm)

theorem length_le_encodePairs (pairs : List (Str × Str)) :
    pairs.length ≤ (encodePairs pairs).length := by
  induction pairs with
  | nil => simp
  | cons e es ih =>
    simp only [encodePairs, List.length_cons, List.length_append]
    omega

/-- C1. Key/value round trip: for every list of pairs whose keys are non-empty, pairwise
different and free of backslashes, and whose values contain neither a backslash nor a line
feed, `ParseKeyValues` applied to the pairs written as `\key\value` one after another (in
the order of the list, whatever it is) returns a map whose entries are exactly the pairs of
the list. -/
theorem ParseKeyValues_roundtrip (pairs : List (Str × Str))
    (hkeys : ∀ e ∈ pairs, e.1 ≠ [] ∧ '\\' ∉ e.1)
    (hvals : ∀ e ∈ pairs, '\\' ∉ e.2 ∧ '\n' ∉ e.2)
    (huniq : (pairs.map Prod.fst).Nodup) :
    List.Perm (ParseKeyValues (encodePairs pairs)) pairs := by
  have hpos : ((encodePairs pairs).takeWhile (fun c => c == '\n')).length = 0 := by
    rcases encodePairs_head pairs with h | ⟨t, h⟩ <;> rw [h] <;> simp
  have hloop := parseKeyValuesLoop_encode pairs [] (encodePairs pairs).length []
    (length_le_encodePairs pairs)
    (fun e he => ⟨(hkeys e he).1, (hkeys e he).2, (hvals e he).1, (hvals e he).2⟩)
  simp only [List.nil_append, List.length_nil] at hloop
  simp only [ParseKeyValues, hpos, hloop]
  simpa using foldl_mapAssign_perm pairs [] (by simpa using huniq)

/-- C1, on an example: the text `\b\2\a\1\c\` gives the map of `b`, `a` and `c`. -/
theorem ParseKeyValues_roundtrip_witness :
    List.Perm
      (ParseKeyValues (encodePairs
        [("b".toList, "2".toList), ("a".toList, "1".toList), ("c".toList, [])]))
      [("b".toList, "2".toList), ("a".toList, "1".toList), ("c".toList, [])] :=
  ParseKeyValues_roundtrip _ (by decide) (by decide) (by decide)

/-! ## Lines, trimming and the tokens of `ParseGetStatusPlayers` -/

theorem getlinesAux_line (l cur rest : Str) (h : '\n' ∉ l) :
    getlinesAux (l ++ '\n' :: rest) cur = (cur ++ l) :: getlinesAux rest [] := by
  induction l generalizing cur with
  | nil => simp [getlinesAux]
  | cons c cs ih =>
    have hc : c ≠ '\n' := fun e => h (e ▸ List.mem_cons_self _ _)
    have hcs : '\n' ∉ cs := fun e => h (List.mem_cons_of_mem _ e)
    rw [List.cons_append, getlinesAux]
    simp only [hc, if_false]
    rw [ih _ hcs]; simp

theorem getlinesAux_last (l cur : Str) (h : '\n' ∉ l) (hne : cur ++ l ≠ []) :
    getlinesAux l cur = [cur ++ l] := by
  induction l generalizing cur with
  | nil => simpa [getlinesAux] using hne
  | cons c cs ih =>
    have hc : c ≠ '\n' := fun e => h (e ▸ List.mem_cons_self _ _)
    have hcs : '\n' ∉ cs := fun e => h (List.mem_cons_of_mem _ e)
    simp only [getlinesAux, hc, if_false]
    rw [ih _ hcs (by simp)]; simp

theorem trim_eq_self (line : Str) (hhead : ∀ c, line.head? = some c → isspace c = false)
    (hlast : ∀ c, line.getLast? = some c → isspace c = false) : trim line = line := by
  have h1 : line.dropWhile isspace = line := by
    cases line with
    | nil => rfl
    | cons c cs => simp [List.dropWhile_cons, hhead c rfl]
  have h2 : line.reverse.dropWhile isspace = line.reverse := by
    cases hr : line.reverse with
    | nil => rfl
    | cons c cs =>
      have : line.getLast? = some c := by
        rw [← List.head?_reverse, hr]; rfl
      simp [List.dropWhile_cons, hlast c this]
  rw [trim, h1, h2, List.reverse_reverse]

theorem statusTokensAux_quoted (w rest : Str) (tokens : List Str) (token : Str)
    (h : '"' ∉ w) :
    statusTokensAux (w ++ rest) tokens token true = statusTokensAux rest tokens (token ++ w) true := by
  induction w generalizing token with
  | nil => simp
  | cons c cs ih =>
    have hc : c ≠ '"' := fun e => h (e ▸ List.mem_cons_self _ _)
    have hcs : '"' ∉ cs := fun e => h (List.mem_cons_of_mem _ e)
    rw [List.cons_append, statusTokensAux]
    simp only [hc, if_false, Bool.true_eq_false, false_and, and_false]
    rw [ih _ hcs]; simp

theorem statusTokensAux_word (w rest : Str) (tokens : List Str) (token : Str)
    (hq : '"' ∉ w) (hs : ' ' ∉ w) :
    statusTokensAux (w ++ rest) tokens token false =
      statusTokensAux rest tokens (token ++ w) false := by
  induction w generalizing token with
  | nil => simp
  | cons c cs ih =>
    have hc : c ≠ '"' := fun e => hq (e ▸ List.mem_cons_self _ _)
    have hc2 : c ≠ ' ' := fun e => hs (e ▸ List.mem_cons_self _ _)
    have hcs : '"' ∉ cs := fun e => hq (List.mem_cons_of_mem _ e)
    have hcs2 : ' ' ∉ cs := fun e => hs (List.mem_cons_of_mem _ e)
    rw [List.cons_append, statusTokensAux]
    simp only [hc, hc2, if_false, false_and]
    rw [ih _ hcs hcs2]; simp

theorem isdigit_ne (c d : Char) (h : isdigit c = true) (hd : isdigit d = false) : c ≠ d := by
  rintro rfl; rw [h] at hd; exact Bool.noConfusion hd

theorem isdigit_not_space (c : Char) (h : isdigit c = true) : isspace c = false := by
  have h1 := isdigit_ne c ' ' h (by decide)
  have h2 := isdigit_ne c '\t' h (by decide)
  have h3 := isdigit_ne c '\n' h (by decide)
  have h4 := isdigit_ne c '\x0b' h (by decide)
  have h5 := isdigit_ne c '\x0c' h (by decide)
  have h6 := isdigit_ne c '\r' h (by decide)
  simp [isspace, h1, h2, h3, h4, h5, h6]

theorem all_isdigit_not_mem (s : Str) (d : Char) (h : s.all isdigit = true)
    (hd : isdigit d = false) : d ∉ s := by
  intro hmem
  have := List.all_eq_true.mp h d hmem
  rw [this] at hd; exact Bool.noConfusion hd

theorem mapAssign_recordA (s n z : Str) :
    mapAssign (mapAssign (mapAssign (mapAssign [] kSlot s) kName n) kScore z) kPing z =
      [(kName, n), (kPing, z), (kScore, z), (kSlot, s)] := by
  rfl

theorem mapAssign_recordB (c p n z : Str) :
    mapAssign (mapAssign (mapAssign (mapAssign [] kScore c) kPing p) kName n) kSlot z =
      [(kName, n), (kPing, p), (kScore, c), (kSlot, z)] := by
  rfl

theorem statusTokens_rowA (s n : Str) (hs : s ≠ []) (hsd : s.all isdigit = true)
    (hnq : '"' ∉ n) :
    statusTokens (s ++ ' ' :: '"' :: (n ++ ['"'])) = [s, '"' :: (n ++ ['"'])] := by
  have h1 := statusTokensAux_word s (' ' :: '"' :: (n ++ ['"'])) [] []
    (all_isdigit_not_mem s _ hsd (by decide)) (all_isdigit_not_mem s _ hsd (by decide))
  have h2 := statusTokensAux_quoted n ['"'] [s] ['"'] hnq
  simp only [statusTokens, h1, List.nil_append]
  rw [statusTokensAux]
  simp only [Char.reduceEq, if_false, true_and, ne_eq, hs, not_false_eq_true, if_true]
  rw [statusTokensAux]
  simp only [if_true, Bool.not_false, List.nil_append, h2]
  simp [statusTokensAux]

theorem isQuoted_quote (n : Str) : isQuoted ('"' :: (n ++ ['"'])) = true := by
  have e : '"' :: (n ++ ['"']) = ('"' :: n) ++ ['"'] := by simp
  have h : ('"' :: (n ++ ['"'])).getLast? = some '"' := by
    rw [e, List.getLast?_append]; simp
  simp [isQuoted, charAt, h]

theorem substr_quote (n : Str) :
    substr ('"' :: (n ++ ['"'])) 1 (('"' :: (n ++ ['"'])).length - 2) = n := by
  simp [substr]

theorem statusLoop_blank_then_row (protocolId : Int) (line : Str) (player : StrMap)
    (hne : line ≠ []) (htrim : trim line = line)
    (hrow : statusRow protocolId line = some player) :
    statusLoop protocolId [[], line] true [] = [player] := by
  simp [statusLoop, hne, htrim, hrow]

theorem getlines_blank_then_row (line : Str) (hne : line ≠ []) (hnl : '\n' ∉ line) :
    getlines ('\n' :: line) = [[], line] := by
  have h := getlinesAux_last line [] hnl (by simpa using hne)
  simp [getlines, getlinesAux, h]

/-- C3. Protocol A info row: for every non-empty all-digit `s` and every `n` without a
double quote and without a line feed (spaces allowed), `ParseGetStatusPlayers` with protocol
id 1, on an empty first line followed by the line `s "n"`, returns exactly one record:
`slot` is `s`, `name` is `n`, `score` and `ping` are `0` (the record is listed in key
order). -/
theorem ParseGetStatusPlayers_protocolA_row (s n : Str) (hs : s ≠ [])
    (hsd : s.all isdigit = true) (hnq : '"' ∉ n) (hnn : '\n' ∉ n) :
    ParseGetStatusPlayers ('\n' :: (s ++ ' ' :: '"' :: (n ++ ['"']))) 1 =
      [[(kName, n), (kPing, "0".toList), (kScore, "0".toList), (kSlot, s)]] := by
  have hne : s ++ ' ' :: '"' :: (n ++ ['"']) ≠ [] := by simp
  have hnl : '\n' ∉ s ++ ' ' :: '"' :: (n ++ ['"']) := by
    have := all_isdigit_not_mem s '\n' hsd (by decide)
    simp [this, hnn]
  have htrim : trim (s ++ ' ' :: '"' :: (n ++ ['"'])) = s ++ ' ' :: '"' :: (n ++ ['"']) := by
    apply trim_eq_self
    · intro c hc
      cases s with
      | nil => exact absurd rfl hs
      | cons d ds =>
        simp only [List.cons_append, List.head?_cons, Option.some.injEq] at hc
        subst hc
        exact isdigit_not_space _ (by simp only [List.all_cons, Bool.and_eq_true] at hsd; exact hsd.1)
    · intro c hc
      have e : s ++ ' ' :: '"' :: (n ++ ['"']) = (s ++ ' ' :: '"' :: n) ++ ['"'] := by simp
      rw [e, List.getLast?_append] at hc
      simp at hc
      subst hc; decide
  have hrow : statusRow 1 (s ++ ' ' :: '"' :: (n ++ ['"'])) =
      some [(kName, n), (kPing, "0".toList), (kScore, "0".toList), (kSlot, s)] := by
    simp only [statusRow, statusTokens_rowA s n hs hsd hnq, tok, List.getD_cons_zero,
      List.getD_cons_succ, isQuoted_quote, substr_quote, mapAssign_recordA]
    simp [mapGet, mapAt, kSlot, kName, kPing, kScore, hsd]
  rw [ParseGetStatusPlayers, getlines_blank_then_row _ hne hnl]
  exact statusLoop_blank_then_row 1 _ _ hne htrim hrow

/-- C3, on the row `3 "Hero"`. -/
theorem ParseGetStatusPlayers_protocolA_row_witness :
    ParseGetStatusPlayers "\n3 \"Hero\"".toList 1 =
      [[(kName, "Hero".toList), (kPing, "0".toList), (kScore, "0".toList),
        (kSlot, "3".toList)]] :=
  ParseGetStatusPlayers_protocolA_row "3".toList "Hero".toList (by decide) (by decide)
    (by decide) (by decide)

theorem isNumber_iff (s : Str) : isNumber s = true ↔ s ≠ [] ∧ s.all isdigit = true := by
  cases s <;> simp [isNumber]

theorem isSignedNumber_cases (c : Str) (h : isSignedNumber c = true) :
    isNumber c = true ∨ ∃ ds, c = '-' :: ds ∧ isNumber ds = true := by
  simp only [isSignedNumber, Bool.or_eq_true] at h
  rcases h with h | h
  · exact Or.inl h
  · right
    split at h
    · exact ⟨_, rfl, h⟩
    · exact absurd h (by simp)

theorem isSignedNumber_not_mem (c : Str) (d : Char) (h : isSignedNumber c = true)
    (hd : isdigit d = false) (hm : d ≠ '-') : d ∉ c := by
  rcases isSignedNumber_cases c h with h | ⟨ds, rfl, h⟩
  · exact all_isdigit_not_mem c d ((isNumber_iff c).mp h).2 hd
  · have := all_isdigit_not_mem ds d ((isNumber_iff ds).mp h).2 hd
    simp [hm, this]

theorem isSignedNumber_ne_nil (c : Str) (h : isSignedNumber c = true) : c ≠ [] := by
  rcases isSignedNumber_cases c h with h | ⟨ds, rfl, _⟩
  · exact ((isNumber_iff c).mp h).1
  · simp

theorem isSignedNumber_head (c : Str) (h : isSignedNumber c = true) :
    ∀ d, c.head? = some d → isspace d = false := by
  intro d hd
  rcases isSignedNumber_cases c h with h | ⟨ds, rfl, _⟩
  · cases c with
    | nil => simp at hd
    | cons e es =>
      simp only [List.head?_cons, Option.some.injEq] at hd
      subst hd
      have := ((isNumber_iff _).mp h).2
      simp only [List.all_cons, Bool.and_eq_true] at this
      exact isdigit_not_space _ this.1
  · simp only [List.head?_cons, Option.some.injEq] at hd
    subst hd; decide

theorem scoreOk_of_isSignedNumber (c : Str) (h : isSignedNumber c = true) :
    scoreOk c = true := by
  rcases isSignedNumber_cases c h with h | ⟨ds, rfl, h⟩
  · simp [scoreOk, ((isNumber_iff c).mp h).2]
  · obtain ⟨h1, h2⟩ := (isNumber_iff ds).mp h
    have : 0 < ds.length := List.length_pos.mpr h1
    simp [scoreOk, charAt, h2, this]

theorem getLast?_append_quote (l : Str) : (l ++ ['"']).getLast? = some '"' := by
  rw [List.getLast?_append]; simp

theorem statusTokens_rowB (c p n : Str) (hc : isSignedNumber c = true)
    (hp : isNumber p = true) (hnq : '"' ∉ n) :
    statusTokens (c ++ ' ' :: (p ++ ' ' :: '"' :: (n ++ ['"']))) =
      [c, p, '"' :: (n ++ ['"'])] := by
  obtain ⟨hp1, hp2⟩ := (isNumber_iff p).mp hp
  have h1 := statusTokensAux_word c (' ' :: (p ++ ' ' :: '"' :: (n ++ ['"']))) [] []
    (isSignedNumber_not_mem c _ hc (by decide) (by decide))
    (isSignedNumber_not_mem c _ hc (by decide) (by decide))
  have h2 := statusTokensAux_word p (' ' :: '"' :: (n ++ ['"'])) [c] []
    (all_isdigit_not_mem p _ hp2 (by decide)) (all_isdigit_not_mem p _ hp2 (by decide))
  have h3 := statusTokensAux_quoted n ['"'] [c, p] ['"'] hnq
  simp only [statusTokens, h1, List.nil_append]
  rw [statusTokensAux]
  simp only [Char.reduceEq, if_false, true_and, ne_eq, isSignedNumber_ne_nil c hc,
    not_false_eq_true, if_true, List.nil_append, h2]
  rw [statusTokensAux]
  simp only [Char.reduceEq, if_false, true_and, ne_eq, hp1, not_false_eq_true, if_true]
  rw [statusTokensAux]
  simp only [if_true, Bool.not_false, List.nil_append, List.cons_append, h3]
  simp [statusTokensAux]

/-- C4. Protocol B info row: for every score `c` that is a non-empty digit string or `-`
followed by a non-empty digit string, every non-empty all-digit ping `p` and every name `n`
without a double quote and without a line feed (spaces allowed), `ParseGetStatusPlayers`
with protocol id 2, on an empty first line followed by the line `c p "n"`, returns exactly
one record: `score` is `c`, `ping` is `p`, `name` is `n`, `slot` is `0` (the record is
listed in key order). -/
theorem ParseGetStatusPlayers_protocolB_row (c p n : Str) (hc : isSignedNumber c = true)
    (hp : isNumber p = true) (hnq : '"' ∉ n) (hnn : '\n' ∉ n) :
    ParseGetStatusPlayers ('\n' :: (c ++ ' ' :: (p ++ ' ' :: '"' :: (n ++ ['"'])))) 2 =
      [[(kName, n), (kPing, p), (kScore, c), (kSlot, "0".toList)]] := by
  obtain ⟨hp1, hp2⟩ := (isNumber_iff p).mp hp
  have hne : c ++ ' ' :: (p ++ ' ' :: '"' :: (n ++ ['"'])) ≠ [] := by simp
  have hnl : '\n' ∉ c ++ ' ' :: (p ++ ' ' :: '"' :: (n ++ ['"'])) := by
    have h1 := isSignedNumber_not_mem c '\n' hc (by decide) (by decide)
    have h2 := all_isdigit_not_mem p '\n' hp2 (by decide)
    simp [h1, h2, hnn]
  have htrim : trim (c ++ ' ' :: (p ++ ' ' :: '"' :: (n ++ ['"']))) =
      c ++ ' ' :: (p ++ ' ' :: '"' :: (n ++ ['"'])) := by
    apply trim_eq_self
    · intro d hd
      apply isSignedNumber_head c hc d
      cases c with
      | nil => exact absurd rfl (isSignedNumber_ne_nil _ hc)
      | cons e es => simpa using hd
    · intro d hd
      have e : c ++ ' ' :: (p ++ ' ' :: '"' :: (n ++ ['"'])) =
          (c ++ ' ' :: (p ++ ' ' :: '"' :: n)) ++ ['"'] := by simp
      rw [e, getLast?_append_quote] at hd
      simp only [Option.some.injEq] at hd
      subst hd; decide
  have hrow : statusRow 2 (c ++ ' ' :: (p ++ ' ' :: '"' :: (n ++ ['"']))) =
      some [(kName, n), (kPing, p), (kScore, c), (kSlot, "0".toList)] := by
    simp only [statusRow, statusTokens_rowB c p n hc hp hnq, tok, List.getD_cons_zero,
      List.getD_cons_succ, isQuoted_quote, substr_quote, mapAssign_recordB]
    simp [mapGet, mapAt, kSlot, kName, kPing, kScore, scoreOk_of_isSignedNumber c hc, pingOk,
      hp2]
  rw [ParseGetStatusPlayers, getlines_blank_then_row _ hne hnl]
  exact statusLoop_blank_then_row 2 _ _ hne htrim hrow

/-- C4, on the row `7 42 "Hero"`. -/
theorem ParseGetStatusPlayers_protocolB_row_witness :
    ParseGetStatusPlayers "\n7 42 \"Hero\"".toList 2 =
      [[(kName, "Hero".toList), (kPing, "42".toList), (kScore, "7".toList),
        (kSlot, "0".toList)]] :=
  ParseGetStatusPlayers_protocolB_row "7".toList "42".toList "Hero".toList (by decide)
    (by decide) (by decide) (by decide)

/-! ## What `ParseGetStatusPlayers` emits -/

theorem statusTokensAux_nonempty (l : Str) :
    ∀ (tokens : List Str) (token : Str) (q : Bool), (∀ t ∈ tokens, t ≠ []) →
      ∀ t ∈ (statusTokensAux l tokens token q).1, t ≠ [] := by
  induction l with
  | nil => intro tokens token q h; simpa [statusTokensAux] using h
  | cons c cs ih =>
    intro tokens token q h
    rw [statusTokensAux]
    split
    · exact ih _ _ _ h
    · split
      · rename_i hc
        apply ih
        intro t ht
        rcases List.mem_append.mp ht with h1 | h1
        · exact h t h1
        · simp only [List.mem_singleton] at h1
          subst h1; exact hc.2.2
      · exact ih _ _ _ h

theorem statusTokens_nonempty (line : Str) : ∀ t ∈ statusTokens line, t ≠ [] := by
  intro t ht
  have h := statusTokensAux_nonempty line [] [] false (by simp)
  simp only [statusTokens] at ht
  split at ht
  · rename_i hne
    rcases List.mem_append.mp ht with h1 | h1
    · exact h t h1
    · simp only [List.mem_singleton] at h1
      subst h1; exact hne
  · exact h t ht

theorem startsToken_grow (c d : Char) (tokens : List Str) (token : Str)
    (h : startsToken c tokens token) : startsToken c tokens (token ++ [d]) := by
  obtain ⟨t, ts, e⟩ := h
  cases tokens with
  | nil =>
    simp only [List.nil_append, List.cons.injEq] at e
    exact ⟨t ++ [d], [], by rw [e.1]; simp⟩
  | cons x xs =>
    simp only [List.cons_append, List.cons.injEq] at e
    exact ⟨t, xs ++ [token ++ [d]], by simp [e.1]⟩

theorem startsToken_push (c : Char) (tokens : List Str) (token : Str)
    (h : startsToken c tokens token) : startsToken c (tokens ++ [token]) [] := by
  obtain ⟨t, ts, e⟩ := h
  exact ⟨t, ts ++ [[]], by rw [e]; simp⟩

theorem statusTokensAux_start (c : Char) (l : Str) :
    ∀ (tokens : List Str) (token : Str) (q : Bool), startsToken c tokens token →
      startsToken c (statusTokensAux l tokens token q).1 (statusTokensAux l tokens token q).2 := by
  induction l with
  | nil => intro tokens token q h; simpa [statusTokensAux] using h
  | cons d ds ih =>
    intro tokens token q h
    rw [statusTokensAux]
    split
    · exact ih _ _ _ (startsToken_grow c d tokens token h)
    · split
      · exact ih _ _ _ (startsToken_push c tokens token h)
      · exact ih _ _ _ (startsToken_grow c d tokens token h)

theorem statusTokens_head (c : Char) (cs : Str) :
    ∃ t ts, statusTokens (c :: cs) = (c :: t) :: ts := by
  have h0 : ∃ q, statusTokensAux (c :: cs) [] [] false = statusTokensAux cs [] [c] q := by
    rw [statusTokensAux]
    split
    · exact ⟨_, rfl⟩
    · split
      · rename_i h; exact absurd rfl h.2.2
      · exact ⟨_, rfl⟩
  obtain ⟨q, hq⟩ := h0
  have h := statusTokensAux_start c cs [] [c] q ⟨[], [], rfl⟩
  rw [← hq] at h
  obtain ⟨t, ts, e⟩ := h
  simp only [statusTokens]
  split
  · exact ⟨t, ts, e⟩
  · rename_i hne
    simp only [ne_eq, not_not] at hne
    rw [hne] at e
    cases hts : (statusTokensAux (c :: cs) [] [] false).1 with
    | nil => rw [hts] at e; simp at e
    | cons x xs =>
      rw [hts] at e
      simp only [List.cons_append, List.cons.injEq] at e
      exact ⟨t, xs, by rw [e.1]⟩

theorem statusRow_some (protocolId : Int) (line : Str) (r : StrMap)
    (h : statusRow protocolId line = some r) :
    (protocolId = 1 ∧ 2 ≤ (statusTokens line).length ∧
      ∃ name, r = [(kName, name), (kPing, "0".toList), (kScore, "0".toList),
        (kSlot, tok (statusTokens line) 0)] ∧ (tok (statusTokens line) 0).all isdigit = true) ∨
    (protocolId = 2 ∧ 3 ≤ (statusTokens line).length ∧
      ∃ name, r = [(kName, name), (kPing, tok (statusTokens line) 1),
        (kScore, tok (statusTokens line) 0), (kSlot, "0".toList)] ∧
        scoreOk (tok (statusTokens line) 0) = true ∧ pingOk (tok (statusTokens line) 1) = true) := by
  simp only [statusRow, mapAssign_recordA, mapAssign_recordB] at h
  split at h
  · rename_i h1
    left
    refine ⟨h1.1, h1.2, ?_⟩
    split at h
    · split at h
      · rename_i h3
        simp only [Option.some.injEq] at h
        refine ⟨_, h.symm, ?_⟩
        simpa [mapGet, mapAt, kSlot, kName, kPing, kScore] using h3
      · exact absurd h (by simp)
    · exact absurd h (by simp)
  · split at h
    · rename_i h1
      right
      refine ⟨h1.1, h1.2, ?_⟩
      split at h
      · split at h
        · rename_i h3
          simp only [Option.some.injEq] at h
          refine ⟨_, h.symm, ?_⟩
          simpa [mapGet, mapAt, kSlot, kName, kPing, kScore] using h3
        · exact absurd h (by simp)
      · exact absurd h (by simp)
    · exact absurd h (by simp)

theorem statusLoop_mem (protocolId : Int) (lines : List Str) :
    ∀ (flag : Bool) (players : List StrMap) (r : StrMap),
      r ∈ statusLoop protocolId lines flag players →
      r ∈ players ∨ ∃ line ∈ lines, line ≠ [] ∧ statusRow protocolId (trim line) = some r := by
  induction lines with
  | nil => intro flag players r h; exact Or.inl (by simpa [statusLoop] using h)
  | cons l ls ih =>
    intro flag players r h
    have lift : ∀ ps : List StrMap, (r ∈ ps ∨ ∃ line ∈ ls, line ≠ [] ∧
        statusRow protocolId (trim line) = some r) → (r ∈ ps → r ∈ players ∨
          (l ≠ [] ∧ statusRow protocolId (trim l) = some r)) →
        r ∈ players ∨ ∃ line ∈ l :: ls, line ≠ [] ∧
          statusRow protocolId (trim line) = some r := by
      intro ps h1 h2
      rcases h1 with h1 | ⟨line, hl, h3⟩
      · rcases h2 h1 with h4 | h4
        · exact Or.inl h4
        · exact Or.inr ⟨l, List.mem_cons_self _ _, h4⟩
      · exact Or.inr ⟨line, List.mem_cons_of_mem _ hl, h3⟩
    rw [statusLoop] at h
    split at h
    · exact lift _ (ih _ _ _ h) Or.inl
    · rename_i hne
      split at h
      · exact lift _ (ih _ _ _ h) Or.inl
      · simp only at h
        split at h
        · exact lift _ (ih _ _ _ h) Or.inl
        · split at h
          · rename_i player hrow
            refine lift _ (ih _ _ _ h) ?_
            intro hmem
            rcases List.mem_append.mp hmem with h5 | h5
            · exact Or.inl h5
            · simp only [List.mem_singleton] at h5
              subst h5
              exact Or.inr ⟨hne, hrow⟩
          · exact lift _ (ih _ _ _ h) Or.inl

theorem trim_head (c : Char) (cs : Str) (hc : isspace c = false) :
    ∃ t, trim (c :: cs) = c :: t := by
  have h1 : (c :: cs).dropWhile isspace = c :: cs := by simp [List.dropWhile_cons, hc]
  have h2 : trim (c :: cs) = (c :: cs).rdropWhile isspace := by
    rw [trim, h1, List.rdropWhile]
  have h3 : (c :: cs).rdropWhile isspace <+: c :: cs := List.rdropWhile_prefix _ _
  have h4 : (c :: cs).rdropWhile isspace ≠ [] := by
    intro e
    have := (List.rdropWhile_eq_nil_iff (p := isspace)).mp e c (List.mem_cons_self _ _)
    rw [hc] at this; exact Bool.noConfusion this
  rw [h2]
  obtain ⟨u, hu⟩ := h3
  cases hx : (c :: cs).rdropWhile isspace with
  | nil => exact absurd hx h4
  | cons x xs =>
    rw [hx] at hu
    simp only [List.cons_append, List.cons.injEq] at hu
    exact ⟨xs, by rw [hu.1]⟩

theorem statusRow_first_byte (protocolId : Int) (c : Char) (cs : Str) (r : StrMap)
    (h : statusRow protocolId (c :: cs) = some r) : isdigit c = true ∨ c = '-' := by
  obtain ⟨t, ts, e⟩ := statusTokens_head c cs
  have h0 : tok (statusTokens (c :: cs)) 0 = c :: t := by simp [tok, e]
  rcases statusRow_some protocolId (c :: cs) r h with ⟨_, _, name, _, hd⟩ | ⟨_, _, name, _, hs, _⟩
  · rw [h0] at hd
    simp only [List.all_cons, Bool.and_eq_true] at hd
    exact Or.inl hd.1
  · rw [h0] at hs
    simp only [scoreOk, List.isEmpty_cons, Bool.false_or, Bool.or_eq_true, List.all_cons,
      Bool.and_eq_true, charAt, List.getD_cons_zero, beq_iff_eq] at hs
    rcases hs with hs | hs
    · exact Or.inl hs.1
    · exact Or.inr hs.1.2

theorem statusRow_trim_no_backslash (protocolId : Int) (line : Str) (r : StrMap)
    (hne : line ≠ []) (h : statusRow protocolId (trim line) = some r) :
    charAt line 0 ≠ '\\' := by
  cases line with
  | nil => exact absurd rfl hne
  | cons c cs =>
    intro hc
    simp only [charAt, List.getD_cons_zero] at hc
    subst hc
    obtain ⟨t, ht⟩ := trim_head '\\' cs (by decide)
    rw [ht] at h
    rcases statusRow_first_byte protocolId _ _ r h with h1 | h1
    · exact absurd h1 (by decide)
    · exact absurd h1 (by decide)

/-- C10, as the code has it. Every record emitted by `ParseGetStatusPlayers` is what the
row decoder makes of a line of the body that is not empty and does not start with a
backslash (the line need not lie after a blank line); and a body whose lines all are empty
or start with a backslash yields no players. -/
theorem ParseGetStatusPlayers_rows_from_lines (response : Str) (protocolId : Int) :
    (∀ r ∈ ParseGetStatusPlayers response protocolId,
      ∃ line ∈ getlines response, line ≠ [] ∧ charAt line 0 ≠ '\\' ∧
        statusRow protocolId (trim line) = some r) ∧
    ((∀ line ∈ getlines response, line = [] ∨ charAt line 0 = '\\') →
      ParseGetStatusPlayers response protocolId = []) := by
  have key : ∀ r ∈ ParseGetStatusPlayers response protocolId,
      ∃ line ∈ getlines response, line ≠ [] ∧ charAt line 0 ≠ '\\' ∧
        statusRow protocolId (trim line) = some r := by
    intro r hr
    rcases statusLoop_mem protocolId _ _ _ r hr with h | ⟨line, hl, hne, hrow⟩
    · simp at h
    · exact ⟨line, hl, hne, statusRow_trim_no_backslash protocolId line r hne hrow, hrow⟩
  refine ⟨key, ?_⟩
  intro hall
  apply List.eq_nil_iff_forall_not_mem.mpr
  intro r hr
  obtain ⟨line, hl, hne, hb, _⟩ := key r hr
  rcases hall line hl with h | h
  · exact hne h
  · exact hb h

/-- C10 fails as stated: the body `3 "Hero"` has no blank line (its only line is the row)
and yet yields a player under protocol id 1. -/
theorem ParseGetStatusPlayers_no_blank_line_counterexample :
    getlines "3 \"Hero\"".toList = ["3 \"Hero\"".toList] ∧
    ParseGetStatusPlayers "3 \"Hero\"".toList 1 =
      [[(kName, "Hero".toList), (kPing, "0".toList), (kScore, "0".toList),
        (kSlot, "3".toList)]] := by
  decide

/-! ## What `ParseRconStatusPlayers` emits -/

theorem mapAssign_playerA (t0 t1 t2 t3 t4 t5 t6 t7 : Str) :
    mapAssign (mapAssign (mapAssign (mapAssign (mapAssign (mapAssign (mapAssign
        (mapAssign [] kSlot t0) kScore t1) kPing t2) kName t3) kLastmsg t4) kAddress t5) kQport
        t6) kRate t7 =
      playerA t0 t1 t2 t3 t4 t5 t6 t7 := by
  have h0 : mapAssign [] kSlot t0 =
      [(kSlot, t0)] := rfl
  have h1 : mapAssign [(kSlot, t0)] kScore t1 =
      [(kScore, t1), (kSlot, t0)] := rfl
  have h2 : mapAssign [(kScore, t1), (kSlot, t0)] kPing t2 =
      [(kPing, t2), (kScore, t1), (kSlot, t0)] := rfl
  have h3 : mapAssign [(kPing, t2), (kScore, t1), (kSlot, t0)] kName t3 =
      [(kName, t3), (kPing, t2), (kScore, t1), (kSlot, t0)] := rfl
  have h4 : mapAssign [(kName, t3), (kPing, t2), (kScore, t1), (kSlot, t0)] kLastmsg t4 =
      [(kLastmsg, t4), (kName, t3), (kPing, t2), (kScore, t1), (kSlot, t0)] := rfl
  have h5 : mapAssign [(kLastmsg, t4), (kName, t3), (kPing, t2), (kScore, t1),
      (kSlot, t0)] kAddress t5 =
      [(kAddress, t5), (kLastmsg, t4), (kName, t3), (kPing, t2), (kScore, t1), (kSlot, t0)] := rfl
  have h6 : mapAssign [(kAddress, t5), (kLastmsg, t4), (kName, t3), (kPing, t2), (kScore, t1),
      (kSlot, t0)] kQport t6 =
      [(kAddress, t5), (kLastmsg, t4), (kName, t3), (kPing, t2), (kQport, t6), (kScore, t1),
          (kSlot, t0)] := rfl
  have h7 : mapAssign [(kAddress, t5), (kLastmsg, t4), (kName, t3), (kPing, t2), (kQport, t6),
      (kScore, t1), (kSlot, t0)] kRate t7 =
      [(kAddress, t5), (kLastmsg, t4), (kName, t3), (kPing, t2), (kQport, t6), (kRate, t7),
          (kScore, t1), (kSlot, t0)] := rfl
  rw [h0, h1, h2, h3, h4, h5, h6, h7]
  rfl

theorem rconKeep_playerA (t0 t1 t2 t3 t4 t5 t6 t7 : Str) :
    rconKeep (playerA t0 t1 t2 t3 t4 t5 t6 t7) =
      (t0.all isdigit && scoreOk t1 && pingOk t2) := by
  rfl

theorem mapAssign_playerGuid (t0 t1 t2 t3 t4 t5 t6 t7 t8 : Str) :
    mapAssign (mapAssign (mapAssign (mapAssign (mapAssign (mapAssign (mapAssign (mapAssign
        (mapAssign [] kSlot t0) kScore t1) kPing t2) kGuid t3) kName t4) kLastmsg t5) kAddress
        t6) kQport t7) kRate t8 =
      playerGuid t0 t1 t2 t3 t4 t5 t6 t7 t8 := by
  have h0 : mapAssign [] kSlot t0 =
      [(kSlot, t0)] := rfl
  have h1 : mapAssign [(kSlot, t0)] kScore t1 =
      [(kScore, t1), (kSlot, t0)] := rfl
  have h2 : mapAssign [(kScore, t1), (kSlot, t0)] kPing t2 =
      [(kPing, t2), (kScore, t1), (kSlot, t0)] := rfl
  have h3 : mapAssign [(kPing, t2), (kScore, t1), (kSlot, t0)] kGuid t3 =
      [(kGuid, t3), (kPing, t2), (kScore, t1), (kSlot, t0)] := rfl
  have h4 : mapAssign [(kGuid, t3), (kPing, t2), (kScore, t1), (kSlot, t0)] kName t4 =
      [(kGuid, t3), (kName, t4), (kPing, t2), (kScore, t1), (kSlot, t0)] := rfl
  have h5 : mapAssign [(kGuid, t3), (kName, t4), (kPing, t2), (kScore, t1),
      (kSlot, t0)] kLastmsg t5 =
      [(kGuid, t3), (kLastmsg, t5), (kName, t4), (kPing, t2), (kScore, t1), (kSlot, t0)] := rfl
  have h6 : mapAssign [(kGuid, t3), (kLastmsg, t5), (kName, t4), (kPing, t2), (kScore, t1),
      (kSlot, t0)] kAddress t6 =
      [(kAddress, t6), (kGuid, t3), (kLastmsg, t5), (kName, t4), (kPing, t2), (kScore, t1),
          (kSlot, t0)] := rfl
  have h7 : mapAssign [(kAddress, t6), (kGuid, t3), (kLastmsg, t5), (kName, t4), (kPing, t2),
      (kScore, t1), (kSlot, t0)] kQport t7 =
      [(kAddress, t6), (kGuid, t3), (kLastmsg, t5), (kName, t4), (kPing, t2), (kQport, t7),
          (kScore, t1), (kSlot, t0)] := rfl
  have h8 : mapAssign [(kAddress, t6), (kGuid, t3), (kLastmsg, t5), (kName, t4), (kPing, t2),
      (kQport, t7), (kScore, t1), (kSlot, t0)] kRate t8 =
      [(kAddress, t6), (kGuid, t3), (kLastmsg, t5), (kName, t4), (kPing, t2), (kQport, t7),
          (kRate, t8), (kScore, t1), (kSlot, t0)] := rfl
  rw [h0, h1, h2, h3, h4, h5, h6, h7, h8]
  rfl

theorem rconKeep_playerGuid (t0 t1 t2 t3 t4 t5 t6 t7 t8 : Str) :
    rconKeep (playerGuid t0 t1 t2 t3 t4 t5 t6 t7 t8) =
      (t0.all isdigit && scoreOk t1 && pingOk t2) := by
  rfl

theorem mapAssign_playerSteam (t0 t1 t2 t3 t4 t5 t6 t7 t8 t9 : Str) :
    mapAssign (mapAssign (mapAssign (mapAssign (mapAssign (mapAssign (mapAssign (mapAssign
        (mapAssign
        (mapAssign [] kSlot t0) kScore t1) kPing t2) kPlayerid t3) kSteamid t4) kName t5)
        kLastmsg t6) kAddress t7) kQport t8) kRate t9 =
      playerSteam t0 t1 t2 t3 t4 t5 t6 t7 t8 t9 := by
  have h0 : mapAssign [] kSlot t0 =
      [(kSlot, t0)] := rfl
  have h1 : mapAssign [(kSlot, t0)] kScore t1 =
      [(kScore, t1), (kSlot, t0)] := rfl
  have h2 : mapAssign [(kScore, t1), (kSlot, t0)] kPing t2 =
      [(kPing, t2), (kScore, t1), (kSlot, t0)] := rfl
  have h3 : mapAssign [(kPing, t2), (kScore, t1), (kSlot, t0)] kPlayerid t3 =
      [(kPing, t2), (kPlayerid, t3), (kScore, t1), (kSlot, t0)] := rfl
  have h4 : mapAssign [(kPing, t2), (kPlayerid, t3), (kScore, t1), (kSlot, t0)] kSteamid t4 =
      [(kPing, t2), (kPlayerid, t3), (kScore, t1), (kSlot, t0), (kSteamid, t4)] := rfl
  have h5 : mapAssign [(kPing, t2), (kPlayerid, t3), (kScore, t1), (kSlot, t0),
      (kSteamid, t4)] kName t5 =
      [(kName, t5), (kPing, t2), (kPlayerid, t3), (kScore, t1), (kSlot, t0), (kSteamid, t4)] := rfl
  have h6 : mapAssign [(kName, t5), (kPing, t2), (kPlayerid, t3), (kScore, t1), (kSlot, t0),
      (kSteamid, t4)] kLastmsg t6 =
      [(kLastmsg, t6), (kName, t5), (kPing, t2), (kPlayerid, t3), (kScore, t1), (kSlot, t0),
          (kSteamid, t4)] := rfl
  have h7 : mapAssign [(kLastmsg, t6), (kName, t5), (kPing, t2), (kPlayerid, t3), (kScore, t1),
      (kSlot, t0), (kSteamid, t4)] kAddress t7 =
      [(kAddress, t7), (kLastmsg, t6), (kName, t5), (kPing, t2), (kPlayerid, t3), (kScore, t1),
          (kSlot, t0), (kSteamid, t4)] := rfl
  have h8 : mapAssign [(kAddress, t7), (kLastmsg, t6), (kName, t5), (kPing, t2),
      (kPlayerid, t3), (kScore, t1), (kSlot, t0), (kSteamid, t4)] kQport t8 =
      [(kAddress, t7), (kLastmsg, t6), (kName, t5), (kPing, t2), (kPlayerid, t3), (kQport, t8),
          (kScore, t1), (kSlot, t0), (kSteamid, t4)] := rfl
  have h9 : mapAssign [(kAddress, t7), (kLastmsg, t6), (kName, t5), (kPing, t2),
      (kPlayerid, t3), (kQport, t8), (kScore, t1), (kSlot, t0), (kSteamid, t4)] kRate t9 =
      [(kAddress, t7), (kLastmsg, t6), (kName, t5), (kPing, t2), (kPlayerid, t3), (kQport, t8),
          (kRate, t9), (kScore, t1), (kSlot, t0), (kSteamid, t4)] := rfl
  rw [h0, h1, h2, h3, h4, h5, h6, h7, h8, h9]
  rfl

theorem rconKeep_playerSteam (t0 t1 t2 t3 t4 t5 t6 t7 t8 t9 : Str) :
    rconKeep (playerSteam t0 t1 t2 t3 t4 t5 t6 t7 t8 t9) =
      (t0.all isdigit && scoreOk t1 && pingOk t2) := by
  rfl

theorem rconRow_some (protocolId : Int) (isSteam : Bool) (line : Str) (r : StrMap)
    (h : rconRow protocolId isSteam line = some r) :
    rconShape protocolId isSteam (rconTokens line protocolId isSteam) r ∧
      (tok (rconTokens line protocolId isSteam) 0).all isdigit = true ∧
      scoreOk (tok (rconTokens line protocolId isSteam) 1) = true ∧
      pingOk (tok (rconTokens line protocolId isSteam) 2) = true := by
  cases isSteam with
  | false =>
    simp only [rconRow, mapAssign_playerA, Bool.false_eq_true, if_false,
      mapAssign_playerGuid, rconKeep_playerA, rconKeep_playerGuid] at h
    split at h
    · rename_i h1
      split at h
      · rename_i h2
        simp only [Option.some.injEq] at h
        simp only [Bool.and_eq_true] at h2
        exact ⟨Or.inl ⟨h1.1, h1.2, h.symm⟩, h2.1.1, h2.1.2, h2.2⟩
      · exact absurd h (by simp)
    · split at h
      · rename_i h1
        split at h
        · rename_i h2
          simp only [Option.some.injEq] at h
          simp only [Bool.and_eq_true] at h2
          exact ⟨Or.inr (Or.inl ⟨h1.1, rfl, h1.2, h.symm⟩), h2.1.1, h2.1.2, h2.2⟩
        · exact absurd h (by simp)
      · exact absurd h (by simp)
  | true =>
    simp only [rconRow, mapAssign_playerA, if_true,
      mapAssign_playerSteam, rconKeep_playerA, rconKeep_playerSteam] at h
    split at h
    · rename_i h1
      split at h
      · rename_i h2
        simp only [Option.some.injEq] at h
        simp only [Bool.and_eq_true] at h2
        exact ⟨Or.inl ⟨h1.1, h1.2, h.symm⟩, h2.1.1, h2.1.2, h2.2⟩
      · exact absurd h (by simp)
    · split at h
      · rename_i h1
        split at h
        · rename_i h2
          simp only [Option.some.injEq] at h
          simp only [Bool.and_eq_true] at h2
          exact ⟨Or.inr (Or.inr ⟨h1.1, rfl, h1.2, h.symm⟩), h2.1.1, h2.1.2, h2.2⟩
        · exact absurd h (by simp)
      · exact absurd h (by simp)

theorem nameFieldOf_ge (protocolId : Int) (isSteam : Bool) : 3 ≤ nameFieldOf protocolId isSteam := by
  unfold nameFieldOf
  split
  · exact le_refl _
  · split <;> omega

theorem take3_push (l : List Str) (t x : Str) (hx : x ∈ (l ++ [t]).take 3) :
    x ∈ l.take 3 ∨ (x = t ∧ l.length < 3) := by
  rw [List.take_append_eq_append_take] at hx
  rcases List.mem_append.mp hx with h | h
  · exact Or.inl h
  · right
    by_cases hl : l.length < 3
    · exact ⟨by simpa using List.mem_of_mem_take h, hl⟩
    · have : 3 - l.length = 0 := by omega
      rw [this] at h; simp at h

theorem rconTokenLoop_inv (line : Str) (protocolId : Int) (isSteam : Bool) :
    ∀ (fuel : Nat) (s : RconTok), tokInv s →
      tokInv (rconTokenLoop line protocolId isSteam fuel s) := by
  intro fuel
  induction fuel with
  | zero => intro s h; simpa [rconTokenLoop] using h
  | succ f ih =>
    intro s h
    rw [rconTokenLoop]
    split
    · split
      · rename_i hnf
        apply ih
        refine ⟨?_, by simp only [List.length_append, List.length_singleton]; have := h.2; omega⟩
        intro x hx
        rcases take3_push _ _ _ hx with h1 | ⟨_, h2⟩
        · exact h.1 x h1
        · have := nameFieldOf_ge protocolId isSteam
          have := h.2
          omega
      · split
        · rename_i hsp
          apply ih
          refine ⟨?_, by simp only [List.length_append, List.length_singleton]; have := h.2; omega⟩
          intro x hx
          rcases take3_push _ _ _ hx with h1 | ⟨h2, _⟩
          · exact h.1 x h1
          · rw [h2]; exact hsp.2
        · split
          · refine ⟨?_, ?_⟩
            · intro x hx
              simp only at hx
              split at hx
              · rename_i hne
                rcases take3_push _ _ _ hx with h1 | ⟨h2, _⟩
                · exact h.1 x h1
                · rw [h2]; exact hne
              · exact h.1 x hx
            · simp only
              split
              · simp only [List.length_append, List.length_singleton]; have := h.2; omega
              · exact h.2
          · apply ih
            exact ⟨h.1, h.2⟩
    · exact h

theorem rconTokens_take3 (line : Str) (protocolId : Int) (isSteam : Bool) :
    ∀ t ∈ (rconTokens line protocolId isSteam).take 3, t ≠ [] := by
  have h := rconTokenLoop_inv line protocolId isSteam (line.length + 1) ⟨0, [], [], 0⟩
    ⟨by simp, by simp⟩
  intro t ht
  simp only [rconTokens] at ht
  split at ht
  · rename_i hne
    rcases take3_push _ _ _ ht with h1 | ⟨h2, _⟩
    · exact h.1 t h1
    · rw [h2]; exact hne
  · exact h.1 t ht

theorem rconTokens_first (line : Str) (protocolId : Int) (isSteam : Bool)
    (hlen : 1 ≤ (rconTokens line protocolId isSteam).length) :
    tok (rconTokens line protocolId isSteam) 0 ≠ [] := by
  apply rconTokens_take3 line protocolId isSteam
  cases hT : rconTokens line protocolId isSteam with
  | nil => rw [hT] at hlen; simp at hlen
  | cons x xs => simp [tok]

theorem ParseRconStatusPlayers_mem (response : Str) (protocolId : Int) (r : StrMap)
    (h : r ∈ ParseRconStatusPlayers response protocolId) :
    ∃ line ∈ getlines response, trim line ≠ [] ∧ isHeaderLine (trim line) = false ∧
      rconRow protocolId (detectSteam (getlines response)) (trim line) = some r := by
  simp only [ParseRconStatusPlayers, List.mem_filterMap] at h
  obtain ⟨line, hl, hr⟩ := h
  refine ⟨line, hl, ?_⟩
  simp only [rconLine] at hr
  split at hr
  · exact absurd hr (by simp)
  · rename_i hne
    split at hr
    · exact absurd hr (by simp)
    · rename_i hh
      exact ⟨hne, by simpa using hh, hr⟩

/-! ## The invariant of the player rows -/

theorem scoreOk_cases (s : Str) (h : scoreOk s = true) : s = [] ∨ isSignedNumber s = true := by
  cases s with
  | nil => exact Or.inl rfl
  | cons c cs =>
    right
    simp only [scoreOk, List.isEmpty_cons, Bool.false_or, Bool.or_eq_true, Bool.and_eq_true,
      decide_eq_true_eq, charAt, List.getD_cons_zero, beq_iff_eq, List.drop_succ_cons,
      List.drop_zero, List.length_cons] at h
    rcases h with h | ⟨⟨hl, hc⟩, hd⟩
    · simp [isSignedNumber, isNumber, h]
    · subst hc
      have hne : cs ≠ [] := by
        intro e; subst e; simp at hl
      have : isNumber cs = true := (isNumber_iff cs).mpr ⟨hne, hd⟩
      simp [isSignedNumber, this]

theorem pingOk_cases (s : Str) (h : pingOk s = true) : s = [] ∨ isNumber s = true := by
  cases s with
  | nil => exact Or.inl rfl
  | cons c cs =>
    right
    simp only [pingOk, List.isEmpty_cons, Bool.false_or] at h
    simp [isNumber, h]

theorem tok_mem (T : List Str) (j : Nat) (h : j < T.length) : tok T j ∈ T := by
  simp only [tok, List.getD_eq_getElem?_getD, List.getElem?_eq_getElem h, Option.getD_some]
  exact List.getElem_mem h

theorem rowInvariant_status (response : Str) (protocolId : Int) (r : StrMap)
    (h : r ∈ ParseGetStatusPlayers response protocolId) : rowInvariant r := by
  obtain ⟨line, _, _, hrow⟩ := statusLoop_mem protocolId _ _ _ r h |>.resolve_left (by simp)
  rcases statusRow_some protocolId _ r hrow with ⟨_, hlen, name, hr, hd⟩ | ⟨_, hlen, name, hr, hs, hp⟩
  · subst hr
    refine ⟨_, _, _, rfl, rfl, rfl, ?_, Or.inr (by decide), Or.inr (by decide)⟩
    exact (isNumber_iff _).mpr
      ⟨statusTokens_nonempty _ _ (tok_mem _ 0 (by omega)), hd⟩
  · subst hr
    exact ⟨_, _, _, rfl, rfl, rfl, by decide, scoreOk_cases _ hs, pingOk_cases _ hp⟩

theorem rowInvariant_rcon (response : Str) (protocolId : Int) (r : StrMap)
    (h : r ∈ ParseRconStatusPlayers response protocolId) : rowInvariant r := by
  obtain ⟨line, _, _, _, hrow⟩ := ParseRconStatusPlayers_mem response protocolId r h
  obtain ⟨hshape, hd, hs, hp⟩ := rconRow_some _ _ _ r hrow
  have hslot : 1 ≤ (rconTokens (trim line) protocolId (detectSteam (getlines response))).length →
      isNumber (tok (rconTokens (trim line) protocolId (detectSteam (getlines response))) 0)
        = true :=
    fun hl => (isNumber_iff _).mpr ⟨rconTokens_first _ _ _ hl, hd⟩
  rcases hshape with ⟨_, hl, hr⟩ | ⟨_, _, hl, hr⟩ | ⟨_, _, hl, hr⟩
  · subst hr
    exact ⟨_, _, _, rfl, rfl, rfl, hslot (by omega), scoreOk_cases _ hs, pingOk_cases _ hp⟩
  · subst hr
    exact ⟨_, _, _, rfl, rfl, rfl, hslot (by omega), scoreOk_cases _ hs, pingOk_cases _ hp⟩
  · subst hr
    exact ⟨_, _, _, rfl, rfl, rfl, hslot (by omega), scoreOk_cases _ hs, pingOk_cases _ hp⟩

/-- C2. Player-row invariant: for every input text and every protocol id, every record
emitted by `ParseGetStatusPlayers` and by `ParseRconStatusPlayers` has a `slot` that is a
non-empty string of decimal digits, a `score` that is empty, all digits, or one `-`
followed by at least one digit, and a `ping` that is empty or all digits. -/
theorem player_row_invariant (response : Str) (protocolId : Int) (r : StrMap)
    (h : r ∈ ParseGetStatusPlayers response protocolId ∨
      r ∈ ParseRconStatusPlayers response protocolId) :
    ∃ slot score ping, mapAt r kSlot = some slot ∧ mapAt r kScore = some score ∧
      mapAt r kPing = some ping ∧ isNumber slot = true ∧
      (score = [] ∨ isSignedNumber score = true) ∧ (ping = [] ∨ isNumber ping = true) := by
  rcases h with h | h
  · exact rowInvariant_status response protocolId r h
  · exact rowInvariant_rcon response protocolId r h

/-- C2, on the record of the rcon status row `1 -5 30 Big Bob 25 1.2.3.4:28960 1234 25000`
of protocol id 1. -/
theorem player_row_invariant_witness :
    playerA "1".toList "-5".toList "30".toList "Big Bob".toList "25".toList
        "1.2.3.4:28960".toList "1234".toList "25000".toList ∈
      ParseRconStatusPlayers "1 -5 30 Big Bob 25 1.2.3.4:28960 1234 25000".toList 1 ∧
    ∃ slot score ping,
      mapAt (playerA "1".toList "-5".toList "30".toList "Big Bob".toList "25".toList
        "1.2.3.4:28960".toList "1234".toList "25000".toList) kSlot = some slot ∧
      mapAt (playerA "1".toList "-5".toList "30".toList "Big Bob".toList "25".toList
        "1.2.3.4:28960".toList "1234".toList "25000".toList) kScore = some score ∧
      mapAt (playerA "1".toList "-5".toList "30".toList "Big Bob".toList "25".toList
        "1.2.3.4:28960".toList "1234".toList "25000".toList) kPing = some ping ∧
      isNumber slot = true ∧
      (score = [] ∨ isSignedNumber score = true) ∧ (ping = [] ∨ isNumber ping = true) :=
  ⟨by decide,
    player_row_invariant "1 -5 30 Big Bob 25 1.2.3.4:28960 1234 25000".toList 1 _
      (Or.inr (by decide))⟩

/-! ## The keys of the records and the lookups of the serializers -/

theorem playersLoop_isSome (object : StrMap → Str → Option Str) (players : List StrMap)
    (h : ∀ p ∈ players, ∀ result, (object p result).isSome = true) :
    ∀ (first : Bool) (result : Str), (playersLoop object players first result).isSome = true := by
  induction players with
  | nil => intro first result; rfl
  | cons p ps ih =>
    intro first result
    rw [playersLoop]
    have hp := h p (List.mem_cons_self _ _)
      ((if first = true then result else result ++ ",".toList) ++ "\x7b".toList)
    cases ho : object p ((if first = true then result else result ++ ",".toList) ++
        "\x7b".toList) with
    | none => rw [ho] at hp; exact Bool.noConfusion hp
    | some r2 => simp only []; exact ih (fun q hq => h q (List.mem_cons_of_mem _ hq)) _ _

theorem toJsonObject_status (name ping score slot result : Str) :
    (toJsonObject [(kName, name), (kPing, ping), (kScore, score), (kSlot, slot)] result).isSome
      = true := by
  rfl

theorem toJsonObject_playerA (t0 t1 t2 t3 t4 t5 t6 t7 result : Str) :
    (toJsonObject (playerA t0 t1 t2 t3 t4 t5 t6 t7) result).isSome = true := by
  rfl

theorem toJsonObject_playerGuid (t0 t1 t2 t3 t4 t5 t6 t7 t8 result : Str) :
    (toJsonObject (playerGuid t0 t1 t2 t3 t4 t5 t6 t7 t8) result).isSome = true := by
  rfl

theorem toJsonObject_playerSteam (t0 t1 t2 t3 t4 t5 t6 t7 t8 t9 result : Str) :
    (toJsonObject (playerSteam t0 t1 t2 t3 t4 t5 t6 t7 t8 t9) result).isSome = true := by
  rfl

theorem rconObjectA_playerA (t0 t1 t2 t3 t4 t5 t6 t7 result : Str) :
    (rconObjectA (playerA t0 t1 t2 t3 t4 t5 t6 t7) result).isSome = true := by
  rfl

theorem rconObjectB_playerGuid (t0 t1 t2 t3 t4 t5 t6 t7 t8 result : Str) :
    (rconObjectB (playerGuid t0 t1 t2 t3 t4 t5 t6 t7 t8) result).isSome = true := by
  rfl

theorem rconObjectB_playerSteam (t0 t1 t2 t3 t4 t5 t6 t7 t8 t9 result : Str) :
    (rconObjectB (playerSteam t0 t1 t2 t3 t4 t5 t6 t7 t8 t9) result).isSome = true := by
  rfl

/-- C9. Fixed key set: every record emitted by `ParseGetStatusPlayers` has exactly the keys
`name`, `ping`, `score`, `slot`; every record emitted by `ParseRconStatusPlayers` has
exactly `address`, `lastmsg`, `name`, `ping`, `qport`, `rate`, `score`, `slot` for protocol
id 1, those plus `guid` for protocol id 2 when the detected variant is non-Steam, and those
plus `playerid` and `steamid` when it is Steam (keys listed in the order of the map);
hence `ToJson` on the players of either decoder and the two rcon status serializations on
the players of their protocol never fail a keyed lookup. -/
theorem record_keys_fixed (response : Str) (protocolId : Int) (kv : StrMap) :
    (∀ r ∈ ParseGetStatusPlayers response protocolId,
      r.map Prod.fst = [kName, kPing, kScore, kSlot]) ∧
    (∀ r ∈ ParseRconStatusPlayers response 1,
      r.map Prod.fst = [kAddress, kLastmsg, kName, kPing, kQport, kRate, kScore, kSlot]) ∧
    (∀ r ∈ ParseRconStatusPlayers response 2,
      r.map Prod.fst =
        if detectSteam (getlines response) = true then
          [kAddress, kLastmsg, kName, kPing, kPlayerid, kQport, kRate, kScore, kSlot,
            kSteamid]
        else [kAddress, kGuid, kLastmsg, kName, kPing, kQport, kRate, kScore, kSlot]) ∧
    (ToJson kv (ParseGetStatusPlayers response protocolId)).isSome = true ∧
    (ToJson kv (ParseRconStatusPlayers response protocolId)).isSome = true ∧
    (rconStatusJsonA (ParseRconStatusPlayers response 1)).isSome = true ∧
    (rconStatusJsonB (ParseRconStatusPlayers response 2)).isSome = true := by
  have hstatus : ∀ r ∈ ParseGetStatusPlayers response protocolId,
      ∃ name ping score slot, r = [(kName, name), (kPing, ping), (kScore, score),
        (kSlot, slot)] := by
    intro r h
    obtain ⟨line, _, _, hrow⟩ := statusLoop_mem protocolId _ _ _ r h |>.resolve_left (by simp)
    rcases statusRow_some protocolId _ r hrow with ⟨_, _, name, hr, _⟩ | ⟨_, _, name, hr, _⟩
    · exact ⟨_, _, _, _, hr⟩
    · exact ⟨_, _, _, _, hr⟩
  have hrcon : ∀ (pid : Int), ∀ r ∈ ParseRconStatusPlayers response pid,
      ∃ T, rconShape pid (detectSteam (getlines response)) T r := by
    intro pid r h
    obtain ⟨line, _, _, _, hrow⟩ := ParseRconStatusPlayers_mem response pid r h
    exact ⟨_, (rconRow_some _ _ _ r hrow).1⟩
  refine ⟨?_, ?_, ?_, ?_, ?_, ?_, ?_⟩
  · intro r h
    obtain ⟨name, ping, score, slot, hr⟩ := hstatus r h
    rw [hr]; rfl
  · intro r h
    obtain ⟨T, hT⟩ := hrcon 1 r h
    rcases hT with ⟨_, _, hr⟩ | ⟨h2, _⟩ | ⟨h2, _⟩
    · rw [hr]; rfl
    · exact absurd h2 (by decide)
    · exact absurd h2 (by decide)
  · intro r h
    obtain ⟨T, hT⟩ := hrcon 2 r h
    rcases hT with ⟨h1, _⟩ | ⟨_, hs, _, hr⟩ | ⟨_, hs, _, hr⟩
    · exact absurd h1 (by decide)
    · rw [hr, hs]; rfl
    · rw [hr, hs]; rfl
  · have hl := playersLoop_isSome toJsonObject (ParseGetStatusPlayers response protocolId)
      (by
        intro p hp result
        obtain ⟨name, ping, score, slot, hr⟩ := hstatus p hp
        rw [hr]; exact toJsonObject_status _ _ _ _ _)
      true (serverLoop kv true ("\x7b".toList ++ "\"server\":\x7b".toList) ++
        "\x7d,\"players\":[".toList)
    simp only [ToJson]
    cases hx : playersLoop toJsonObject (ParseGetStatusPlayers response protocolId) true
        (serverLoop kv true ("\x7b".toList ++ "\"server\":\x7b".toList) ++
          "\x7d,\"players\":[".toList) with
    | none => rw [hx] at hl; exact Bool.noConfusion hl
    | some x => rfl
  · have hl := playersLoop_isSome toJsonObject (ParseRconStatusPlayers response protocolId)
      (by
        intro p hp result
        obtain ⟨T, hT⟩ := hrcon protocolId p hp
        rcases hT with ⟨_, _, hr⟩ | ⟨_, _, _, hr⟩ | ⟨_, _, _, hr⟩
        · rw [hr]; exact toJsonObject_playerA _ _ _ _ _ _ _ _ _
        · rw [hr]; exact toJsonObject_playerGuid _ _ _ _ _ _ _ _ _ _
        · rw [hr]; exact toJsonObject_playerSteam _ _ _ _ _ _ _ _ _ _ _)
      true (serverLoop kv true ("\x7b".toList ++ "\"server\":\x7b".toList) ++
        "\x7d,\"players\":[".toList)
    simp only [ToJson]
    cases hx : playersLoop toJsonObject (ParseRconStatusPlayers response protocolId) true
        (serverLoop kv true ("\x7b".toList ++ "\"server\":\x7b".toList) ++
          "\x7d,\"players\":[".toList) with
    | none => rw [hx] at hl; exact Bool.noConfusion hl
    | some x => rfl
  · have hl := playersLoop_isSome rconObjectA (ParseRconStatusPlayers response 1)
      (by
        intro p hp result
        obtain ⟨T, hT⟩ := hrcon 1 p hp
        rcases hT with ⟨_, _, hr⟩ | ⟨h2, _⟩ | ⟨h2, _⟩
        · rw [hr]; exact rconObjectA_playerA _ _ _ _ _ _ _ _ _
        · exact absurd h2 (by decide)
        · exact absurd h2 (by decide))
      true "\x7b\"players\":[".toList
    simp only [rconStatusJsonA]
    cases hx : playersLoop rconObjectA (ParseRconStatusPlayers response 1) true
        "\x7b\"players\":[".toList with
    | none => rw [hx] at hl; exact Bool.noConfusion hl
    | some x => rfl
  · have hl := playersLoop_isSome rconObjectB (ParseRconStatusPlayers response 2)
      (by
        intro p hp result
        obtain ⟨T, hT⟩ := hrcon 2 p hp
        rcases hT with ⟨h1, _⟩ | ⟨_, _, _, hr⟩ | ⟨_, _, _, hr⟩
        · exact absurd h1 (by decide)
        · rw [hr]; exact rconObjectB_playerGuid _ _ _ _ _ _ _ _ _ _
        · rw [hr]; exact rconObjectB_playerSteam _ _ _ _ _ _ _ _ _ _ _)
      true "\x7b\"players\":[".toList
    simp only [rconStatusJsonB]
    cases hx : playersLoop rconObjectB (ParseRconStatusPlayers response 2) true
        "\x7b\"players\":[".toList with
    | none => rw [hx] at hl; exact Bool.noConfusion hl
    | some x => rfl

/-! ## The name field and the `^7` marker -/

/-- C7 fails on the code. In the Protocol B row
`1 5 30 abc123 Bob^7x 25 1.2.3.4:28960 1234 25000` the text from the name column up to the
numeric token `25` is `Bob^7x`, which contains `^7`; the claim has the name end right
after `^7` (`Bob^7`), the code returns `Bob^7x`. -/
theorem ParseRconStatusPlayers_caret7_not_cut :
    ParseRconStatusPlayers "1 5 30 abc123 Bob^7x 25 1.2.3.4:28960 1234 25000".toList 2 =
      [playerGuid "1".toList "5".toList "30".toList "abc123".toList "Bob^7x".toList
        "25".toList "1.2.3.4:28960".toList "1234".toList "25000".toList] := by
  decide

/-! ## The detection of the variant -/

theorem containsStr_nil (pat : Str) (h : pat ≠ []) : containsStr [] pat = false := by
  cases pat with
  | nil => exact absurd rfl h
  | cons c cs => rfl

theorem detectSteam_no_marker (lines : List Str)
    (h : ∀ l ∈ lines, matchesMarker l = false) : detectSteam lines = false := by
  induction lines with
  | nil => rfl
  | cons l ls ih =>
    have hl := h l (List.mem_cons_self _ _)
    simp only [matchesMarker, Bool.or_eq_false_iff] at hl
    obtain ⟨⟨⟨h1, h2⟩, h3⟩, h4⟩ := hl
    rw [detectSteam]
    simp only [h1, h2, h3, h4, Bool.false_eq_true, if_false]
    split
    · exact ih (fun x hx => h x (List.mem_cons_of_mem _ hx))
    · exact ih (fun x hx => h x (List.mem_cons_of_mem _ hx))

theorem detectSteam_guid_header (pre post : List Str) (L : Str)
    (hpre : ∀ l ∈ pre, matchesMarker l = false) (hL : isGuidHeader L = true) :
    detectSteam (pre ++ L :: post) = false := by
  induction pre with
  | nil =>
    simp only [isGuidHeader, Bool.and_eq_true, Bool.not_eq_true'] at hL
    obtain ⟨⟨h1, h2⟩, h3⟩ := hL
    have hne : trim L ≠ [] := by
      intro e
      rw [e] at h1
      exact absurd h1 (by decide)
    rw [List.nil_append, detectSteam]
    simp only [hne, if_false, h1, h2, h3, Bool.false_eq_true, if_true]
    split <;> rfl
  | cons l ls ih =>
    have hl := hpre l (List.mem_cons_self _ _)
    simp only [matchesMarker, Bool.or_eq_false_iff] at hl
    obtain ⟨⟨⟨h1, h2⟩, h3⟩, h4⟩ := hl
    rw [List.cons_append, detectSteam]
    simp only [h1, h2, h3, h4, Bool.false_eq_true, if_false]
    split
    · exact ih (fun x hx => hpre x (List.mem_cons_of_mem _ hx))
    · exact ih (fun x hx => hpre x (List.mem_cons_of_mem _ hx))

theorem nonSteam_records (response : Str) (h : detectSteam (getlines response) = false) :
    ∀ r ∈ ParseRconStatusPlayers response 2,
      mapContains r kGuid = true ∧ mapContains r kPlayerid = false ∧
        mapContains r kSteamid = false := by
  intro r hr
  obtain ⟨line, _, _, _, hrow⟩ := ParseRconStatusPlayers_mem response 2 r hr
  rcases (rconRow_some _ _ _ r hrow).1 with ⟨h1, _⟩ | ⟨_, _, _, hr⟩ | ⟨_, hs, _⟩
  · exact absurd h1 (by decide)
  · rw [hr]; exact ⟨rfl, rfl, rfl⟩
  · rw [h] at hs; exact Bool.noConfusion hs

/-- C8, as the code has it. Variant detection under protocol id 2: if the first line that
matches any variant marker contains `num score ping guid name` (any letter case) and is
claimed by no marker of higher rank (it does not start with `hostname:` and does not
contain `num score ping playerid steamid name`), or if no line matches a marker at all,
then the non-Steam layout is used, whatever lines follow: every emitted record has a `guid`
key and no `playerid` or `steamid` key. -/
theorem variant_guid_header_first (response : Str) (pre post : List Str) (L : Str)
    (h : (getlines response = pre ++ L :: post ∧ (∀ l ∈ pre, matchesMarker l = false) ∧
        isGuidHeader L = true) ∨ (∀ l ∈ getlines response, matchesMarker l = false)) :
    detectSteam (getlines response) = false ∧
    ∀ r ∈ ParseRconStatusPlayers response 2,
      mapContains r kGuid = true ∧ mapContains r kPlayerid = false ∧
        mapContains r kSteamid = false := by
  have hd : detectSteam (getlines response) = false := by
    rcases h with ⟨hl, hpre, hL⟩ | h
    · rw [hl]; exact detectSteam_guid_header pre post L hpre hL
    · exact detectSteam_no_marker _ h
  exact ⟨hd, nonSteam_records response hd⟩

/-- C8 fails as stated: the first line of this body is the first line that matches a
marker and it contains `num score ping guid name`, but it starts with `hostname:`, so the
Steam layout is used and the record has `playerid` and `steamid` and no `guid`. -/
theorem variant_hostname_wins_counterexample :
    getlines "hostname: num score ping guid name\n1 5 30 pid sid Bob 25 1.2.3.4 12 2500".toList
      = ["hostname: num score ping guid name".toList,
        "1 5 30 pid sid Bob 25 1.2.3.4 12 2500".toList] ∧
    containsStr ((trim "hostname: num score ping guid name".toList).map tolower)
      "num score ping guid name".toList = true ∧
    ParseRconStatusPlayers
      "hostname: num score ping guid name\n1 5 30 pid sid Bob 25 1.2.3.4 12 2500".toList 2 =
      [playerSteam "1".toList "5".toList "30".toList "pid".toList "sid".toList "Bob".toList
        "25".toList "1.2.3.4".toList "12".toList "2500".toList] ∧
    mapContains (playerSteam "1".toList "5".toList "30".toList "pid".toList "sid".toList
      "Bob".toList "25".toList "1.2.3.4".toList "12".toList "2500".toList) kGuid = false := by
  decide

/-- C8, on a body whose `guid` header is followed by a `hostname:` line and by the other
header: the row is still read in the non-Steam layout. -/
theorem variant_guid_header_first_witness :
    detectSteam (getlines
      ("Num Score Ping GUID Name lastmsg\nhostname: x\n" ++
        "num score ping playerid steamid name\n1 5 30 abc Bob 25 1.2.3.4 12 2500").toList)
      = false ∧
    ∀ r ∈ ParseRconStatusPlayers
      ("Num Score Ping GUID Name lastmsg\nhostname: x\n" ++
        "num score ping playerid steamid name\n1 5 30 abc Bob 25 1.2.3.4 12 2500").toList 2,
      mapContains r kGuid = true ∧ mapContains r kPlayerid = false ∧
        mapContains r kSteamid = false :=
  variant_guid_header_first _ [] ["hostname: x".toList,
      "num score ping playerid steamid name".toList,
      "1 5 30 abc Bob 25 1.2.3.4 12 2500".toList]
    "Num Score Ping GUID Name lastmsg".toList (Or.inl ⟨by decide, by decide, by decide⟩)

/-! ## The tokenizer of the rcon status on a row of fields -/

theorem takeWhile_word (p : Char → Bool) (w rest : Str) (hw : ∀ c ∈ w, p c = true)
    (hrest : ∀ c, rest.head? = some c → p c = false) : (w ++ rest).takeWhile p = w := by
  rw [List.takeWhile_append_of_pos hw]
  cases rest with
  | nil => simp
  | cons c cs => simp [List.takeWhile_cons, hrest c rfl]

theorem skipSpaces_at (line pre sp rest : Str) (n : Nat) (hline : line = pre ++ (sp ++ rest))
    (hn : n = pre.length) (hsp : ∀ c ∈ sp, c = ' ') (hrest : rest.head? ≠ some ' ') :
    skipSpaces line n = n + sp.length := by
  rw [skipSpaces, hline, drop_at pre _ n hn, takeWhile_word _ sp rest]
  · intro c hc; simp [hsp c hc]
  · intro c hc
    have : c ≠ ' ' := fun e => hrest (e ▸ hc)
    simpa using this

theorem skipSpaces_none (line pre rest : Str) (n : Nat) (hline : line = pre ++ rest)
    (hn : n = pre.length) (hrest : rest.head? ≠ some ' ') : skipSpaces line n = n := by
  have := skipSpaces_at line pre [] rest n (by simpa using hline) hn (by simp) hrest
  simpa using this

theorem skipWord_at (line pre w rest : Str) (n : Nat) (hline : line = pre ++ (w ++ rest))
    (hn : n = pre.length) (hw : ' ' ∉ w) (hrest : ∀ c, rest.head? = some c → c = ' ') :
    skipWord line n = n + w.length := by
  rw [skipWord, hline, drop_at pre _ n hn, takeWhile_word _ w rest]
  · intro c hc
    have : c ≠ ' ' := fun e => hw (e ▸ hc)
    simpa using this
  · intro c hc; simp [hrest c hc]

theorem charAt_eq (line pre : Str) (c : Char) (rest : Str) (n : Nat)
    (hline : line = pre ++ c :: rest) (hn : n = pre.length) : charAt line n = c := by
  rw [hline]; exact charAt_at pre c rest n hn

theorem reachesIn_trans (line : Str) (protocolId : Int) (isSteam : Bool) (n m : Nat)
    (s t u : RconTok) (h1 : ReachesIn line protocolId isSteam n s t)
    (h2 : ReachesIn line protocolId isSteam m t u) :
    ReachesIn line protocolId isSteam (n + m) s u := by
  intro fuel
  rw [Nat.add_assoc, h1 (m + fuel), h2 fuel]

theorem reachesIn_refl (line : Str) (protocolId : Int) (isSteam : Bool) (s : RconTok) :
    ReachesIn line protocolId isSteam 0 s s := by
  intro fuel; rw [Nat.zero_add]

/-- Reading the bytes of a field that is neither the name nor the last one, up to and
with the space that ends it. -/
theorem reachesIn_word (line : Str) (protocolId : Int) (isSteam : Bool) (rest : Str)
    (toks : List Str) (fc : Nat) (hfc : fc ≠ nameFieldOf protocolId isSteam)
    (hlast : isLastField protocolId isSteam fc = false) (hrest : rest.head? ≠ some ' ') :
    ∀ (u pre acc : Str), line = pre ++ (u ++ ' ' :: rest) → ' ' ∉ u → acc ++ u ≠ [] →
      ReachesIn line protocolId isSteam (u.length + 1) ⟨pre.length, acc, toks, fc⟩
        ⟨pre.length + u.length + 1, [], toks ++ [acc ++ u], fc + 1⟩ := by
  intro u
  induction u with
  | nil =>
    intro pre acc hline _ hne fuel
    have hlt : pre.length < line.length := by rw [hline]; simp
    have hc : charAt line pre.length = ' ' := charAt_eq line pre ' ' rest _ (by simpa using hline) rfl
    have hsk : skipSpaces line (pre.length + 1) = pre.length + 1 :=
      skipSpaces_none line (pre ++ [' ']) rest _ (by simpa using hline) (by simp) hrest
    have hacc : acc ≠ [] := by simpa using hne
    simp only [List.length_nil, Nat.zero_add, List.append_nil, Nat.add_zero]
    rw [Nat.add_comm, rconTokenLoop]
    simp only [hlt, if_true, hfc, if_false, hc, true_and, ne_eq, hacc, not_false_eq_true, hsk]
  | cons c cs ih =>
    intro pre acc hline hsp _ fuel
    have hlt : pre.length < line.length := by rw [hline]; simp
    have hc : charAt line pre.length = c := charAt_eq line pre c (cs ++ ' ' :: rest) _ (by simpa using hline) rfl
    have hcne : c ≠ ' ' := fun e => hsp (e ▸ List.mem_cons_self _ _)
    have hcs : ' ' ∉ cs := fun e => hsp (List.mem_cons_of_mem _ e)
    have step := ih (pre ++ [c]) (acc ++ [c]) (by simpa using hline) hcs (by simp) fuel
    have e1 : (c :: cs).length + 1 + fuel = (cs.length + 1 + fuel) + 1 := by
      simp only [List.length_cons]; omega
    rw [e1, rconTokenLoop]
    simp only [hlt, if_true, hfc, if_false, hc, hcne, false_and, hlast, Bool.false_eq_true]
    simp only [List.length_append, List.length_singleton, List.append_assoc,
      List.singleton_append] at step
    rw [step]
    congr 2
    simp only [List.length_cons]; omega

theorem numericWordFrom_false_word (w : Str) (hw : ' ' ∉ w) :
    (∀ t, numericWordFrom false (w ++ ' ' :: t) = numericWordFrom true t) ∧
      numericWordFrom false w = false := by
  induction w with
  | nil =>
    refine ⟨?_, rfl⟩
    intro t
    simp [numericWordFrom]
  | cons c cs ih =>
    have hc : c ≠ ' ' := fun e => hw (e ▸ List.mem_cons_self _ _)
    have hcs : ' ' ∉ cs := fun e => hw (List.mem_cons_of_mem _ e)
    obtain ⟨ih1, ih2⟩ := ih hcs
    have hb : (c == ' ') = false := by simpa using hc
    refine ⟨?_, ?_⟩
    · intro t
      rw [List.cons_append, numericWordFrom, hb, ih1]
      simp
    · rw [numericWordFrom, hb, ih2]
      simp

theorem hasNumericWord_word (w : Str) (hw : ' ' ∉ w) : hasNumericWord w = isNumber w := by
  cases w with
  | nil => rfl
  | cons c cs =>
    have hc : c ≠ ' ' := fun e => hw (e ▸ List.mem_cons_self _ _)
    have hcs : ' ' ∉ cs := fun e => hw (List.mem_cons_of_mem _ e)
    have htw : (c :: cs).takeWhile (fun d => d != ' ') = c :: cs := by
      have := takeWhile_word (fun d => d != ' ') (c :: cs) [] (by
        intro d hd
        have : d ≠ ' ' := fun e => hw (e ▸ hd)
        simpa using this) (by simp)
      simpa using this
    have hb : (c == ' ') = false := by simpa using hc
    rw [hasNumericWord, numericWordFrom, htw, hb, (numericWordFrom_false_word cs hcs).2]
    simp

theorem hasNumericWord_word_space (w t : Str) (hw : ' ' ∉ w) (hne : w ≠ []) :
    hasNumericWord (w ++ ' ' :: t) = (isNumber w || hasNumericWord t) := by
  cases w with
  | nil => exact absurd rfl hne
  | cons c cs =>
    have hc : c ≠ ' ' := fun e => hw (e ▸ List.mem_cons_self _ _)
    have hcs : ' ' ∉ cs := fun e => hw (List.mem_cons_of_mem _ e)
    have htw : (c :: cs ++ ' ' :: t).takeWhile (fun d => d != ' ') = c :: cs := by
      apply takeWhile_word
      · intro d hd
        have : d ≠ ' ' := fun e => hw (e ▸ hd)
        simpa using this
      · intro d hd
        simp only [List.head?_cons, Option.some.injEq] at hd
        subst hd; rfl
    have hb : (c == ' ') = false := by simpa using hc
    rw [hasNumericWord, List.cons_append, numericWordFrom, ← List.cons_append, htw, hb,
      (numericWordFrom_false_word cs hcs).1]
    simp [hasNumericWord]

theorem hasNumericWord_spaces (sp t : Str) (hsp : ∀ c ∈ sp, c = ' ') :
    hasNumericWord (sp ++ t) = hasNumericWord t := by
  induction sp with
  | nil => rfl
  | cons c cs ih =>
    have hc : c = ' ' := hsp c (List.mem_cons_self _ _)
    subst hc
    rw [hasNumericWord, List.cons_append, numericWordFrom]
    have := ih (fun d hd => hsp d (List.mem_cons_of_mem _ hd))
    simp only [hasNumericWord] at this
    simp [isNumber, this, hasNumericWord]

theorem fieldsText_head (ws : List Str) (rest : Str) (hws : ∀ w ∈ ws, w ≠ [] ∧ ' ' ∉ w)
    (hrest : rest.head? ≠ some ' ') : (fieldsText ws ++ rest).head? ≠ some ' ' := by
  cases ws with
  | nil => simpa [fieldsText] using hrest
  | cons w ws =>
    obtain ⟨hne, hsp⟩ := hws w (List.mem_cons_self _ _)
    cases w with
    | nil => exact absurd rfl hne
    | cons c cs =>
      have hc : c ≠ ' ' := fun e => hsp (e ▸ List.mem_cons_self _ _)
      simp only [fieldsText, List.cons_append, List.head?_cons, ne_eq, Option.some.injEq]
      exact hc

/-- Reading a run of fields that are neither the name nor the last one. -/
theorem reachesIn_fields (line : Str) (protocolId : Int) (isSteam : Bool) (rest : Str)
    (hrest : rest.head? ≠ some ' ') :
    ∀ (ws : List Str) (pre : Str) (toks : List Str) (fc : Nat),
      line = pre ++ (fieldsText ws ++ rest) → (∀ w ∈ ws, w ≠ [] ∧ ' ' ∉ w) →
      (∀ k, fc ≤ k → k < fc + ws.length →
        k ≠ nameFieldOf protocolId isSteam ∧ isLastField protocolId isSteam k = false) →
      ReachesIn line protocolId isSteam (fieldsText ws).length ⟨pre.length, [], toks, fc⟩
        ⟨pre.length + (fieldsText ws).length, [], toks ++ ws, fc + ws.length⟩ := by
  intro ws
  induction ws with
  | nil =>
    intro pre toks fc _ _ _
    simpa [fieldsText] using reachesIn_refl line protocolId isSteam ⟨pre.length, [], toks, fc⟩
  | cons w ws ih =>
    intro pre toks fc hline hws hfc
    obtain ⟨hne, hsp⟩ := hws w (List.mem_cons_self _ _)
    have hws2 : ∀ x ∈ ws, x ≠ [] ∧ ' ' ∉ x := fun x hx => hws x (List.mem_cons_of_mem _ hx)
    obtain ⟨h1, h2⟩ := hfc fc (le_refl _) (by simp)
    have hw := reachesIn_word line protocolId isSteam (fieldsText ws ++ rest) toks fc h1 h2
      (fieldsText_head ws rest hws2 hrest) w pre [] (by simpa [fieldsText] using hline) hsp
      (by simpa using hne)
    have hi := ih (pre ++ (w ++ [' '])) (toks ++ [w]) (fc + 1)
      (by simpa [fieldsText] using hline) hws2
      (by
        intro k hk1 hk2
        exact hfc k (by omega) (by simp only [List.length_cons]; omega))
    have hlen : (pre ++ (w ++ [' '])).length = pre.length + w.length + 1 := by
      simp only [List.length_append, List.length_singleton]; omega
    rw [hlen] at hi
    rw [List.nil_append] at hw
    have ht := reachesIn_trans _ _ _ _ _ _ _ _ hw hi
    simp only [List.append_assoc, List.singleton_append] at ht
    have e1 : (fieldsText (w :: ws)).length = w.length + 1 + (fieldsText ws).length := by
      simp only [fieldsText, List.length_append, List.length_cons]; omega
    have e3 : fc + 1 + ws.length = fc + (w :: ws).length := by
      simp only [List.length_cons]; omega
    have e4 : pre.length + (w.length + 1 + (fieldsText ws).length) =
        pre.length + w.length + 1 + (fieldsText ws).length := by omega
    rw [e1, e4, ← e3]
    exact ht

theorem isNumber_head (s rest : Str) (h : isNumber s = true) :
    (s ++ rest).head? ≠ some ' ' := by
  obtain ⟨hne, hd⟩ := (isNumber_iff s).mp h
  cases s with
  | nil => exact absurd rfl hne
  | cons c cs =>
    simp only [List.all_cons, Bool.and_eq_true] at hd
    have := isdigit_ne c ' ' hd.1 (by decide)
    simpa using this

/-- The scan of the name field stops at a non-empty digit word. -/
theorem nameScan_found (line p lastmsg rest : Str) (protocolId : Int) (fuel : Nat)
    (lc : Option Nat) (hline : line = p ++ (lastmsg ++ rest)) (hnum : isNumber lastmsg = true)
    (hrest : ∀ c, rest.head? = some c → c = ' ') :
    nameScan line protocolId (fuel + 1) p.length lc = (p.length, lc) := by
  obtain ⟨hne, hd⟩ := (isNumber_iff lastmsg).mp hnum
  have hlt : p.length < line.length := by
    rw [hline]
    have := List.length_pos.mpr hne
    simp only [List.length_append]; omega
  have h1 : skipSpaces line p.length = p.length :=
    skipSpaces_none line p (lastmsg ++ rest) _ hline rfl (isNumber_head lastmsg rest hnum)
  have h2 : skipWord line p.length = p.length + lastmsg.length :=
    skipWord_at line p lastmsg rest _ hline rfl (all_isdigit_not_mem _ _ hd (by decide)) hrest
  have h3 : substr line p.length (p.length + lastmsg.length - p.length) = lastmsg := by
    rw [hline]; exact substr_at p lastmsg rest _ _ rfl (by omega)
  rw [nameScan]
  simp only [hlt, if_true, h1, h2, h3, ne_eq, hne, not_false_eq_true, hd, and_self]

/-- The scan of the name field passes a word that is not a digit string. -/
theorem nameScan_word (line p sp w rest : Str) (protocolId : Int) (fuel : Nat)
    (lc : Option Nat) (hline : line = p ++ (sp ++ (w ++ ' ' :: rest)))
    (hsp : ∀ c ∈ sp, c = ' ') (hw : ' ' ∉ w) (hne : w ≠ []) (hnn : isNumber w = false)
    (hcaret : (p ++ sp).getLast? = some ' ') :
    nameScan line protocolId (fuel + 1) p.length lc =
      nameScan line protocolId fuel (p.length + sp.length + w.length + 1) lc := by
  have hlt : p.length < line.length := by
    rw [hline]
    have := List.length_pos.mpr hne
    simp only [List.length_append, List.length_cons]; omega
  have hhead : (w ++ ' ' :: rest).head? ≠ some ' ' := by
    cases w with
    | nil => exact absurd rfl hne
    | cons c cs =>
      have hc : c ≠ ' ' := fun e => hw (e ▸ List.mem_cons_self _ _)
      simpa using hc
  have h1 : skipSpaces line p.length = p.length + sp.length :=
    skipSpaces_at line p sp (w ++ ' ' :: rest) _ hline rfl hsp hhead
  have h2 : skipWord line (p.length + sp.length) = p.length + sp.length + w.length :=
    skipWord_at line (p ++ sp) w (' ' :: rest) _ (by simpa using hline) (by simp) hw
      (by intro c hc; simpa using hc.symm)
  have h3 : substr line (p.length + sp.length)
      (p.length + sp.length + w.length - (p.length + sp.length)) = w := by
    have e : line = (p ++ sp) ++ (w ++ ' ' :: rest) := by simpa using hline
    rw [e]; exact substr_at (p ++ sp) w (' ' :: rest) _ _ (by simp) (by omega)
  have h4 : ¬ (w ≠ [] ∧ w.all isdigit = true) := by
    intro h
    rw [(isNumber_iff w).mpr h] at hnn
    exact Bool.noConfusion hnn
  have h5 : charAt line (p.length + sp.length - 1) = ' ' := by
    obtain ⟨x, hx⟩ := List.getLast?_eq_some_iff.mp hcaret
    have e : line = x ++ ' ' :: (w ++ ' ' :: rest) := by
      rw [hline, ← List.append_assoc, hx]; simp
    have hl : p.length + sp.length = x.length + 1 := by
      have := congrArg List.length hx
      simpa using this
    exact charAt_eq line x ' ' _ _ e (by omega)
  rw [nameScan]
  simp only [hlt, if_true, h1, h2, h3, h4, if_false, h5, Char.reduceEq, and_false]

theorem getLast?_spaces_append (p sp : Str) (hp : p.getLast? = some ' ')
    (hsp : ∀ c ∈ sp, c = ' ') : (p ++ sp).getLast? = some ' ' := by
  rw [List.getLast?_append]
  cases h : sp.getLast? with
  | none => simpa using hp
  | some c =>
    have := hsp c (List.mem_of_getLast?_eq_some h)
    simp [this]

/-- The words of a name, as the scan meets them: leading spaces, a word that holds no
space, and what follows it. -/
theorem name_split (u : Str) (hne : u ≠ []) (hlast : u.getLast? ≠ some ' ') :
    ∃ sp w u2, u = sp ++ (w ++ u2) ∧ (∀ c ∈ sp, c = ' ') ∧ w ≠ [] ∧ ' ' ∉ w ∧
      (u2 = [] ∨ ∃ u3, u2 = ' ' :: u3 ∧ u3 ≠ [] ∧ u3.getLast? ≠ some ' ') := by
  have hsp : ∀ c ∈ u.takeWhile (fun c => c == ' '), c = ' ' := by
    intro c hc
    simpa using List.mem_takeWhile_imp hc
  have hu : u = u.takeWhile (fun c => c == ' ') ++ u.dropWhile (fun c => c == ' ') :=
    (List.takeWhile_append_dropWhile _ u).symm
  have hw : ∀ c ∈ (u.dropWhile (fun c => c == ' ')).takeWhile (fun c => c != ' '), c ≠ ' ' := by
    intro c hc
    simpa using List.mem_takeWhile_imp hc
  have hu1 : u.dropWhile (fun c => c == ' ') =
      (u.dropWhile (fun c => c == ' ')).takeWhile (fun c => c != ' ') ++
        (u.dropWhile (fun c => c == ' ')).dropWhile (fun c => c != ' ') :=
    (List.takeWhile_append_dropWhile _ _).symm
  generalize hsp_def : u.takeWhile (fun c => c == ' ') = sp at hsp hu
  generalize hu1_def : u.dropWhile (fun c => c == ' ') = u1 at hu hw hu1
  generalize hw_def : u1.takeWhile (fun c => c != ' ') = w at hw hu1
  generalize hu2_def : u1.dropWhile (fun c => c != ' ') = u2 at hu1
  have hu1ne : u1 ≠ [] := by
    intro e
    rw [e, List.append_nil] at hu
    obtain ⟨c, hc⟩ := Option.ne_none_iff_exists'.mp (by simpa using hne : u.getLast? ≠ none)
    have hm := List.mem_of_getLast?_eq_some hc
    rw [hu] at hm
    exact hlast (by rw [hc, hsp c hm])
  have hwne : w ≠ [] := by
    cases hx : u1 with
    | nil => exact absurd hx hu1ne
    | cons c cs =>
      have h1 := List.head?_dropWhile_not (fun c => c == ' ') u
      rw [hu1_def, hx] at h1
      simp only [List.head?_cons, beq_iff_eq, Bool.not_eq_true] at h1
      have hc : (c != ' ') = true := by
        have : (c == ' ') = false := by simpa using h1
        simp [bne, this]
      rw [← hw_def, hx, List.takeWhile_cons]
      simp [hc]
  refine ⟨sp, w, u2, by rw [← hu1]; exact hu, hsp, hwne, fun h => hw _ h rfl, ?_⟩
  cases hx : u2 with
  | nil => exact Or.inl rfl
  | cons d u3 =>
    right
    have h1 := List.head?_dropWhile_not (fun c => c != ' ') u1
    rw [hu2_def, hx] at h1
    simp only [List.head?_cons, bne_iff_ne, ne_eq, Bool.not_eq_true, decide_eq_false_iff_not,
      not_not] at h1
    have hd : d = ' ' := by simpa using h1
    subst hd
    have hfull : u = (sp ++ w ++ [' ']) ++ u3 := by
      rw [hu, hu1, hx]; simp
    refine ⟨u3, rfl, ?_, ?_⟩
    · intro e
      rw [e, List.append_nil] at hfull
      exact hlast (by rw [hfull, List.getLast?_concat])
    · intro e
      apply hlast
      rw [hfull, List.getLast?_append, e]
      rfl

/-- The scan of the name field, started at a word boundary of a name whose words are not
digit strings, ends at the first byte of the digit word that follows the name. -/
theorem nameScan_name (line lastmsg rest : Str) (protocolId : Int) (lc : Option Nat)
    (hnum : isNumber lastmsg = true) (hrest : ∀ c, rest.head? = some c → c = ' ') :
    ∀ (n : Nat) (u p : Str), u.length ≤ n → u ≠ [] → u.getLast? ≠ some ' ' →
      hasNumericWord u = false → p.getLast? = some ' ' →
      line = p ++ (u ++ ' ' :: (lastmsg ++ rest)) →
      ∀ fuel, u.length + 1 ≤ fuel →
        nameScan line protocolId fuel p.length lc = (p.length + u.length + 1, lc) := by
  intro n
  induction n with
  | zero =>
    intro u p hn hne
    exact absurd (List.length_eq_zero.mp (Nat.le_zero.mp hn)) hne
  | succ n ih =>
    intro u p hn hne hlast hword hp hline fuel hfuel
    obtain ⟨sp, w, u2, hu, hsp, hwne, hw, hu2⟩ := name_split u hne hlast
    have hcaret := getLast?_spaces_append p sp hp hsp
    have hwpos : 0 < w.length := List.length_pos.mpr hwne
    rcases hu2 with h2 | ⟨u3, h2, hu3ne, hu3last⟩
    · subst h2
      rw [List.append_nil] at hu
      have hnn : isNumber w = false := by
        rw [hu, hasNumericWord_spaces sp w hsp, hasNumericWord_word w hw] at hword
        exact hword
      have hlen : u.length = sp.length + w.length := by rw [hu]; simp
      obtain ⟨f, hf⟩ : ∃ f, fuel = f + 1 + 1 := ⟨fuel - 2, by omega⟩
      have hline1 : line = p ++ (sp ++ (w ++ ' ' :: (lastmsg ++ rest))) := by
        rw [hline, hu]; simp
      have hline2 : line = (p ++ sp ++ w ++ [' ']) ++ (lastmsg ++ rest) := by
        rw [hline, hu]; simp
      have s1 := nameScan_word line p sp w (lastmsg ++ rest) protocolId (f + 1) lc hline1 hsp
        hw hwne hnn hcaret
      have s2 := nameScan_found line (p ++ sp ++ w ++ [' ']) lastmsg rest protocolId f lc
        hline2 hnum hrest
      have e : (p ++ sp ++ w ++ [' ']).length = p.length + sp.length + w.length + 1 := by
        simp only [List.length_append, List.length_singleton]
      rw [e] at s2
      rw [hf, s1, s2, hlen]
      congr 1
      omega
    · subst h2
      have hboth : isNumber w = false ∧ hasNumericWord u3 = false := by
        rw [hu, hasNumericWord_spaces sp _ hsp, hasNumericWord_word_space w u3 hw hwne] at hword
        simpa using hword
      have hlen : u.length = sp.length + w.length + 1 + u3.length := by
        rw [hu]; simp only [List.length_append, List.length_cons]; omega
      obtain ⟨f, hf⟩ : ∃ f, fuel = f + 1 := ⟨fuel - 1, by omega⟩
      have hline1 : line = p ++ (sp ++ (w ++ ' ' :: (u3 ++ ' ' :: (lastmsg ++ rest)))) := by
        rw [hline, hu]; simp
      have hline2 : line = (p ++ sp ++ w ++ [' ']) ++ (u3 ++ ' ' :: (lastmsg ++ rest)) := by
        rw [hline, hu]; simp
      have s1 := nameScan_word line p sp w (u3 ++ ' ' :: (lastmsg ++ rest)) protocolId f lc
        hline1 hsp hw hwne hboth.1 hcaret
      have s2 := ih u3 (p ++ sp ++ w ++ [' ']) (by omega) hu3ne hu3last hboth.2
        (List.getLast?_concat _) hline2 f (by omega)
      have e : (p ++ sp ++ w ++ [' ']).length = p.length + sp.length + w.length + 1 := by
        simp only [List.length_append, List.length_singleton]
      rw [e] at s2
      rw [hf, s1, s2, hlen]
      congr 1
      omega

theorem popSpaces_name (name : Str) (hlast : name.getLast? ≠ some ' ') :
    popSpaces (name ++ [' ']) = name := by
  have h1 : popSpaces (name ++ [' ']) = (name ++ [' ']).rdropWhile (fun c => c == ' ') := rfl
  rw [h1, List.rdropWhile_concat_pos _ _ _ (by simp)]
  rcases List.eq_nil_or_concat name with h | ⟨l, c, h⟩
  · subst h; rfl
  · rw [List.concat_eq_append] at h
    subst h
    have hc : c ≠ ' ' := by
      intro e
      apply hlast
      rw [List.getLast?_concat, e]
    exact List.rdropWhile_concat_neg (fun c => c == ' ') l c (by simpa using hc)

theorem popSpaces_self (s : Str) (h : ' ' ∉ s) : popSpaces s = s := by
  have h1 : popSpaces s = s.rdropWhile (fun c => c == ' ') := rfl
  rw [h1]
  rcases List.eq_nil_or_concat s with e | ⟨l, c, e⟩
  · subst e; rfl
  · rw [List.concat_eq_append] at e
    subst e
    have hc : c ≠ ' ' := fun e => h (by simp [e])
    exact List.rdropWhile_concat_neg (fun c => c == ' ') l c (by simpa using hc)

/-- The round of the tokenizer loop that closes the name field. -/
theorem reachesIn_name (line pre name lastmsg rest : Str) (protocolId : Int) (isSteam : Bool)
    (toks : List Str) (hline : line = pre ++ (name ++ ' ' :: (lastmsg ++ rest)))
    (hpre : pre.getLast? = some ' ') (hne : name ≠ []) (hlast : name.getLast? ≠ some ' ')
    (hword : hasNumericWord name = false) (hnum : isNumber lastmsg = true)
    (hrest : ∀ c, rest.head? = some c → c = ' ') :
    ReachesIn line protocolId isSteam 1
      ⟨pre.length, [], toks, nameFieldOf protocolId isSteam⟩
      ⟨pre.length + name.length + 1, [], toks ++ [name],
        nameFieldOf protocolId isSteam + 1⟩ := by
  intro fuel
  have hlt : pre.length < line.length := by
    rw [hline]
    have := List.length_pos.mpr hne
    simp only [List.length_append, List.length_cons]; omega
  have hscan := nameScan_name line lastmsg rest protocolId none hnum hrest name.length name pre
    (le_refl _) hne hlast hword hpre hline line.length (by
      rw [hline]; simp only [List.length_append, List.length_cons]; omega)
  have hend : nameEnd line protocolId pre.length = pre.length + name.length + 1 := by
    simp only [nameEnd, hscan]
  have hsub : substr line pre.length (pre.length + name.length + 1 - pre.length) =
      name ++ [' '] := by
    have e : line = pre ++ ((name ++ [' ']) ++ (lastmsg ++ rest)) := by rw [hline]; simp
    rw [e]; exact substr_at pre (name ++ [' ']) _ _ _ rfl (by simp; omega)
  have hsk : skipSpaces line (pre.length + name.length + 1) = pre.length + name.length + 1 :=
    skipSpaces_none line (pre ++ name ++ [' ']) (lastmsg ++ rest) _ (by rw [hline]; simp)
      (by simp only [List.length_append, List.length_singleton])
      (isNumber_head lastmsg rest hnum)
  rw [Nat.add_comm, rconTokenLoop]
  simp only [hlt, if_true, hend, hsub, popSpaces_name name hlast, hsk]

/-- The round of the tokenizer loop that takes the rest of the line as the last field. -/
theorem rconTokenLoop_last (line pre rate : Str) (protocolId : Int) (isSteam : Bool)
    (toks : List Str) (fc fuel : Nat) (hline : line = pre ++ rate) (hne : rate ≠ [])
    (hsp : ' ' ∉ rate) (hfc : fc ≠ nameFieldOf protocolId isSteam)
    (hlast : isLastField protocolId isSteam fc = true) :
    rconTokenLoop line protocolId isSteam (fuel + 1) ⟨pre.length, [], toks, fc⟩ =
      ⟨pre.length, rate, toks ++ [rate], fc⟩ := by
  have hlt : pre.length < line.length := by
    rw [hline]
    have := List.length_pos.mpr hne
    simp only [List.length_append]; omega
  have hsub : substrFrom line pre.length = rate := by
    rw [substrFrom, hline]; exact drop_at pre rate _ rfl
  rw [rconTokenLoop]
  simp only [hlt, if_true, hfc, if_false, ne_eq, not_true_eq_false, and_false, hlast, hsub,
    popSpaces_self rate hsp, hne, not_false_eq_true]

theorem fieldsText_getLast (ws : List Str) (h : ws ≠ []) :
    (fieldsText ws).getLast? = some ' ' := by
  induction ws with
  | nil => exact absurd rfl h
  | cons w ws ih =>
    cases ws with
    | nil =>
      have e : fieldsText [w] = w ++ [' '] := rfl
      rw [e, List.getLast?_concat]
    | cons v vs =>
      have e : fieldsText (w :: v :: vs) = (w ++ [' ']) ++ fieldsText (v :: vs) := by
        simp [fieldsText]
      rw [e, List.getLast?_append, ih (by simp)]
      rfl

theorem head?_ne_space_append (s rest : Str) (hne : s ≠ []) (h : s.head? ≠ some ' ') :
    (s ++ rest).head? ≠ some ' ' := by
  cases s with
  | nil => exact absurd rfl hne
  | cons c cs => simpa using h

theorem head?_ne_space (s : Str) (hne : s ≠ []) (h : ' ' ∉ s) : s.head? ≠ some ' ' := by
  cases s with
  | nil => exact absurd rfl hne
  | cons c cs =>
    have hc : c ≠ ' ' := fun e => h (e ▸ List.mem_cons_self _ _)
    simpa using hc

/-- The tokens of a row: the fields in order, the last one twice (it is pushed when the
loop is left and again after the loop). -/
theorem rconTokens_row (protocolId : Int) (isSteam : Bool) (front : List Str)
    (name lastmsg : Str) (back : List Str) (rate : Str)
    (hlen : front.length = nameFieldOf protocolId isSteam)
    (hfront : ∀ w ∈ front, w ≠ [] ∧ ' ' ∉ w)
    (hne : name ≠ []) (hhead : name.head? ≠ some ' ') (hlast : name.getLast? ≠ some ' ')
    (hword : hasNumericWord name = false) (hnum : isNumber lastmsg = true)
    (hback : ∀ w ∈ back, w ≠ [] ∧ ' ' ∉ w) (hrne : rate ≠ []) (hrsp : ' ' ∉ rate)
    (hp1 : ∀ k, k < front.length → isLastField protocolId isSteam k = false)
    (hp2 : ∀ k, front.length < k → k < front.length + 2 + back.length →
      isLastField protocolId isSteam k = false)
    (hp3 : isLastField protocolId isSteam (front.length + 2 + back.length) = true) :
    rconTokens (rowText front name (lastmsg :: back) rate) protocolId isSteam =
      front ++ [name] ++ (lastmsg :: back) ++ [rate, rate] := by
  obtain ⟨hlne, hld⟩ := (isNumber_iff lastmsg).mp hnum
  have hlsp : ' ' ∉ lastmsg := all_isdigit_not_mem _ _ hld (by decide)
  have hfne : front ≠ [] := by
    intro e
    have := nameFieldOf_ge protocolId isSteam
    rw [← hlen, e] at this
    simp at this
  have hrhead : rate.head? ≠ some ' ' := head?_ne_space rate hrne hrsp
  have hback2 : ∀ w ∈ lastmsg :: back, w ≠ [] ∧ ' ' ∉ w := by
    intro w hw
    rcases List.mem_cons.mp hw with h | h
    · rw [h]; exact ⟨hlne, hlsp⟩
    · exact hback w h
  -- the run of fields before the name
  have sA := reachesIn_fields (rowText front name (lastmsg :: back) rate) protocolId isSteam
    (name ++ ' ' :: (fieldsText (lastmsg :: back) ++ rate))
    (head?_ne_space_append name _ hne hhead) front [] [] 0 (by simp [rowText]) hfront
    (by
      intro k _ hk
      rw [Nat.zero_add] at hk
      exact ⟨by omega, hp1 k hk⟩)
  simp only [List.length_nil, Nat.zero_add, List.nil_append] at sA
  -- the name
  have sB := reachesIn_name (rowText front name (lastmsg :: back) rate) (fieldsText front)
    name lastmsg (' ' :: (fieldsText back ++ rate)) protocolId isSteam front
    (by simp [rowText, fieldsText]) (fieldsText_getLast front hfne) hne hlast hword hnum
    (by intro c hc; simpa using hc.symm)
  rw [← hlen] at sB
  -- the run of fields after the name
  have sC := reachesIn_fields (rowText front name (lastmsg :: back) rate) protocolId isSteam
    rate hrhead (lastmsg :: back) (fieldsText front ++ name ++ [' ']) (front ++ [name])
    (front.length + 1) (by simp [rowText]) hback2
    (by
      intro k hk1 hk2
      simp only [List.length_cons] at hk2
      exact ⟨by omega, hp2 k (by omega) (by omega)⟩)
  have e1 : (fieldsText front ++ name ++ [' ']).length =
      (fieldsText front).length + name.length + 1 := by
    simp only [List.length_append, List.length_singleton]
  rw [e1] at sC
  have sABC := reachesIn_trans _ _ _ _ _ _ _ _ (reachesIn_trans _ _ _ _ _ _ _ _ sA sB) sC
  -- the last field
  have sD := rconTokenLoop_last (rowText front name (lastmsg :: back) rate)
    (fieldsText front ++ name ++ [' '] ++ fieldsText (lastmsg :: back)) rate protocolId
    isSteam (front ++ [name] ++ (lastmsg :: back)) (front.length + 1 + (lastmsg :: back).length)
    (name.length + rate.length) (by simp [rowText]) hrne hrsp
    (by rw [← hlen]; simp only [List.length_cons]; omega)
    (by
      have : front.length + 1 + (lastmsg :: back).length = front.length + 2 + back.length := by
        simp only [List.length_cons]; omega
      rw [this]; exact hp3)
  have e2 : (fieldsText front ++ name ++ [' '] ++ fieldsText (lastmsg :: back)).length =
      (fieldsText front).length + name.length + 1 + (fieldsText (lastmsg :: back)).length := by
    simp only [List.length_append, List.length_singleton]
  rw [e2] at sD
  have hfuel : (rowText front name (lastmsg :: back) rate).length + 1 =
      ((fieldsText front).length + 1 + (fieldsText (lastmsg :: back)).length) +
        (name.length + rate.length + 1) := by
    simp only [rowText, List.length_append, List.length_cons]
    omega
  rw [rconTokens, hfuel, sABC (name.length + rate.length + 1), sD]
  simp [hrne]

/-! ## The rows of the rcon status, layout by layout -/

theorem spaceFree_not_mem (s : Str) (h : spaceFree s = true) : ' ' ∉ s := by
  intro hm
  have := List.all_eq_true.mp h ' ' hm
  exact absurd this (by decide)

theorem spaceFree_last (s : Str) (h : spaceFree s = true) :
    ∀ c, s.getLast? = some c → isspace c = false := by
  intro c hc
  have := List.all_eq_true.mp h c (List.mem_of_getLast?_eq_some hc)
  simpa using this

theorem isLastField_one (isSteam : Bool) (k : Nat) :
    isLastField 1 isSteam k = decide (k = 7) := by
  simp [isLastField]

theorem isLastField_two (isSteam : Bool) (k : Nat) :
    isLastField 2 isSteam k = decide (k = if isSteam then 9 else 8) := by
  simp [isLastField]

theorem rconLine_row (protocolId : Int) (isSteam : Bool) (line : Str)
    (htrim : trim line = line) (hne : line ≠ []) (hhdr : isHeaderLine line = false) :
    rconLine protocolId isSteam line = rconRow protocolId isSteam line := by
  simp [rconLine, htrim, hne, hhdr]

theorem rconRow_A_tokens (isSteam : Bool) (line t0 t1 t2 t3 t4 t5 t6 t7 : Str)
    (extra : List Str)
    (hT : rconTokens line 1 isSteam = [t0, t1, t2, t3, t4, t5, t6, t7] ++ extra)
    (h0 : t0.all isdigit = true) (h1 : scoreOk t1 = true) (h2 : pingOk t2 = true) :
    rconRow 1 isSteam line = some (playerA t0 t1 t2 t3 t4 t5 t6 t7) := by
  simp only [rconRow, hT, tok, mapAssign_playerA, rconKeep_playerA]
  simp [h0, h1, h2]

theorem rconRow_guid_tokens (line t0 t1 t2 t3 t4 t5 t6 t7 t8 : Str) (extra : List Str)
    (hT : rconTokens line 2 false = [t0, t1, t2, t3, t4, t5, t6, t7, t8] ++ extra)
    (h0 : t0.all isdigit = true) (h1 : scoreOk t1 = true) (h2 : pingOk t2 = true) :
    rconRow 2 false line = some (playerGuid t0 t1 t2 t3 t4 t5 t6 t7 t8) := by
  simp only [rconRow, hT, tok, Bool.false_eq_true, if_false, mapAssign_playerGuid,
    rconKeep_playerGuid]
  simp [h0, h1, h2]

theorem rconRow_steam_tokens (line t0 t1 t2 t3 t4 t5 t6 t7 t8 t9 : Str) (extra : List Str)
    (hT : rconTokens line 2 true = [t0, t1, t2, t3, t4, t5, t6, t7, t8, t9] ++ extra)
    (h0 : t0.all isdigit = true) (h1 : scoreOk t1 = true) (h2 : pingOk t2 = true) :
    rconRow 2 true line = some (playerSteam t0 t1 t2 t3 t4 t5 t6 t7 t8 t9) := by
  simp only [rconRow, hT, tok, if_true, mapAssign_playerSteam, rconKeep_playerSteam]
  simp [h0, h1, h2]

theorem trim_row (front : List Str) (first name : Str) (back : List Str) (rate : Str)
    (hfirst : isNumber first = true) (hrne : rate ≠ []) (hrate : spaceFree rate = true) :
    trim (rowText (first :: front) name back rate) = rowText (first :: front) name back rate := by
  obtain ⟨hne, hd⟩ := (isNumber_iff first).mp hfirst
  apply trim_eq_self
  · intro c hc
    cases first with
    | nil => exact absurd rfl hne
    | cons d ds =>
      simp only [rowText, fieldsText, List.cons_append, List.head?_cons,
        Option.some.injEq] at hc
      subst hc
      simp only [List.all_cons, Bool.and_eq_true] at hd
      exact isdigit_not_space _ hd.1
  · intro c hc
    have e : rowText (first :: front) name back rate =
        (fieldsText (first :: front) ++ name ++ ' ' :: fieldsText back) ++ rate := by
      simp [rowText]
    rw [e, List.getLast?_append_of_ne_nil _ hrne] at hc
    exact spaceFree_last rate hrate c hc

theorem getlines_single (line : Str) (hne : line ≠ []) (hnl : '\n' ∉ line) :
    getlines line = [line] := by
  have h := getlinesAux_last line [] hnl (by simpa using hne)
  simpa [getlines] using h

theorem getlines_two (header line : Str) (hh : '\n' ∉ header) (hne : line ≠ [])
    (hnl : '\n' ∉ line) : getlines (header ++ '\n' :: line) = [header, line] := by
  have h1 := getlinesAux_line header [] line hh
  have h2 := getlinesAux_last line [] hnl (by simpa using hne)
  simp [getlines, h1, h2]

/-- C5. Protocol A rcon status row: for protocol id 1, the line made of slot, score, ping,
name, lastmsg, address, qport and rate joined by single spaces decodes to exactly one
record with these eight values under these keys, whenever slot, ping and lastmsg are
non-empty digit strings, score is a non-empty digit string or `-` followed by one, address,
qport and rate are non-empty and free of whitespace bytes, name is non-empty, neither
starts nor ends with a space and has no space-delimited word that is a digit string, and
the line holds no line feed and none of the header markers. -/
theorem ParseRconStatusPlayers_protocolA_row
    (slot score ping name lastmsg address qport rate : Str)
    (hslot : isNumber slot = true) (hscore : isSignedNumber score = true)
    (hping : isNumber ping = true) (hlastmsg : isNumber lastmsg = true)
    (haddress : address ≠ [] ∧ spaceFree address = true)
    (hqport : qport ≠ [] ∧ spaceFree qport = true)
    (hrate : rate ≠ [] ∧ spaceFree rate = true)
    (hname : name ≠ [] ∧ name.head? ≠ some ' ' ∧ name.getLast? ≠ some ' ' ∧
      hasNumericWord name = false)
    (hnl : '\n' ∉ joinSpaces [slot, score, ping, name, lastmsg, address, qport, rate])
    (hhdr : isHeaderLine
      (joinSpaces [slot, score, ping, name, lastmsg, address, qport, rate]) = false) :
    ParseRconStatusPlayers
        (joinSpaces [slot, score, ping, name, lastmsg, address, qport, rate]) 1 =
      [playerA slot score ping name lastmsg address qport rate] := by
  have hrow : joinSpaces [slot, score, ping, name, lastmsg, address, qport, rate] =
      rowText [slot, score, ping] name [lastmsg, address, qport] rate := by
    simp [joinSpaces, rowText, fieldsText]
  rw [hrow] at hnl hhdr ⊢
  obtain ⟨hs1, hs2⟩ := (isNumber_iff slot).mp hslot
  obtain ⟨hp1, hp2⟩ := (isNumber_iff ping).mp hping
  have hne : rowText [slot, score, ping] name [lastmsg, address, qport] rate ≠ [] := by
    cases slot with
    | nil => exact absurd rfl hs1
    | cons c cs => simp [rowText, fieldsText]
  have hfront : ∀ w ∈ [slot, score, ping], w ≠ [] ∧ ' ' ∉ w := by
    intro w hw
    simp only [List.mem_cons, List.mem_singleton, List.not_mem_nil, or_false] at hw
    rcases hw with h | h | h
    · rw [h]; exact ⟨hs1, all_isdigit_not_mem _ _ hs2 (by decide)⟩
    · rw [h]
      exact ⟨isSignedNumber_ne_nil _ hscore,
        isSignedNumber_not_mem _ _ hscore (by decide) (by decide)⟩
    · rw [h]; exact ⟨hp1, all_isdigit_not_mem _ _ hp2 (by decide)⟩
  have hback : ∀ w ∈ [address, qport], w ≠ [] ∧ ' ' ∉ w := by
    intro w hw
    simp only [List.mem_cons, List.mem_singleton, List.not_mem_nil, or_false] at hw
    rcases hw with h | h
    · rw [h]; exact ⟨haddress.1, spaceFree_not_mem _ haddress.2⟩
    · rw [h]; exact ⟨hqport.1, spaceFree_not_mem _ hqport.2⟩
  have hT : ∀ isSteam, rconTokens
      (rowText [slot, score, ping] name [lastmsg, address, qport] rate) 1 isSteam =
      [slot, score, ping, name, lastmsg, address, qport, rate] ++ [rate] := by
    intro isSteam
    have := rconTokens_row 1 isSteam [slot, score, ping] name lastmsg [address, qport] rate
      (by simp [nameFieldOf]) hfront hname.1 hname.2.1 hname.2.2.1 hname.2.2.2 hlastmsg hback
      hrate.1 (spaceFree_not_mem _ hrate.2)
      (by intro k hk; rw [isLastField_one]; simp at hk ⊢; omega)
      (by intro k hk1 hk2; rw [isLastField_one]; simp at hk1 hk2 ⊢; omega)
      (by rw [isLastField_one]; simp)
    simpa using this
  have htrim := trim_row [score, ping] slot name [lastmsg, address, qport] rate hslot hrate.1
    hrate.2
  rw [ParseRconStatusPlayers, getlines_single _ hne hnl]
  simp only [List.filterMap_cons, List.filterMap_nil]
  rw [rconLine_row 1 _ _ htrim hne hhdr,
    rconRow_A_tokens _ _ slot score ping name lastmsg address qport rate [rate] (hT _) hs2
      (scoreOk_of_isSignedNumber _ hscore) (by simp [pingOk, hp2])]

/-- C5, on the row `1 -5 30 Big Bob 25 1.2.3.4:28960 1234 25000`. -/
theorem ParseRconStatusPlayers_protocolA_row_witness :
    ParseRconStatusPlayers
        (joinSpaces ["1".toList, "-5".toList, "30".toList, "Big Bob".toList, "25".toList,
          "1.2.3.4:28960".toList, "1234".toList, "25000".toList]) 1 =
      [playerA "1".toList "-5".toList "30".toList "Big Bob".toList "25".toList
        "1.2.3.4:28960".toList "1234".toList "25000".toList] :=
  ParseRconStatusPlayers_protocolA_row _ _ _ _ _ _ _ _ (by decide) (by decide) (by decide)
    (by decide) (by decide) (by decide) (by decide) (by decide) (by decide) (by decide)

theorem detectSteam_steam_header (L : Str) (post : List Str)
    (h1 : startsWith ((trim L).map tolower) "hostname:".toList = false)
    (h2 : startsWith ((trim L).map tolower) "map:".toList = false)
    (h3 : containsStr ((trim L).map tolower)
      "num score ping playerid steamid name".toList = true) :
    detectSteam (L :: post) = true := by
  have hne : trim L ≠ [] := by
    intro e
    rw [e] at h3
    exact absurd h3 (by decide)
  rw [detectSteam]
  simp only [hne, if_false, h1, h2, h3, Bool.false_eq_true, if_true]

theorem row_facts (first score ping name lastmsg address qport rate : Str) (ids : List Str)
    (hslot : isNumber first = true) (hscore : isSignedNumber score = true)
    (hping : isNumber ping = true) (hids : ∀ w ∈ ids, w ≠ [] ∧ spaceFree w = true)
    (haddress : address ≠ [] ∧ spaceFree address = true)
    (hqport : qport ≠ [] ∧ spaceFree qport = true) :
    rowText (first :: score :: ping :: ids) name [lastmsg, address, qport] rate ≠ [] ∧
    (∀ w ∈ first :: score :: ping :: ids, w ≠ [] ∧ ' ' ∉ w) ∧
    (∀ w ∈ [address, qport], w ≠ [] ∧ ' ' ∉ w) := by
  obtain ⟨hs1, hs2⟩ := (isNumber_iff first).mp hslot
  obtain ⟨hp1, hp2⟩ := (isNumber_iff ping).mp hping
  refine ⟨?_, ?_, ?_⟩
  · cases first with
    | nil => exact absurd rfl hs1
    | cons c cs => simp [rowText, fieldsText]
  · intro w hw
    simp only [List.mem_cons] at hw
    rcases hw with h | h | h | h
    · rw [h]; exact ⟨hs1, all_isdigit_not_mem _ _ hs2 (by decide)⟩
    · rw [h]
      exact ⟨isSignedNumber_ne_nil _ hscore,
        isSignedNumber_not_mem _ _ hscore (by decide) (by decide)⟩
    · rw [h]; exact ⟨hp1, all_isdigit_not_mem _ _ hp2 (by decide)⟩
    · exact ⟨(hids w h).1, spaceFree_not_mem _ (hids w h).2⟩
  · intro w hw
    simp only [List.mem_cons, List.mem_singleton, List.not_mem_nil, or_false] at hw
    rcases hw with h | h
    · rw [h]; exact ⟨haddress.1, spaceFree_not_mem _ haddress.2⟩
    · rw [h]; exact ⟨hqport.1, spaceFree_not_mem _ hqport.2⟩

/-- C6. Protocol B rcon status layouts: for protocol id 2, a body made of the column
header line followed by one row of field values joined by single spaces decodes to exactly
one record: after the header with a `guid` column the nine values are slot, score, ping,
guid, name, lastmsg, address, qport, rate; after the header with `playerid` and `steamid`
columns the ten values are slot, score, ping, playerid, steamid, name, lastmsg, address,
qport, rate. The field conditions are those of Protocol A, the identifier columns being
non-empty and free of whitespace bytes, and the row holds no line feed and none of the
header markers. -/
theorem ParseRconStatusPlayers_protocolB_rows
    (slot score ping guid playerid steamid name lastmsg address qport rate : Str)
    (hslot : isNumber slot = true) (hscore : isSignedNumber score = true)
    (hping : isNumber ping = true) (hlastmsg : isNumber lastmsg = true)
    (hguid : guid ≠ [] ∧ spaceFree guid = true)
    (hplayerid : playerid ≠ [] ∧ spaceFree playerid = true)
    (hsteamid : steamid ≠ [] ∧ spaceFree steamid = true)
    (haddress : address ≠ [] ∧ spaceFree address = true)
    (hqport : qport ≠ [] ∧ spaceFree qport = true)
    (hrate : rate ≠ [] ∧ spaceFree rate = true)
    (hname : name ≠ [] ∧ name.head? ≠ some ' ' ∧ name.getLast? ≠ some ' ' ∧
      hasNumericWord name = false) :
    (('\n' ∉ joinSpaces [slot, score, ping, guid, name, lastmsg, address, qport, rate] ∧
      isHeaderLine (joinSpaces [slot, score, ping, guid, name, lastmsg, address, qport, rate])
        = false) →
      ParseRconStatusPlayers (headerGuid ++ '\n' ::
          joinSpaces [slot, score, ping, guid, name, lastmsg, address, qport, rate]) 2 =
        [playerGuid slot score ping guid name lastmsg address qport rate]) ∧
    (('\n' ∉ joinSpaces [slot, score, ping, playerid, steamid, name, lastmsg, address, qport,
        rate] ∧
      isHeaderLine (joinSpaces [slot, score, ping, playerid, steamid, name, lastmsg, address,
        qport, rate]) = false) →
      ParseRconStatusPlayers (headerSteam ++ '\n' ::
          joinSpaces [slot, score, ping, playerid, steamid, name, lastmsg, address, qport,
            rate]) 2 =
        [playerSteam slot score ping playerid steamid name lastmsg address qport rate]) := by
  obtain ⟨hs1, hs2⟩ := (isNumber_iff slot).mp hslot
  obtain ⟨hp1, hp2⟩ := (isNumber_iff ping).mp hping
  refine ⟨?_, ?_⟩
  · rintro ⟨hnl, hhdr⟩
    have hrow : joinSpaces [slot, score, ping, guid, name, lastmsg, address, qport, rate] =
        rowText [slot, score, ping, guid] name [lastmsg, address, qport] rate := by
      simp [joinSpaces, rowText, fieldsText]
    rw [hrow] at hnl hhdr ⊢
    obtain ⟨hne, hfront, hback⟩ := row_facts slot score ping name lastmsg address qport rate
      [guid] hslot hscore hping (by simpa using hguid) haddress hqport
    have hT : rconTokens (rowText [slot, score, ping, guid] name [lastmsg, address, qport] rate)
        2 false = [slot, score, ping, guid, name, lastmsg, address, qport, rate] ++ [rate] := by
      have := rconTokens_row 2 false [slot, score, ping, guid] name lastmsg [address, qport]
        rate (by simp [nameFieldOf]) hfront hname.1 hname.2.1 hname.2.2.1 hname.2.2.2 hlastmsg
        hback hrate.1 (spaceFree_not_mem _ hrate.2)
        (by intro k hk; rw [isLastField_two]; simp at hk ⊢; omega)
        (by intro k hk1 hk2; rw [isLastField_two]; simp at hk1 hk2 ⊢; omega)
        (by rw [isLastField_two]; simp)
      simpa using this
    have htrim := trim_row [score, ping, guid] slot name [lastmsg, address, qport] rate hslot
      hrate.1 hrate.2
    have hdet : detectSteam (headerGuid ::
        [rowText [slot, score, ping, guid] name [lastmsg, address, qport] rate]) = false :=
      detectSteam_guid_header [] _ headerGuid (by simp) (by decide)
    have hhead : rconLine 2 false headerGuid = none := by decide
    rw [ParseRconStatusPlayers, getlines_two _ _ (by decide) hne hnl, hdet]
    simp only [List.filterMap_cons, List.filterMap_nil, hhead]
    rw [rconLine_row 2 _ _ htrim hne hhdr,
      rconRow_guid_tokens _ slot score ping guid name lastmsg address qport rate [rate] hT hs2
        (scoreOk_of_isSignedNumber _ hscore) (by simp [pingOk, hp2])]
  · rintro ⟨hnl, hhdr⟩
    have hrow : joinSpaces [slot, score, ping, playerid, steamid, name, lastmsg, address,
        qport, rate] =
        rowText [slot, score, ping, playerid, steamid] name [lastmsg, address, qport] rate := by
      simp [joinSpaces, rowText, fieldsText]
    rw [hrow] at hnl hhdr ⊢
    obtain ⟨hne, hfront, hback⟩ := row_facts slot score ping name lastmsg address qport rate
      [playerid, steamid] hslot hscore hping
      (by
        intro w hw
        simp only [List.mem_cons, List.mem_singleton, List.not_mem_nil, or_false] at hw
        rcases hw with h | h
        · rw [h]; exact hplayerid
        · rw [h]; exact hsteamid)
      haddress hqport
    have hT : rconTokens
        (rowText [slot, score, ping, playerid, steamid] name [lastmsg, address, qport] rate)
        2 true =
        [slot, score, ping, playerid, steamid, name, lastmsg, address, qport, rate] ++ [rate] := by
      have := rconTokens_row 2 true [slot, score, ping, playerid, steamid] name lastmsg
        [address, qport] rate (by simp [nameFieldOf]) hfront hname.1 hname.2.1 hname.2.2.1
        hname.2.2.2 hlastmsg hback hrate.1 (spaceFree_not_mem _ hrate.2)
        (by intro k hk; rw [isLastField_two]; simp at hk ⊢; omega)
        (by intro k hk1 hk2; rw [isLastField_two]; simp at hk1 hk2 ⊢; omega)
        (by rw [isLastField_two]; simp)
      simpa using this
    have htrim := trim_row [score, ping, playerid, steamid] slot name
      [lastmsg, address, qport] rate hslot hrate.1 hrate.2
    have hdet : detectSteam (headerSteam ::
        [rowText [slot, score, ping, playerid, steamid] name [lastmsg, address, qport] rate])
        = true :=
      detectSteam_steam_header headerSteam _ (by decide) (by decide) (by decide)
    have hhead : rconLine 2 true headerSteam = none := by decide
    rw [ParseRconStatusPlayers, getlines_two _ _ (by decide) hne hnl, hdet]
    simp only [List.filterMap_cons, List.filterMap_nil, hhead]
    rw [rconLine_row 2 _ _ htrim hne hhdr,
      rconRow_steam_tokens _ slot score ping playerid steamid name lastmsg address qport rate
        [rate] hT hs2 (scoreOk_of_isSignedNumber _ hscore) (by simp [pingOk, hp2])]

/-- C6, on the rows `1 5 30 abc123 Big^7 Bob 25 1.2.3.4:28960 1234 25000` and
`1 5 30 7656 0110 Big^7 Bob 25 1.2.3.4:28960 1234 25000`, each under its header. -/
theorem ParseRconStatusPlayers_protocolB_rows_witness :
    ParseRconStatusPlayers (headerGuid ++ '\n' ::
        joinSpaces ["1".toList, "5".toList, "30".toList, "abc123".toList, "Big^7 Bob".toList,
          "25".toList, "1.2.3.4:28960".toList, "1234".toList, "25000".toList]) 2 =
      [playerGuid "1".toList "5".toList "30".toList "abc123".toList "Big^7 Bob".toList
        "25".toList "1.2.3.4:28960".toList "1234".toList "25000".toList] ∧
    ParseRconStatusPlayers (headerSteam ++ '\n' ::
        joinSpaces ["1".toList, "5".toList, "30".toList, "7656".toList, "0110".toList,
          "Big^7 Bob".toList, "25".toList, "1.2.3.4:28960".toList, "1234".toList,
          "25000".toList]) 2 =
      [playerSteam "1".toList "5".toList "30".toList "7656".toList "0110".toList
        "Big^7 Bob".toList "25".toList "1.2.3.4:28960".toList "1234".toList
        "25000".toList] :=
  have h := ParseRconStatusPlayers_protocolB_rows "1".toList "5".toList "30".toList
    "abc123".toList "7656".toList "0110".toList "Big^7 Bob".toList "25".toList
    "1.2.3.4:28960".toList "1234".toList "25000".toList (by decide) (by decide) (by decide)
    (by decide) (by decide) (by decide) (by decide) (by decide) (by decide) (by decide)
    (by decide)
  ⟨h.1 ⟨by decide, by decide⟩, h.2 ⟨by decide, by decide⟩⟩

/-! ## The budgets of the loops

Each loop of the embedding is started with a budget of rounds. The theorems of this section
say that the budget is never the reason a loop stops: a larger budget gives the same
result. -/

theorem findChar_bounds (s : Str) (c : Char) (pos next : Nat)
    (h : findChar s c pos = some next) : pos ≤ next ∧ next < s.length := by
  simp only [findChar] at h
  split at h
  · rename_i hmem
    simp only [Option.some.injEq] at h
    have h1 : ((s.drop pos).takeWhile (fun d => d != c)).length < (s.drop pos).length := by
      have hsplit := congrArg List.length
        (List.takeWhile_append_dropWhile (fun d => d != c) (s.drop pos))
      simp only [List.length_append] at hsplit
      have hne : (s.drop pos).dropWhile (fun d => d != c) ≠ [] := by
        intro e
        have := (List.dropWhile_eq_nil_iff.mp e) c hmem
        simp at this
      have := List.length_pos.mpr hne
      omega
    simp only [List.length_drop] at h1
    omega
  · exact absurd h (by simp)

theorem valueEnd_ge (response : Str) (pos : Nat) (h : pos ≤ response.length) :
    pos ≤ valueEnd response pos := by
  simp only [valueEnd]
  split
  · rename_i n hn; exact (findChar_bounds _ _ _ _ hn).1
  · split
    · rename_i n hn; exact (findChar_bounds _ _ _ _ hn).1
    · exact h

theorem parseKeyValuesLoop_fuel (response : Str) :
    ∀ (fuel pos : Nat) (result : StrMap), response.length ≤ fuel + pos →
      parseKeyValuesLoop response (fuel + 1) pos result =
        parseKeyValuesLoop response fuel pos result := by
  intro fuel
  induction fuel with
  | zero =>
    intro pos result h
    rw [parseKeyValuesLoop_end _ _ _ _ (by omega), parseKeyValuesLoop_end _ _ _ _ (by omega)]
  | succ f ih =>
    intro pos result h
    rw [parseKeyValuesLoop, parseKeyValuesLoop.eq_def response (f + 1)]
    simp only
    split
    · split
      · rfl
      · split
        · rfl
        · rename_i next hnext
          have hb := findChar_bounds _ _ _ _ hnext
          have hv := valueEnd_ge response (next + 1) (by omega)
          exact ih _ _ (by omega)
    · rfl

/-- The budget of `ParseKeyValues` is never exhausted: a larger one gives the same map. -/
theorem ParseKeyValues_budget (response : Str) (extra : Nat) :
    parseKeyValuesLoop response (response.length + extra)
      (response.takeWhile (fun c => c == '\n')).length [] = ParseKeyValues response := by
  induction extra with
  | zero => rfl
  | succ e ih =>
    rw [← ih, ← Nat.add_assoc]
    exact parseKeyValuesLoop_fuel response _ _ _ (by omega)

theorem skipSpaces_ge (line : Str) (n : Nat) : n ≤ skipSpaces line n := by
  simp [skipSpaces]

theorem skipWord_ge (line : Str) (n : Nat) : n ≤ skipWord line n := by
  simp [skipWord]

theorem nameScan_ge (line : Str) (protocolId : Int) :
    ∀ (fuel nextField : Nat) (lc : Option Nat),
      nextField ≤ (nameScan line protocolId fuel nextField lc).1 := by
  intro fuel
  induction fuel with
  | zero => intro nextField lc; simp [nameScan]
  | succ f ih =>
    intro nextField lc
    rw [nameScan]
    simp only
    split
    · split
      · exact le_refl _
      · have h1 := skipSpaces_ge line nextField
        have h2 := skipWord_ge line (skipSpaces line nextField)
        exact le_trans (by omega) (ih _ _)
    · exact le_refl _

theorem nameScan_fuel (line : Str) (protocolId : Int) :
    ∀ (fuel nextField : Nat) (lc : Option Nat), line.length ≤ fuel + nextField →
      nameScan line protocolId (fuel + 1) nextField lc =
        nameScan line protocolId fuel nextField lc := by
  intro fuel
  induction fuel with
  | zero =>
    intro nextField lc h
    rw [nameScan]
    simp only [Nat.zero_add] at h
    simp [Nat.not_lt.mpr h, nameScan]
  | succ f ih =>
    intro nextField lc h
    rw [nameScan, nameScan.eq_def line protocolId (f + 1)]
    simp only
    split
    · split
      · rfl
      · have h1 := skipSpaces_ge line nextField
        have h2 := skipWord_ge line (skipSpaces line nextField)
        exact ih _ _ (by omega)
    · rfl

/-- The budget of the scan of the name field is never exhausted. -/
theorem nameScan_budget (line : Str) (protocolId : Int) (i extra : Nat) (lc : Option Nat) :
    nameScan line protocolId (line.length + extra) i lc =
      nameScan line protocolId line.length i lc := by
  induction extra with
  | zero => rfl
  | succ e ih =>
    rw [← ih, ← Nat.add_assoc]
    exact nameScan_fuel line protocolId _ _ _ (by omega)

theorem nameEnd_ge (line : Str) (protocolId : Int) (i : Nat) :
    i ≤ nameEnd line protocolId i := by
  simp only [nameEnd]
  have h := nameScan_ge line protocolId line.length i none
  split
  · split
    · rename_i lastCaret7 _ hc
      have := skipSpaces_ge line (lastCaret7 + 2)
      omega
    · exact h
  · exact h

theorem rconTokenLoop_fuel (line : Str) (protocolId : Int) (isSteam : Bool) :
    ∀ (fuel : Nat) (s : RconTok), roundsLeft line protocolId isSteam s ≤ fuel →
      rconTokenLoop line protocolId isSteam (fuel + 1) s =
        rconTokenLoop line protocolId isSteam fuel s := by
  intro fuel
  induction fuel with
  | zero =>
    intro s h
    have hi : ¬ s.i < line.length := by
      simp only [roundsLeft] at h
      omega
    rw [rconTokenLoop]
    simp [hi, rconTokenLoop]
  | succ f ih =>
    intro s h
    conv_lhs => rw [rconTokenLoop]
    conv_rhs => rw [rconTokenLoop]
    split
    · rename_i hlt
      split
      · rename_i hnf
        apply ih
        have h1 := nameEnd_ge line protocolId s.i
        have h2 := skipSpaces_ge line (nameEnd line protocolId s.i)
        simp only [roundsLeft, hnf, le_refl, if_true] at h
        simp only [roundsLeft]
        have h3 : ¬ (nameFieldOf protocolId isSteam + 1 ≤ nameFieldOf protocolId isSteam) := by
          omega
        simp only [hnf, h3, if_false]
        omega
      · split
        · apply ih
          have h2 := skipSpaces_ge line (s.i + 1)
          simp only [roundsLeft] at h ⊢
          split at h <;> split <;> omega
        · split
          · rfl
          · apply ih
            simp only [roundsLeft] at h ⊢
            split at h <;> split <;> omega
    · rfl

theorem rconTokenLoop_extra (line : Str) (protocolId : Int) (isSteam : Bool) (fuel : Nat)
    (s : RconTok) (h : roundsLeft line protocolId isSteam s ≤ fuel) (extra : Nat) :
    rconTokenLoop line protocolId isSteam (fuel + extra) s =
      rconTokenLoop line protocolId isSteam fuel s := by
  induction extra with
  | zero => rfl
  | succ e ih =>
    rw [← ih, ← Nat.add_assoc]
    exact rconTokenLoop_fuel line protocolId isSteam _ s (by omega)

/-- The budget of the tokenizer loop of `ParseRconStatusPlayers` is never exhausted: a
larger one gives the same final state. -/
theorem rconTokenLoop_budget (line : Str) (protocolId : Int) (isSteam : Bool) (extra : Nat) :
    rconTokenLoop line protocolId isSteam (line.length + 1 + extra) ⟨0, [], [], 0⟩ =
      rconTokenLoop line protocolId isSteam (line.length + 1) ⟨0, [], [], 0⟩ :=
  rconTokenLoop_extra line protocolId isSteam _ _ (by simp [roundsLeft]) extra

/-! ## `SanitizeCommand` -/

theorem SanitizeCommand_eq (command : Str) :
    SanitizeCommand command = withoutSeparators command := by
  induction command with
  | nil => rfl
  | cons c cs ih =>
    simp only [SanitizeCommand, List.filter_cons, withoutSeparators] at ih ⊢
    by_cases h : c = ';' ∨ c = '\n' ∨ c = '\r'
    · have hb : (!(c == ';' || c == '\n' || c == '\r')) = false := by
        rcases h with h | h | h <;> simp [h]
      simp only [hb, h, if_true, Bool.false_eq_true, if_false]
      exact ih
    · have hb : (!(c == ';' || c == '\n' || c == '\r')) = true := by
        simp only [not_or] at h
        simp [h.1, h.2.1, h.2.2]
      simp only [hb, h, if_true, if_false]
      rw [ih]

/-- C11. `SanitizeCommand` returns its input with every `;`, line feed and carriage return
removed and every other byte kept in its original order: the result is the input without
these bytes, it is a subsequence of the input, every other byte occurs in it as often as in
the input, and it contains no `;`, no line feed and no carriage return. -/
theorem SanitizeCommand_removes (command : Str) :
    SanitizeCommand command = withoutSeparators command ∧
    List.Sublist (SanitizeCommand command) command ∧
    (∀ c : Char, c ≠ ';' → c ≠ '\n' → c ≠ '\r' →
      (SanitizeCommand command).count c = command.count c) ∧
    ';' ∉ SanitizeCommand command ∧ '\n' ∉ SanitizeCommand command ∧
    '\r' ∉ SanitizeCommand command := by
  refine ⟨SanitizeCommand_eq command, List.filter_sublist _, ?_, ?_, ?_, ?_⟩
  · intro c h1 h2 h3
    simp only [SanitizeCommand, List.count, List.countP_filter]
    congr 1
    funext x
    by_cases hx : x = c
    · subst hx; simp [h1, h2, h3]
    · simp [hx]
  · simp [SanitizeCommand]
  · simp [SanitizeCommand]
  · simp [SanitizeCommand]

theorem SanitizeCommand_idem (command : Str) :
    SanitizeCommand (SanitizeCommand command) = SanitizeCommand command := by
  simp [SanitizeCommand, List.filter_filter]

/-- C12. Sanitization is idempotent: `SanitizeCommand (SanitizeCommand c) = SanitizeCommand c`;
so the sanitization done inside each handler does not change a command that the dispatcher
has already sanitized: both handlers give the same result, with the same calls, on `c` and
on `SanitizeCommand c`. -/
theorem SanitizeCommand_idempotent (send : Str → Int → Str → Int → Str) (raw : Bool)
    (ip : Str) (port : Int) (command rconPassword : Str) :
    SanitizeCommand (SanitizeCommand command) = SanitizeCommand command ∧
    MedalOfHonorHandler.ProcessCommand send raw ip port (SanitizeCommand command)
        rconPassword =
      MedalOfHonorHandler.ProcessCommand send raw ip port command rconPassword ∧
    CallOfDutyHandler.ProcessCommand send raw ip port (SanitizeCommand command) rconPassword =
      CallOfDutyHandler.ProcessCommand send raw ip port command rconPassword := by
  refine ⟨SanitizeCommand_idem command, ?_, ?_⟩
  · simp only [MedalOfHonorHandler.ProcessCommand, SanitizeCommand_idem]
  · simp only [CallOfDutyHandler.ProcessCommand, SanitizeCommand_idem]

/-! ## `EscapeJson` -/

theorem EscapeJson_foldl (input acc : Str) :
    input.foldl
      (fun result c =>
        if c = '"' then result ++ "\\\"".toList
        else if c = '\\' then result ++ "\\\\".toList
        else if c = '\n' then result ++ "\\n".toList
        else if c = '\r' then result
        else result ++ [c]) acc = acc ++ escapeAll input := by
  induction input generalizing acc with
  | nil => simp [escapeAll]
  | cons c cs ih =>
    rw [List.foldl_cons, ih, escapeAll, jsonImage]
    by_cases h1 : c = '"'
    · simp [h1]
    · by_cases h2 : c = '\\'
      · simp [h2]
      · by_cases h3 : c = '\n'
        · simp [h3]
        · by_cases h4 : c = '\r'
          · simp [h4]
          · simp [h1, h2, h3, h4]

theorem EscapeJson_eq (input : Str) : EscapeJson input = escapeAll input := by
  have := EscapeJson_foldl input []
  simpa [EscapeJson] using this

/-- C13. `EscapeJson` maps byte by byte: `"` to backslash-quote, a backslash to two
backslashes, a line feed to backslash-n, a carriage return to nothing, and every other byte
(control bytes included) to itself; its output is the concatenation of these images in the
order of the input. -/
theorem EscapeJson_bytewise (input rest : Str) (c : Char) :
    EscapeJson [] = [] ∧
    EscapeJson (c :: rest) = jsonImage c ++ EscapeJson rest ∧
    EscapeJson (input ++ rest) = EscapeJson input ++ EscapeJson rest ∧
    jsonImage '"' = ['\\', '"'] ∧ jsonImage '\\' = ['\\', '\\'] ∧
    jsonImage '\n' = ['\\', 'n'] ∧ jsonImage '\r' = [] ∧
    (c ≠ '"' → c ≠ '\\' → c ≠ '\n' → c ≠ '\r' → jsonImage c = [c]) := by
  have happ : ∀ a b : Str, escapeAll (a ++ b) = escapeAll a ++ escapeAll b := by
    intro a b
    induction a with
    | nil => rfl
    | cons x xs ih => simp [escapeAll, ih]
  refine ⟨rfl, ?_, ?_, rfl, rfl, rfl, rfl, ?_⟩
  · simp only [EscapeJson_eq, escapeAll]
  · simp only [EscapeJson_eq, happ]
  · intro h1 h2 h3 h4
    simp [jsonImage, h1, h2, h3, h4]

/-! ## The command grammar of the handlers -/

theorem startsWith_iff (s pat : Str) : startsWith s pat = true ↔ pat <+: s := by
  cases s with
  | nil =>
    by_cases h : pat.isPrefixOf [] = true
    · simp only [startsWith, findStr, h, if_true, beq_self_eq_true, true_iff]
      exact List.isPrefixOf_iff_prefix.mp h
    · have h2 : ¬ pat <+: [] := fun hp => h (List.isPrefixOf_iff_prefix.mpr hp)
      simp [startsWith, findStr, h, h2]
  | cons c cs =>
    by_cases h : pat.isPrefixOf (c :: cs) = true
    · simp only [startsWith, findStr, h, if_true, beq_self_eq_true, true_iff]
      exact List.isPrefixOf_iff_prefix.mp h
    · have h2 : ¬ pat <+: c :: cs := fun hp => h (List.isPrefixOf_iff_prefix.mpr hp)
      cases hf : findStr pat cs <;> simp [startsWith, findStr, h, h2, hf]

theorem startsWith_append (pat rest : Str) : startsWith (pat ++ rest) pat = true :=
  (startsWith_iff _ _).mpr (List.prefix_append pat rest)

theorem mohQuery_none (cmd rconPassword : Str) (h1 : cmd ≠ "getstatus".toList)
    (h2 : startsWith cmd "rcon ".toList = false) : mohQuery cmd rconPassword = none := by
  unfold mohQuery
  rw [if_neg h1, if_neg (by rw [h2]; decide)]

theorem mohQuery_some (cmd rconPassword : Str)
    (h : cmd = "getstatus".toList ∨ startsWith cmd "rcon ".toList = true) :
    ∃ query, mohQuery cmd rconPassword = some query := by
  unfold mohQuery
  by_cases h1 : cmd = "getstatus".toList
  · rw [if_pos h1]; exact ⟨_, rfl⟩
  · have h2 : startsWith cmd "rcon ".toList = true := h.resolve_left h1
    rw [if_neg h1, if_pos h2]; exact ⟨_, rfl⟩

theorem codQuery_none (cmd rconPassword : Str) (h0 : cmd ≠ "getinfo".toList)
    (h1 : cmd ≠ "getstatus".toList) (h2 : startsWith cmd "rcon ".toList = false) :
    codQuery cmd rconPassword = none := by
  unfold codQuery
  rw [if_neg h0, if_neg h1, if_neg (by rw [h2]; decide)]

theorem codQuery_some (cmd rconPassword : Str)
    (h : cmd = "getinfo".toList ∨ cmd = "getstatus".toList ∨
      startsWith cmd "rcon ".toList = true) :
    ∃ query, codQuery cmd rconPassword = some query := by
  unfold codQuery
  by_cases h0 : cmd = "getinfo".toList
  · rw [if_pos h0]; exact ⟨_, rfl⟩
  · by_cases h1 : cmd = "getstatus".toList
    · rw [if_neg h0, if_pos h1]; exact ⟨_, rfl⟩
    · have h2 : startsWith cmd "rcon ".toList = true := (h.resolve_left h0).resolve_left h1
      rw [if_neg h0, if_neg h1, if_pos h2]; exact ⟨_, rfl⟩

theorem MedalOfHonorHandler_of_query (send : Str → Int → Str → Int → Str) (raw : Bool)
    (ip : Str) (port : Int) (command rconPassword query : Str)
    (h : mohQuery (SanitizeCommand command) rconPassword = some query) :
    MedalOfHonorHandler.ProcessCommand send raw ip port command rconPassword =
      (mohAfterSend raw (SanitizeCommand command)
          (send ip port query (queryTimeout (SanitizeCommand command))),
        [Call.send ip port query (queryTimeout (SanitizeCommand command))]) := by
  simp only [MedalOfHonorHandler.ProcessCommand, h]

theorem CallOfDutyHandler_of_query (send : Str → Int → Str → Int → Str) (raw : Bool)
    (ip : Str) (port : Int) (command rconPassword query : Str)
    (h : codQuery (SanitizeCommand command) rconPassword = some query) :
    CallOfDutyHandler.ProcessCommand send raw ip port command rconPassword =
      (codAfterSend raw (SanitizeCommand command)
          (send ip port query (queryTimeout (SanitizeCommand command))),
        [Call.send ip port query (queryTimeout (SanitizeCommand command))]) := by
  simp only [CallOfDutyHandler.ProcessCommand, h]

/-- C17. The command grammar: a handler whose sanitized command is outside its grammar
returns `error=Invalid command` and calls nothing (Protocol A: not exactly `getstatus` and
not starting with `rcon `, so `getinfo` is rejected; Protocol B: not exactly `getinfo` or
`getstatus` and not starting with `rcon `); for a command inside the grammar the grammar
check passes: the query is built, the transport is called exactly once with it, and the
result is what the handler makes of the reply. -/
theorem ProcessCommand_grammar (send : Str → Int → Str → Int → Str) (raw : Bool)
    (ip : Str) (port : Int) (command rconPassword : Str) :
    ((SanitizeCommand command ≠ "getstatus".toList ∧
        startsWith (SanitizeCommand command) "rcon ".toList = false) →
      MedalOfHonorHandler.ProcessCommand send raw ip port command rconPassword =
        (some "error=Invalid command".toList, [])) ∧
    ((SanitizeCommand command = "getstatus".toList ∨
        startsWith (SanitizeCommand command) "rcon ".toList = true) →
      ∃ query, mohQuery (SanitizeCommand command) rconPassword = some query ∧
        MedalOfHonorHandler.ProcessCommand send raw ip port command rconPassword =
          (mohAfterSend raw (SanitizeCommand command)
              (send ip port query (queryTimeout (SanitizeCommand command))),
            [Call.send ip port query (queryTimeout (SanitizeCommand command))])) ∧
    ((SanitizeCommand command ≠ "getinfo".toList ∧
        SanitizeCommand command ≠ "getstatus".toList ∧
        startsWith (SanitizeCommand command) "rcon ".toList = false) →
      CallOfDutyHandler.ProcessCommand send raw ip port command rconPassword =
        (some "error=Invalid command".toList, [])) ∧
    ((SanitizeCommand command = "getinfo".toList ∨
        SanitizeCommand command = "getstatus".toList ∨
        startsWith (SanitizeCommand command) "rcon ".toList = true) →
      ∃ query, codQuery (SanitizeCommand command) rconPassword = some query ∧
        CallOfDutyHandler.ProcessCommand send raw ip port command rconPassword =
          (codAfterSend raw (SanitizeCommand command)
              (send ip port query (queryTimeout (SanitizeCommand command))),
            [Call.send ip port query (queryTimeout (SanitizeCommand command))])) ∧
    MedalOfHonorHandler.ProcessCommand send raw ip port "getinfo".toList rconPassword =
      (some "error=Invalid command".toList, []) := by
  refine ⟨?_, ?_, ?_, ?_, rfl⟩
  · rintro ⟨h1, h2⟩
    simp only [MedalOfHonorHandler.ProcessCommand, mohQuery_none _ rconPassword h1 h2]
  · intro h
    obtain ⟨query, hq⟩ := mohQuery_some _ rconPassword h
    exact ⟨query, hq, MedalOfHonorHandler_of_query send raw ip port command rconPassword query hq⟩
  · rintro ⟨h0, h1, h2⟩
    simp only [CallOfDutyHandler.ProcessCommand, codQuery_none _ rconPassword h0 h1 h2]
  · intro h
    obtain ⟨query, hq⟩ := codQuery_some _ rconPassword h
    exact ⟨query, hq, CallOfDutyHandler_of_query send raw ip port command rconPassword query hq⟩

/-! ## The map change acknowledgment -/

theorem SanitizeCommand_append (a b : Str) :
    SanitizeCommand (a ++ b) = SanitizeCommand a ++ SanitizeCommand b := by
  simp [SanitizeCommand]

theorem SanitizeCommand_of_clean (m : Str) (h1 : ';' ∉ m) (h2 : '\n' ∉ m) (h3 : '\r' ∉ m) :
    SanitizeCommand m = m := by
  induction m with
  | nil => rfl
  | cons c cs ih =>
    simp only [List.mem_cons, not_or] at h1 h2 h3
    have hc : SanitizeCommand (c :: cs) = c :: SanitizeCommand cs := by
      have h1c : ¬ c = ';' := fun h => h1.1 h.symm
      have h2c : ¬ c = '\n' := fun h => h2.1 h.symm
      have h3c : ¬ c = '\r' := fun h => h3.1 h.symm
      simp [SanitizeCommand, List.filter_cons, h1c, h2c, h3c]
    rw [hc, ih h1.2 h2.2 h3.2]

theorem rcon_map_query_moh (x rconPassword : Str) :
    mohQuery ("rcon map ".toList ++ x) rconPassword =
      some ("\xff\xff\xff\xff\x02rcon \"".toList ++ rconPassword ++ "\" map ".toList ++ x) := by
  have h1 : "rcon map ".toList ++ x ≠ "getstatus".toList := by simp
  have h2 : startsWith ("rcon map ".toList ++ x) "rcon ".toList = true :=
    startsWith_append "rcon ".toList ("map ".toList ++ x)
  unfold mohQuery
  rw [if_neg h1, if_pos h2]
  simp [substrFrom]

theorem rcon_map_query_cod (x rconPassword : Str) :
    codQuery ("rcon map ".toList ++ x) rconPassword =
      some ("\xff\xff\xff\xffrcon \"".toList ++ rconPassword ++ "\" map ".toList ++ x) := by
  have h0 : "rcon map ".toList ++ x ≠ "getinfo".toList := by simp
  have h1 : "rcon map ".toList ++ x ≠ "getstatus".toList := by simp
  have h2 : startsWith ("rcon map ".toList ++ x) "rcon ".toList = true :=
    startsWith_append "rcon ".toList ("map ".toList ++ x)
  unfold codQuery
  rw [if_neg h0, if_neg h1, if_pos h2]
  simp [substrFrom]

theorem rcon_map_after_moh (raw : Bool) (x response : Str) :
    mohAfterSend raw ("rcon map ".toList ++ x) response =
      some ("\x7b\"status\":\"success\",\"message\":\"Map changed to ".toList ++ EscapeJson x ++
        "\"\x7d".toList) := by
  unfold mohAfterSend
  rw [if_pos (startsWith_append "rcon map ".toList x)]
  simp [mapChanged, substrFrom]

theorem rcon_map_after_cod (raw : Bool) (x response : Str) :
    codAfterSend raw ("rcon map ".toList ++ x) response =
      some ("\x7b\"status\":\"success\",\"message\":\"Map changed to ".toList ++ EscapeJson x ++
        "\"\x7d".toList) := by
  unfold codAfterSend
  rw [if_pos (startsWith_append "rcon map ".toList x)]
  simp [mapChanged, substrFrom]

theorem rcon_map_timeout (x : Str) : queryTimeout ("rcon map ".toList ++ x) = 2000 := by
  unfold queryTimeout
  rw [if_pos (startsWith_append "rcon map ".toList x)]

/-- C18 (amended). For both handlers and every map name `m`, the command `rcon map m` is
sent once with the 2000 ms timeout and returns exactly the acknowledgment
`{"status":"success","message":"Map changed to ` followed by `EscapeJson` of the SANITIZED
map name (`m` without `;`, line feed and carriage return) and `"}`, whatever the transport
replies, so in particular for every non-empty reply that does not begin with `error=`; the
sanitized name is `m` itself when `m` has none of these three bytes. -/
theorem rcon_map_acknowledgment (send : Str → Int → Str → Int → Str) (raw : Bool)
    (ip : Str) (port : Int) (m rconPassword : Str) :
    MedalOfHonorHandler.ProcessCommand send raw ip port ("rcon map ".toList ++ m)
        rconPassword =
      (some ("\x7b\"status\":\"success\",\"message\":\"Map changed to ".toList ++
          EscapeJson (SanitizeCommand m) ++ "\"\x7d".toList),
        [Call.send ip port ("\xff\xff\xff\xff\x02rcon \"".toList ++ rconPassword ++
          "\" map ".toList ++ SanitizeCommand m) 2000]) ∧
    CallOfDutyHandler.ProcessCommand send raw ip port ("rcon map ".toList ++ m)
        rconPassword =
      (some ("\x7b\"status\":\"success\",\"message\":\"Map changed to ".toList ++
          EscapeJson (SanitizeCommand m) ++ "\"\x7d".toList),
        [Call.send ip port ("\xff\xff\xff\xffrcon \"".toList ++ rconPassword ++
          "\" map ".toList ++ SanitizeCommand m) 2000]) ∧
    (';' ∉ m → '\n' ∉ m → '\r' ∉ m → SanitizeCommand m = m) := by
  have hs : SanitizeCommand ("rcon map ".toList ++ m) = "rcon map ".toList ++ SanitizeCommand m := by
    rw [SanitizeCommand_append]; rfl
  refine ⟨?_, ?_, SanitizeCommand_of_clean m⟩
  · rw [MedalOfHonorHandler_of_query send raw ip port _ rconPassword _
      (by rw [hs]; exact rcon_map_query_moh _ _), hs, rcon_map_after_moh, rcon_map_timeout]
  · rw [CallOfDutyHandler_of_query send raw ip port _ rconPassword _
      (by rw [hs]; exact rcon_map_query_cod _ _), hs, rcon_map_after_cod, rcon_map_timeout]

/-- The instance of C18 named in the claim: `rcon map mp_harbor`, answered by the non-empty
reply `\xff\xff\xff\xffprint\n` that does not begin with `error=`, returns the
acknowledgment for `mp_harbor`. -/
theorem rcon_map_acknowledgment_witness :
    "\xff\xff\xff\xffprint\n".toList ≠ [] ∧
    startsWith "\xff\xff\xff\xffprint\n".toList "error=".toList = false ∧
    (CallOfDutyHandler.ProcessCommand
        (fun _ _ _ _ => "\xff\xff\xff\xffprint\n".toList) false "127.0.0.1".toList 28960
        "rcon map mp_harbor".toList "secret".toList).1 =
      some "\x7b\"status\":\"success\",\"message\":\"Map changed to mp_harbor\"\x7d".toList ∧
    (MedalOfHonorHandler.ProcessCommand
        (fun _ _ _ _ => "\xff\xff\xff\xffprint\n".toList) false "127.0.0.1".toList 28960
        "rcon map mp_harbor".toList "secret".toList).1 =
      some "\x7b\"status\":\"success\",\"message\":\"Map changed to mp_harbor\"\x7d".toList :=
  ⟨by decide, by decide,
    (congrArg Prod.fst (rcon_map_acknowledgment
      (fun _ _ _ _ => "\xff\xff\xff\xffprint\n".toList) false "127.0.0.1".toList 28960
      "mp_harbor".toList "secret".toList).2.1).trans (by decide),
    (congrArg Prod.fst (rcon_map_acknowledgment
      (fun _ _ _ _ => "\xff\xff\xff\xffprint\n".toList) false "127.0.0.1".toList 28960
      "mp_harbor".toList "secret".toList).1).trans (by decide)⟩

/-- C18 as stated fails for a map name that holds a `;`: the command `rcon map mp;harbor`
acknowledges the map `mpharbor`, while `EscapeJson` of the name keeps the `;`. -/
theorem rcon_map_unsanitized_name_counterexample :
    (CallOfDutyHandler.ProcessCommand
        (fun _ _ _ _ => "\xff\xff\xff\xffprint\n".toList) false "127.0.0.1".toList 28960
        ("rcon map ".toList ++ "mp;harbor".toList) "secret".toList).1 =
      some "\x7b\"status\":\"success\",\"message\":\"Map changed to mpharbor\"\x7d".toList ∧
    (MedalOfHonorHandler.ProcessCommand
        (fun _ _ _ _ => "\xff\xff\xff\xffprint\n".toList) false "127.0.0.1".toList 28960
        ("rcon map ".toList ++ "mp;harbor".toList) "secret".toList).1 =
      some "\x7b\"status\":\"success\",\"message\":\"Map changed to mpharbor\"\x7d".toList ∧
    EscapeJson "mp;harbor".toList = "mp;harbor".toList ∧
    "\x7b\"status\":\"success\",\"message\":\"Map changed to mpharbor\"\x7d".toList ≠
      "\x7b\"status\":\"success\",\"message\":\"Map changed to ".toList ++
        EscapeJson "mp;harbor".toList ++ "\"\x7d".toList := by
  refine ⟨by decide, by decide, by decide, by decide⟩

/-! ## Transport failures and empty results -/

theorem transport_failure_surfaces (raw : Bool) (cmd response : Str)
    (hmap : startsWith cmd "rcon map ".toList = false)
    (hfail : response = [] ∨ startsWith response "error=".toList = true) :
    (∃ r, mohAfterSend raw cmd response = some r ∧ startsWith r "error=".toList = true) ∧
    (∃ r, codAfterSend raw cmd response = some r ∧ startsWith r "error=".toList = true) := by
  have hc : startsWith response "error=".toList = true ∨ response = [] := hfail.symm
  have hne : ¬ (startsWith cmd "rcon map ".toList = true) := by rw [hmap]; decide
  unfold mohAfterSend codAfterSend
  rw [if_neg hne, if_pos hc, if_neg hne, if_pos hc]
  by_cases he : response = []
  · rw [if_pos he]
    exact ⟨⟨_, rfl, by decide⟩, ⟨_, rfl, by decide⟩⟩
  · rw [if_neg he]
    have hs := hfail.resolve_left he
    exact ⟨⟨_, rfl, hs⟩, ⟨_, rfl, hs⟩⟩

/-- C19 (the code departs from the claim). For `rcon map mp_harbor` both handlers return
the success acknowledgment although the transport reply is `error=Receive failed`, and
also when it is empty: the acknowledgment is returned before the reply is examined. The
same failing reply to `rcon status` is surfaced as the error it is. -/
theorem rcon_map_hides_transport_failure :
    (MedalOfHonorHandler.ProcessCommand (fun _ _ _ _ => "error=Receive failed".toList) false
        "127.0.0.1".toList 12203 "rcon map mp_harbor".toList "secret".toList).1 =
      some "\x7b\"status\":\"success\",\"message\":\"Map changed to mp_harbor\"\x7d".toList ∧
    (CallOfDutyHandler.ProcessCommand (fun _ _ _ _ => "error=Receive failed".toList) false
        "127.0.0.1".toList 28960 "rcon map mp_harbor".toList "secret".toList).1 =
      some "\x7b\"status\":\"success\",\"message\":\"Map changed to mp_harbor\"\x7d".toList ∧
    (MedalOfHonorHandler.ProcessCommand (fun _ _ _ _ => []) false
        "127.0.0.1".toList 12203 "rcon map mp_harbor".toList "secret".toList).1 =
      some "\x7b\"status\":\"success\",\"message\":\"Map changed to mp_harbor\"\x7d".toList ∧
    (CallOfDutyHandler.ProcessCommand (fun _ _ _ _ => []) false
        "127.0.0.1".toList 28960 "rcon map mp_harbor".toList "secret".toList).1 =
      some "\x7b\"status\":\"success\",\"message\":\"Map changed to mp_harbor\"\x7d".toList ∧
    startsWith "\x7b\"status\":\"success\",\"message\":\"Map changed to mp_harbor\"\x7d".toList
      "error=".toList = false ∧
    (CallOfDutyHandler.ProcessCommand (fun _ _ _ _ => "error=Receive failed".toList) false
        "127.0.0.1".toList 28960 "rcon status".toList "secret".toList).1 =
      some "error=Receive failed".toList := by
  refine ⟨by decide, by decide, by decide, by decide, by decide, by decide⟩

/-- C20 (the code departs from the claim). With the raw flag set, the command `rcon say hi`
answered by `\xff\xff\xff\xffprint\n` makes both handlers return the EMPTY text: the body
after the marker is the one line feed, which passes the emptiness guard and is then trimmed
away. Without the raw flag the same reply gives `{"response":""}`. -/
theorem raw_rcon_reply_of_line_feeds_is_empty :
    MedalOfHonorHandler.ProcessCommand (fun _ _ _ _ => "\xff\xff\xff\xffprint\n".toList) true
        "127.0.0.1".toList 12203 "rcon say hi".toList "secret".toList =
      (some [], [Call.send "127.0.0.1".toList 12203
        "\xff\xff\xff\xff\x02rcon \"secret\" say hi".toList 1000]) ∧
    CallOfDutyHandler.ProcessCommand (fun _ _ _ _ => "\xff\xff\xff\xffprint\n".toList) true
        "127.0.0.1".toList 28960 "rcon say hi".toList "secret".toList =
      (some [], [Call.send "127.0.0.1".toList 28960
        "\xff\xff\xff\xffrcon \"secret\" say hi".toList 1000]) ∧
    SanitizeCommand "rcon say hi".toList = "rcon say hi".toList ∧
    (ProcessGameServerCommand (fun hostname => hostname)
        (fun _ _ _ _ => "\xff\xff\xff\xffprint\n".toList) 2 true (some "127.0.0.1".toList)
        28960 (some "rcon say hi".toList) (some "secret".toList)).1 = [] ∧
    (CallOfDutyHandler.ProcessCommand (fun _ _ _ _ => "\xff\xff\xff\xffprint\n".toList) false
        "127.0.0.1".toList 28960 "rcon say hi".toList "secret".toList).1 =
      some "\x7b\"response\":\"\"\x7d".toList := by
  refine ⟨by decide, by decide, by decide, by decide, by decide⟩

/-! ## The checks of `ProcessGameServerCommand` -/

theorem protocolRegistry_none (protocolId : Int) (h1 : protocolId ≠ 1) (h2 : protocolId ≠ 2) :
    protocolRegistry protocolId = none := by
  unfold protocolRegistry
  rw [if_neg h1, if_neg h2]

/-- C15 (amended). For every protocol id other than 1 and 2, `ProcessGameServerCommand`
performs no hostname resolution and no transport call, whatever the other arguments are,
and it returns exactly `error=Invalid protocol ID` when the host and the command are
present and the port is in 1..65535; the null check and the port check come first, so the
result is `error=Null input parameters` when the host or the command is absent and
`error=Invalid port` when both are present and the port is out of range. -/
theorem invalid_protocol_id (resolve : Str → Str) (send : Str → Int → Str → Int → Str)
    (protocolId : Int) (raw : Bool) (ipOrHostname : Option Str) (port : Int)
    (command rconPassword : Option Str) (h1 : protocolId ≠ 1) (h2 : protocolId ≠ 2) :
    (ProcessGameServerCommand resolve send protocolId raw ipOrHostname port command
        rconPassword).2 = [] ∧
    (ipOrHostname.isSome = true → command.isSome = true → 1 ≤ port → port ≤ 65535 →
      (ProcessGameServerCommand resolve send protocolId raw ipOrHostname port command
        rconPassword).1 = "error=Invalid protocol ID".toList) ∧
    (ipOrHostname.isSome = true → command.isSome = true → (port < 1 ∨ port > 65535) →
      (ProcessGameServerCommand resolve send protocolId raw ipOrHostname port command
        rconPassword).1 = "error=Invalid port".toList) ∧
    ((ipOrHostname = none ∨ command = none) →
      (ProcessGameServerCommand resolve send protocolId raw ipOrHostname port command
        rconPassword).1 = "error=Null input parameters".toList) := by
  have hreg := protocolRegistry_none protocolId h1 h2
  cases ipOrHostname with
  | none => simp [ProcessGameServerCommand]
  | some hostname =>
    cases command with
    | none => simp [ProcessGameServerCommand]
    | some commandText =>
      by_cases hp : port < 1 ∨ port > 65535
      · have hp2 : ¬ (1 ≤ port ∧ port ≤ 65535) := by omega
        refine ⟨?_, ?_, ?_, ?_⟩
        · simp only [ProcessGameServerCommand, if_pos hp]
        · intro _ _ ha hb
          exact absurd ⟨ha, hb⟩ hp2
        · intro _ _ _
          simp only [ProcessGameServerCommand, if_pos hp]
        · intro h
          simp at h
      · refine ⟨?_, ?_, ?_, ?_⟩
        · simp only [ProcessGameServerCommand, if_neg hp, hreg]
        · intro _ _ _ _
          simp only [ProcessGameServerCommand, if_neg hp, hreg]
        · intro _ _ h
          exact absurd h hp
        · intro h
          simp at h

/-- The witness of C15 named in the claim: protocol id 999 with the arguments of the
repository's first test. -/
theorem invalid_protocol_id_witness :
    (999 : Int) ≠ 1 ∧ (999 : Int) ≠ 2 ∧
    ProcessGameServerCommand (fun hostname => hostname) (fun _ _ _ _ => []) 999 false
        (some "127.0.0.1".toList) 28960 (some "getstatus".toList) none =
      ("error=Invalid protocol ID".toList, []) :=
  ⟨by decide, by decide,
    Prod.ext
      ((invalid_protocol_id (fun hostname => hostname) (fun _ _ _ _ => []) 999 false
        (some "127.0.0.1".toList) 28960 (some "getstatus".toList) none (by decide)
        (by decide)).2.1 rfl rfl (by decide) (by decide))
      ((invalid_protocol_id (fun hostname => hostname) (fun _ _ _ _ => []) 999 false
        (some "127.0.0.1".toList) 28960 (some "getstatus".toList) none (by decide)
        (by decide)).1)⟩

/-- C15 as stated fails for a port out of range: with protocol id 999 and port 0 the result
is `error=Invalid port`, not `error=Invalid protocol ID`; with an absent host it is
`error=Null input parameters`. -/
theorem port_check_precedes_protocol_counterexample :
    ProcessGameServerCommand (fun hostname => hostname) (fun _ _ _ _ => []) 999 false
        (some "127.0.0.1".toList) 0 (some "getstatus".toList) none =
      ("error=Invalid port".toList, []) ∧
    ProcessGameServerCommand (fun hostname => hostname) (fun _ _ _ _ => []) 999 false
        none 28960 (some "getstatus".toList) none =
      ("error=Null input parameters".toList, []) ∧
    "error=Invalid port".toList ≠ "error=Invalid protocol ID".toList ∧
    "error=Null input parameters".toList ≠ "error=Invalid protocol ID".toList := by
  refine ⟨by decide, by decide, by decide, by decide⟩

/-! ## The player objects of `ToJson` -/

theorem mapAt_isSome (m : StrMap) (k : Str) : (mapAt m k).isSome = mapContains m k := by
  induction m with
  | nil => rfl
  | cons e es ih =>
    simp only [mapAt, mapContains, List.find?_cons, List.any_cons] at ih ⊢
    cases he : e.1 == k with
    | true => simp
    | false => simpa using ih

/-- The text a separator-led optional member adds: nothing for an absent key. -/
theorem optionalMember_eq (player : StrMap) (key result : Str) :
    optionalMember player key result =
      some (result ++ ((memberText player key).map (fun m => ',' :: m)).getD []) := by
  have hc := mapAt_isSome player key
  unfold optionalMember memberText
  cases hv : mapAt player key with
  | none =>
    rw [hv] at hc
    have hf : mapContains player key = false := by rw [← hc]; rfl
    simp [hf]
  | some v =>
    rw [hv] at hc
    have ht : mapContains player key = true := by rw [← hc]; rfl
    simp [ht]

theorem member_eq (player : StrMap) (key tail result value : Str)
    (h : mapAt player key = some value) :
    member player key tail result =
      some (result ++ ("\"".toList ++ key ++ "\":\"".toList ++ EscapeJson value ++ tail)) := by
  simp [member, h]

theorem joinComma_append_option (ms : List Str) (o : Option Str) (h : ms ≠ []) :
    joinComma (ms ++ o.toList) = joinComma ms ++ (o.map (fun m => ',' :: m)).getD [] := by
  cases o with
  | none => simp
  | some y =>
    simp only [Option.toList, Option.map, Option.getD]
    induction ms with
    | nil => exact absurd rfl h
    | cons x xs ih =>
      cases xs with
      | nil => simp [joinComma]
      | cons z zs =>
        have := ih (by simp)
        rw [List.cons_append] at this
        show joinComma (x :: z :: (zs ++ [y])) = joinComma (x :: z :: zs) ++ ',' :: y
        have e1 : joinComma (x :: z :: (zs ++ [y])) =
            x ++ ',' :: joinComma (z :: (zs ++ [y])) := rfl
        have e2 : joinComma (x :: z :: zs) = x ++ ',' :: joinComma (z :: zs) := rfl
        rw [e1, e2, this]
        simp

theorem filterMap_cons_toList {α β : Type} (f : α → Option β) (a : α) (l : List α) :
    (a :: l).filterMap f = (f a).toList ++ l.filterMap f := by
  cases h : f a <;> simp [List.filterMap_cons, h]

theorem toJsonObject_eq (player : StrMap) (result : Str)
    (h : mapContains player kSlot = true ∧ mapContains player kScore = true ∧
      mapContains player kPing = true ∧ mapContains player kName = true) :
    toJsonObject player result =
      some (result ++ joinComma (objectKeys.filterMap (memberText player))) := by
  obtain ⟨h0, h1, h2, h3⟩ := h
  rw [← mapAt_isSome, Option.isSome_iff_exists] at h0 h1 h2 h3
  obtain ⟨v0, h0⟩ := h0
  obtain ⟨v1, h1⟩ := h1
  obtain ⟨v2, h2⟩ := h2
  obtain ⟨v3, h3⟩ := h3
  have hk : objectKeys.filterMap (memberText player) =
      ((((((([("\"".toList ++ kSlot ++ "\":\"".toList ++ EscapeJson v0 ++ "\"".toList),
        ("\"".toList ++ kScore ++ "\":\"".toList ++ EscapeJson v1 ++ "\"".toList),
        ("\"".toList ++ kPing ++ "\":\"".toList ++ EscapeJson v2 ++ "\"".toList),
        ("\"".toList ++ kName ++ "\":\"".toList ++ EscapeJson v3 ++ "\"".toList)] ++
        (memberText player kLastmsg).toList) ++ (memberText player kAddress).toList) ++
        (memberText player kQport).toList) ++ (memberText player kRate).toList) ++
        (memberText player kGuid).toList) ++ (memberText player kPlayerid).toList) ++
        (memberText player kSteamid).toList) := by
    have m0 : memberText player kSlot =
        some ("\"".toList ++ kSlot ++ "\":\"".toList ++ EscapeJson v0 ++ "\"".toList) := by
      rw [memberText, h0]; rfl
    have m1 : memberText player kScore =
        some ("\"".toList ++ kScore ++ "\":\"".toList ++ EscapeJson v1 ++ "\"".toList) := by
      rw [memberText, h1]; rfl
    have m2 : memberText player kPing =
        some ("\"".toList ++ kPing ++ "\":\"".toList ++ EscapeJson v2 ++ "\"".toList) := by
      rw [memberText, h2]; rfl
    have m3 : memberText player kName =
        some ("\"".toList ++ kName ++ "\":\"".toList ++ EscapeJson v3 ++ "\"".toList) := by
      rw [memberText, h3]; rfl
    have ht : ∀ x : Str, (some x).toList = [x] := fun _ => rfl
    simp only [objectKeys, filterMap_cons_toList, List.filterMap_nil, m0, m1, m2, m3, ht,
      List.append_assoc, List.cons_append, List.nil_append, List.append_nil]
  rw [hk]
  rw [joinComma_append_option _ _ (by simp), joinComma_append_option _ _ (by simp),
    joinComma_append_option _ _ (by simp), joinComma_append_option _ _ (by simp),
    joinComma_append_option _ _ (by simp), joinComma_append_option _ _ (by simp),
    joinComma_append_option _ _ (by simp)]
  unfold toJsonObject
  simp only [member_eq _ _ _ _ _ h0, member_eq _ _ _ _ _ h1, member_eq _ _ _ _ _ h2,
    member_eq _ _ _ _ _ h3, optionalMember_eq, Option.bind_eq_bind, Option.some_bind,
    joinComma]
  simp [List.append_assoc]

theorem playersLoop_toJsonObject (players : List StrMap)
    (h : ∀ p ∈ players, mapContains p kSlot = true ∧ mapContains p kScore = true ∧
      mapContains p kPing = true ∧ mapContains p kName = true) :
    ∀ (done : List Str) (result : Str), done ≠ [] →
      playersLoop toJsonObject players false (result ++ joinComma done) =
        some (result ++ joinComma (done ++ players.map objectText)) := by
  induction players with
  | nil => intro done result _; simp [playersLoop]
  | cons p ps ih =>
    intro done result hd
    have hp := h p (List.mem_cons_self _ _)
    have hstep : joinComma (done ++ [objectText p]) = joinComma done ++ ',' :: objectText p :=
      joinComma_append_option done (some (objectText p)) hd
    rw [playersLoop]
    simp only [Bool.false_eq_true, if_false]
    rw [toJsonObject_eq p _ hp]
    simp only []
    have hr : result ++ joinComma done ++ ",".toList ++ "\x7b".toList ++
        joinComma (objectKeys.filterMap (memberText p)) ++ "\x7d".toList =
        result ++ joinComma (done ++ [objectText p]) := by
      rw [hstep]
      simp [objectText, List.append_assoc]
    rw [hr, ih (fun q hq => h q (List.mem_cons_of_mem _ hq)) (done ++ [objectText p]) result
      (by simp)]
    simp

/-- C14. The player objects of the serializer: when every record has `slot`, `score`,
`ping` and `name`, `ToJson` returns the server object followed by the array of the player
objects in input order, separated by commas; each object holds, in the fixed order `slot`,
`score`, `ping`, `name`, `lastmsg`, `address`, `qport`, `rate`, `guid`, `playerid`,
`steamid`, one member `"key":"escaped value"` for each of these keys the record has and
nothing for a key it does not have. -/
theorem ToJson_player_objects (kv : StrMap) (players : List StrMap)
    (h : ∀ p ∈ players, mapContains p kSlot = true ∧ mapContains p kScore = true ∧
      mapContains p kPing = true ∧ mapContains p kName = true) :
    ToJson kv players =
      some (serverLoop kv true ("\x7b".toList ++ "\"server\":\x7b".toList) ++
        "\x7d,\"players\":[".toList ++ joinComma (players.map objectText) ++
        "]\x7d".toList) ∧
    (∀ (p : StrMap) (key : Str), (memberText p key).isSome = mapContains p key) ∧
    (∀ p : StrMap, objectText p =
      "\x7b".toList ++ joinComma (objectKeys.filterMap (memberText p)) ++ "\x7d".toList) ∧
    objectKeys = ["slot".toList, "score".toList, "ping".toList, "name".toList,
      "lastmsg".toList, "address".toList, "qport".toList, "rate".toList, "guid".toList,
      "playerid".toList, "steamid".toList] := by
  refine ⟨?_, ?_, fun _ => rfl, rfl⟩
  · simp only [ToJson, Option.bind_eq_bind]
    cases players with
    | nil => simp [playersLoop, joinComma]
    | cons p ps =>
      have hp := h p (List.mem_cons_self _ _)
      rw [playersLoop]
      simp only [if_true]
      rw [toJsonObject_eq p _ hp]
      simp only []
      have hr : serverLoop kv true ("\x7b".toList ++ "\"server\":\x7b".toList) ++
          "\x7d,\"players\":[".toList ++ "\x7b".toList ++
          joinComma (objectKeys.filterMap (memberText p)) ++ "\x7d".toList =
          (serverLoop kv true ("\x7b".toList ++ "\"server\":\x7b".toList) ++
            "\x7d,\"players\":[".toList) ++ joinComma [objectText p] := by
        simp [objectText, joinComma, List.append_assoc]
      rw [hr, playersLoop_toJsonObject ps (fun q hq => h q (List.mem_cons_of_mem _ hq))
        [objectText p] _ (by simp)]
      simp
  · intro p key
    rw [← mapAt_isSome]
    unfold memberText
    cases mapAt p key <;> rfl

/-- An instance of C14: a record with the four fixed keys only and a record that also has
`guid`, serialized after the server pair `mapname`. -/
theorem ToJson_player_objects_witness :
    (∀ p ∈ [[(kName, "Bob".toList), (kPing, "30".toList), (kScore, "5".toList),
          (kSlot, "0".toList)],
        [(kGuid, "77".toList), (kName, "A\"l".toList), (kPing, "40".toList),
          (kScore, "2".toList), (kSlot, "1".toList)]],
      mapContains p kSlot = true ∧ mapContains p kScore = true ∧
        mapContains p kPing = true ∧ mapContains p kName = true) ∧
    ToJson [("mapname".toList, "mp_harbor".toList)]
        [[(kName, "Bob".toList), (kPing, "30".toList), (kScore, "5".toList),
          (kSlot, "0".toList)],
        [(kGuid, "77".toList), (kName, "A\"l".toList), (kPing, "40".toList),
          (kScore, "2".toList), (kSlot, "1".toList)]] =
      some ("\x7b\"server\":\x7b\"mapname\":\"mp_harbor\"\x7d,\"players\":[".toList ++
        "\x7b\"slot\":\"0\",\"score\":\"5\",\"ping\":\"30\",\"name\":\"Bob\"\x7d,".toList ++
        "\x7b\"slot\":\"1\",\"score\":\"2\",\"ping\":\"40\",\"name\":\"A\\\"l\",".toList ++
        "\"guid\":\"77\"\x7d]\x7d".toList) :=
  ⟨by decide,
    ((ToJson_player_objects [("mapname".toList, "mp_harbor".toList)]
      [[(kName, "Bob".toList), (kPing, "30".toList), (kScore, "5".toList),
          (kSlot, "0".toList)],
        [(kGuid, "77".toList), (kName, "A\"l".toList), (kPing, "40".toList),
          (kScore, "2".toList), (kSlot, "1".toList)]] (by decide)).1).trans rfl⟩

/-! ## Where the text `error=Invalid port` can come from -/

theorem brace_end_ne (a : Str) : a ++ "\x7d".toList ≠ "error=Invalid port".toList := by
  intro h
  have := congrArg List.getLast? h
  simp at this

theorem ToJson_ne (kv : StrMap) (players : List StrMap) :
    ToJson kv players ≠ some "error=Invalid port".toList := by
  intro h
  simp only [ToJson, Option.bind_eq_bind, Option.bind_eq_some] at h
  obtain ⟨a, _, ha⟩ := h
  have ha2 : (a ++ "]".toList) ++ "\x7d".toList = "error=Invalid port".toList := by
    rw [← Option.some.inj ha]; simp
  exact brace_end_ne _ ha2

theorem rconStatusJsonA_ne (players : List StrMap) :
    rconStatusJsonA players ≠ some "error=Invalid port".toList := by
  intro h
  simp only [rconStatusJsonA, Option.bind_eq_bind, Option.bind_eq_some] at h
  obtain ⟨a, _, ha⟩ := h
  have ha2 : (a ++ "]".toList) ++ "\x7d".toList = "error=Invalid port".toList := by
    rw [← Option.some.inj ha]; simp
  exact brace_end_ne _ ha2

theorem rconStatusJsonB_ne (players : List StrMap) :
    rconStatusJsonB players ≠ some "error=Invalid port".toList := by
  intro h
  simp only [rconStatusJsonB, Option.bind_eq_bind, Option.bind_eq_some] at h
  obtain ⟨a, _, ha⟩ := h
  have ha2 : (a ++ "]".toList) ++ "\x7d".toList = "error=Invalid port".toList := by
    rw [← Option.some.inj ha]; simp
  exact brace_end_ne _ ha2

theorem mapChanged_ne (cmd : Str) : mapChanged cmd ≠ "error=Invalid port".toList := by
  have h : mapChanged cmd =
      ("\x7b\"status\":\"success\",\"message\":\"Map changed to ".toList ++
        EscapeJson (substrFrom cmd 9) ++ "\"".toList) ++ "\x7d".toList := by
    simp [mapChanged]
  rw [h]
  exact brace_end_ne _

theorem afterMarker_text (marker : Str) (n : Nat) (protocolId : Int) (raw : Bool)
    (response : Str)
    (h : afterMarker marker n protocolId raw response = some "error=Invalid port".toList) :
    "error=Invalid port".toList <:+ response := by
  unfold afterMarker at h
  cases hf : findStr marker response with
  | none =>
    rw [hf] at h
    simp at h
  | some pos =>
    rw [hf] at h
    simp only [] at h
    by_cases he : substrFrom response (pos + n) = []
    · rw [if_pos he] at h
      simp at h
    · rw [if_neg he] at h
      cases raw with
      | true =>
        simp only [if_true] at h
        rw [← Option.some.inj h]
        exact List.drop_suffix _ _
      | false =>
        simp only [Bool.false_eq_true, if_false] at h
        exact absurd h (ToJson_ne _ _)

theorem afterPrint_text (players : Str → Option Str) (raw : Bool) (cmd response : Str)
    (hplayers : ∀ body, players body ≠ some "error=Invalid port".toList)
    (h : afterPrint players raw cmd response = some "error=Invalid port".toList) :
    "error=Invalid port".toList <:+ response := by
  unfold afterPrint at h
  cases hf : findStr "print".toList response with
  | none =>
    rw [hf] at h
    simp at h
  | some pos =>
    rw [hf] at h
    simp only [] at h
    by_cases he : substrFrom response (pos + 5) = []
    · rw [if_pos he] at h
      simp at h
    · rw [if_neg he] at h
      by_cases hc : cmd = "rcon status".toList
      · rw [if_pos hc] at h
        cases raw with
        | true =>
          simp only [if_true] at h
          rw [← Option.some.inj h]
          exact List.drop_suffix _ _
        | false =>
          simp only [Bool.false_eq_true, if_false] at h
          exact absurd h (hplayers _)
      · rw [if_neg hc] at h
        cases raw with
        | true =>
          simp only [if_true] at h
          rw [← Option.some.inj h]
          exact (List.dropWhile_suffix _).trans (List.drop_suffix _ _)
        | false =>
          simp only [Bool.false_eq_true, if_false] at h
          have h2 := Option.some.inj h
          have h3 : ("\x7b\"response\":\"".toList ++
              EscapeJson ((substrFrom response (pos + 5)).dropWhile (fun c => c == '\n')) ++
              "\"".toList) ++ "\x7d".toList = "error=Invalid port".toList := by
            rw [← h2]; simp
          exact absurd h3 (brace_end_ne _)

theorem mohAfterSend_text (raw : Bool) (cmd response : Str)
    (h : mohAfterSend raw cmd response = some "error=Invalid port".toList) :
    "error=Invalid port".toList <:+ response := by
  unfold mohAfterSend at h
  split at h
  · exact absurd (Option.some.inj h) (mapChanged_ne cmd)
  · split at h
    · by_cases he : response = []
      · rw [if_pos he] at h
        simp at h
      · rw [if_neg he] at h
        rw [Option.some.inj h]
    · split at h
      · exact afterMarker_text _ _ _ _ _ h
      · split at h
        · exact afterPrint_text _ raw cmd response (fun _ => rconStatusJsonA_ne _) h
        · simp at h

theorem codAfterSend_text (raw : Bool) (cmd response : Str)
    (h : codAfterSend raw cmd response = some "error=Invalid port".toList) :
    "error=Invalid port".toList <:+ response := by
  unfold codAfterSend at h
  split at h
  · exact absurd (Option.some.inj h) (mapChanged_ne cmd)
  · split at h
    · by_cases he : response = []
      · rw [if_pos he] at h
        simp at h
      · rw [if_neg he] at h
        rw [Option.some.inj h]
    · split at h
      · split at h
        · exact afterMarker_text _ _ _ _ _ h
        · exact afterMarker_text _ _ _ _ _ h
      · split at h
        · exact afterPrint_text _ raw cmd response (fun _ => rconStatusJsonB_ne _) h
        · simp at h

theorem handler_text (protocolId : Int)
    (handler : (Str → Int → Str → Int → Str) → Bool → Str → Int → Str → Str →
      Option Str × List Call)
    (hreg : protocolRegistry protocolId = some handler)
    (send : Str → Int → Str → Int → Str) (raw : Bool) (ip : Str) (port : Int)
    (command rconPassword : Str)
    (h : (handler send raw ip port command rconPassword).1 =
      some "error=Invalid port".toList) :
    ∃ query timeoutMs, "error=Invalid port".toList <:+ send ip port query timeoutMs := by
  unfold protocolRegistry at hreg
  split at hreg
  · rw [← Option.some.inj hreg] at h
    unfold MedalOfHonorHandler.ProcessCommand at h
    simp only [] at h
    split at h
    · simp at h
    · exact ⟨_, _, mohAfterSend_text _ _ _ h⟩
  · split at hreg
    · rw [← Option.some.inj hreg] at h
      unfold CallOfDutyHandler.ProcessCommand at h
      simp only [] at h
      split at h
      · simp at h
      · exact ⟨_, _, codAfterSend_text _ _ _ h⟩
    · exact Option.noConfusion hreg

/-- C16 (amended). Port validation: with the host and the command present, a port below 1
or above 65535 makes `ProcessGameServerCommand` return `error=Invalid port` without
resolving or sending anything; a port in 1..65535 passes the check: the call then either
returns `error=Invalid protocol ID` with nothing resolved or sent, or resolves the host
first, and from there on its result is the text `error=Invalid port` only if the resolver
answered exactly this text or a transport reply ends with it. -/
theorem port_validation (resolve : Str → Str) (send : Str → Int → Str → Int → Str)
    (protocolId : Int) (raw : Bool) (hostname : Str) (port : Int) (commandText : Str)
    (rconPassword : Option Str) :
    ((port < 1 ∨ port > 65535) →
      ProcessGameServerCommand resolve send protocolId raw (some hostname) port
        (some commandText) rconPassword = ("error=Invalid port".toList, [])) ∧
    (1 ≤ port → port ≤ 65535 →
      ProcessGameServerCommand resolve send protocolId raw (some hostname) port
          (some commandText) rconPassword = ("error=Invalid protocol ID".toList, []) ∨
      (ProcessGameServerCommand resolve send protocolId raw (some hostname) port
          (some commandText) rconPassword).2.head? = some (Call.resolve hostname)) ∧
    (1 ≤ port → port ≤ 65535 →
      (ProcessGameServerCommand resolve send protocolId raw (some hostname) port
          (some commandText) rconPassword).1 = "error=Invalid port".toList →
      resolve hostname = "error=Invalid port".toList ∨
      ∃ query timeoutMs,
        "error=Invalid port".toList <:+ send (resolve hostname) port query timeoutMs) := by
  refine ⟨?_, ?_, ?_⟩
  · intro hp
    simp only [ProcessGameServerCommand, if_pos hp]
  · intro h1 h2
    have hp : ¬ (port < 1 ∨ port > 65535) := by omega
    simp only [ProcessGameServerCommand, if_neg hp]
    cases hreg : protocolRegistry protocolId with
    | none => exact Or.inl rfl
    | some handler =>
      refine Or.inr ?_
      simp only []
      split
      · rfl
      · split
        · rfl
        · split <;> rfl
  · intro h1 h2
    have hp : ¬ (port < 1 ∨ port > 65535) := by omega
    simp only [ProcessGameServerCommand, if_neg hp]
    cases hreg : protocolRegistry protocolId with
    | none => intro h; simp at h
    | some handler =>
      simp only []
      split
      · intro h; exact Or.inl h
      · split
        · intro h; simp at h
        · split
          · rename_i result hres
            intro h
            simp only [] at h
            subst h
            exact Or.inr (handler_text protocolId handler hreg send raw _ port _ _ hres)
          · intro h; simp at h

/-- The instances of C16 named in the claim: port 0 is rejected with nothing resolved or
sent (the repository's test 12), port 65535 is accepted and the host is resolved (test 18). -/
theorem port_validation_witness :
    ProcessGameServerCommand (fun hostname => hostname) (fun _ _ _ _ => []) 1 false
        (some "127.0.0.1".toList) 0 (some "getstatus".toList) none =
      ("error=Invalid port".toList, []) ∧
    (ProcessGameServerCommand (fun hostname => hostname) (fun _ _ _ _ => []) 2 false
        (some "myserver.com".toList) 65535 (some "getstatus".toList) none).2.head? =
      some (Call.resolve "myserver.com".toList) :=
  ⟨(port_validation (fun hostname => hostname) (fun _ _ _ _ => []) 1 false
      "127.0.0.1".toList 0 "getstatus".toList none).1 (by decide),
    ((port_validation (fun hostname => hostname) (fun _ _ _ _ => []) 2 false
      "myserver.com".toList 65535 "getstatus".toList none).2.1 (by decide)
      (by decide)).resolve_left (by decide)⟩

/-- C16 as stated fails for a port in range: with port 28960 the server's reply
`error=Invalid port` is passed on verbatim as the result; the port 65535 of the
repository's test is accepted and a well-formed reply is decoded. -/
theorem port_in_range_counterexample :
    ProcessGameServerCommand (fun hostname => hostname)
        (fun _ _ _ _ => "error=Invalid port".toList) 2 false (some "127.0.0.1".toList) 28960
        (some "getstatus".toList) none =
      ("error=Invalid port".toList,
        [Call.resolve "127.0.0.1".toList,
          Call.send "127.0.0.1".toList 28960 "\xff\xff\xff\xffgetstatus".toList 1000]) ∧
    (ProcessGameServerCommand (fun hostname => hostname)
        (fun _ _ _ _ => "\xff\xff\xff\xffstatusResponse\n\\mapname\\mp_harbor\n".toList) 2
        false (some "127.0.0.1".toList) 65535 (some "getstatus".toList) none).1 =
      "\x7b\"server\":\x7b\"mapname\":\"mp_harbor\"\x7d,\"players\":[]\x7d".toList := by
  refine ⟨by decide, ?_⟩
  rfl

/-! ## The envelope of a reply: the marker and the text after it -/

theorem findStr_none_iff (pat s : Str) : findStr pat s = none ↔ ¬ pat <:+: s := by
  induction s with
  | nil =>
    by_cases h : pat.isPrefixOf [] = true
    · have hp : pat <+: [] := List.isPrefixOf_iff_prefix.mp h
      simp [findStr, h, hp.isInfix]
    · have hp : ¬ pat <:+: [] := by
        intro hi
        have : pat = [] := List.eq_nil_of_infix_nil hi
        subst this
        exact h rfl
      simp [findStr, h, hp]
  | cons c cs ih =>
    by_cases h : pat.isPrefixOf (c :: cs) = true
    · have hp : pat <+: c :: cs := List.isPrefixOf_iff_prefix.mp h
      simp [findStr, h, hp.isInfix]
    · have hnp : ¬ pat <+: c :: cs := fun hp => h (List.isPrefixOf_iff_prefix.mpr hp)
      simp only [findStr, h, Bool.false_eq_true, if_false, Option.map_eq_none', ih]
      rw [List.infix_cons_iff]
      tauto

theorem findStr_first (pat : Str) : ∀ (pre rest : Str),
    (∀ m, m < pre.length → ¬ pat <+: (pre ++ (pat ++ rest)).drop m) →
    findStr pat (pre ++ (pat ++ rest)) = some pre.length := by
  intro pre
  induction pre with
  | nil =>
    intro rest _
    have hp : pat.isPrefixOf (pat ++ rest) = true :=
      List.isPrefixOf_iff_prefix.mpr (List.prefix_append _ _)
    rw [List.nil_append]
    cases hs : pat ++ rest with
    | nil => rw [hs] at hp; simp [findStr, hp]
    | cons c cs => rw [hs] at hp; simp [findStr, hp]
  | cons c cs ih =>
    intro rest hfirst
    have h0 : ¬ pat <+: c :: (cs ++ (pat ++ rest)) := by
      have := hfirst 0 (by simp)
      simpa using this
    have h0b : ¬ (pat.isPrefixOf (c :: (cs ++ (pat ++ rest))) = true) :=
      fun h => h0 (List.isPrefixOf_iff_prefix.mp h)
    have hrec := ih rest (fun m hm => by
      have := hfirst (m + 1) (by simp; omega)
      simpa using this)
    rw [List.cons_append, findStr, if_neg h0b, hrec]
    simp

theorem afterMarker_missing (marker : Str) (n : Nat) (protocolId : Int) (raw : Bool)
    (response : Str) (h : ¬ marker <:+: response) :
    afterMarker marker n protocolId raw response =
      some ("error=Invalid server response;raw=".toList ++ response) := by
  unfold afterMarker
  rw [(findStr_none_iff marker response).mpr h]

theorem afterPrint_missing (players : Str → Option Str) (raw : Bool) (cmd response : Str)
    (h : ¬ "print".toList <:+: response) :
    afterPrint players raw cmd response =
      some ("error=Invalid server response;raw=".toList ++ response) := by
  unfold afterPrint
  rw [(findStr_none_iff _ response).mpr h]

theorem afterMarker_raw (marker : Str) (protocolId : Int) (pre rest : Str)
    (hfirst : ∀ m, m < pre.length → ¬ marker <+: (pre ++ (marker ++ rest)).drop m)
    (hrest : rest ≠ []) :
    afterMarker marker marker.length protocolId true (pre ++ (marker ++ rest)) = some rest := by
  have hd : substrFrom (pre ++ (marker ++ rest)) (pre.length + marker.length) = rest := by
    rw [substrFrom, ← List.append_assoc]
    exact drop_at _ _ _ (by simp)
  unfold afterMarker
  rw [findStr_first marker pre rest hfirst]
  simp only [hd, if_neg hrest, if_true]

theorem afterPrint_raw (players : Str → Option Str) (cmd pre rest : Str)
    (hfirst : ∀ m, m < pre.length →
      ¬ "print".toList <+: (pre ++ ("print".toList ++ rest)).drop m)
    (hrest : rest ≠ []) :
    afterPrint players true cmd (pre ++ ("print".toList ++ rest)) =
      some (if cmd = "rcon status".toList then rest
        else rest.dropWhile (fun c => c == '\n')) := by
  have hd : substrFrom (pre ++ ("print".toList ++ rest)) (pre.length + 5) = rest := by
    rw [substrFrom, ← List.append_assoc]
    exact drop_at _ _ _ (by simp)
  unfold afterPrint
  rw [findStr_first "print".toList pre rest hfirst]
  simp only [hd, if_neg hrest, if_true]
  split <;> rfl

/-- What the Medal of Honor handler does with a reply that is not empty and does not begin
with `error=`, for a command that is not a map change. -/
theorem mohAfterSend_reply (raw : Bool) (cmd response : Str)
    (hmap : startsWith cmd "rcon map ".toList = false) (hne : response ≠ [])
    (herr : startsWith response "error=".toList = false) :
    mohAfterSend raw cmd response =
      if cmd = "getstatus".toList then afterMarker "statusResponse".toList 14 1 raw response
      else if startsWith cmd "rcon ".toList then
        afterPrint (fun body => rconStatusJsonA (ParseRconStatusPlayers body 1)) raw cmd
          response
      else some "error=Unsupported command".toList := by
  unfold mohAfterSend
  rw [if_neg (by rw [hmap]; decide), if_neg (by rw [herr]; simp [hne])]

/-- What the Call of Duty handler does with a reply that is not empty and does not begin
with `error=`, for a command that is not a map change. -/
theorem codAfterSend_reply (raw : Bool) (cmd response : Str)
    (hmap : startsWith cmd "rcon map ".toList = false) (hne : response ≠ [])
    (herr : startsWith response "error=".toList = false) :
    codAfterSend raw cmd response =
      if cmd = "getinfo".toList then afterMarker "infoResponse".toList 12 2 raw response
      else if cmd = "getstatus".toList then
        afterMarker "statusResponse".toList 14 2 raw response
      else if startsWith cmd "rcon ".toList then
        afterPrint (fun body => rconStatusJsonB (ParseRconStatusPlayers body 2)) raw cmd
          response
      else some "error=Unsupported command".toList := by
  unfold codAfterSend
  rw [if_neg (by rw [hmap]; decide), if_neg (by rw [herr]; simp [hne])]
  by_cases h0 : cmd = "getinfo".toList
  · rw [if_pos (Or.inl h0), if_pos h0, if_pos h0]
  · by_cases h1 : cmd = "getstatus".toList
    · rw [if_pos (Or.inr h1), if_neg h0, if_neg h0, if_pos h1]
    · rw [if_neg (by tauto), if_neg h0, if_neg h1]

theorem mohHandler_result (send : Str → Int → Str → Int → Str) (raw : Bool) (ip : Str)
    (port : Int) (command rconPassword reply : Str)
    (hsend : ∀ query timeoutMs, send ip port query timeoutMs = reply)
    (hcmd : SanitizeCommand command = "getstatus".toList ∨
      startsWith (SanitizeCommand command) "rcon ".toList = true) :
    (MedalOfHonorHandler.ProcessCommand send raw ip port command rconPassword).1 =
      mohAfterSend raw (SanitizeCommand command) reply := by
  obtain ⟨query, hq⟩ := mohQuery_some _ rconPassword hcmd
  rw [MedalOfHonorHandler_of_query send raw ip port command rconPassword query hq, hsend]

theorem codHandler_result (send : Str → Int → Str → Int → Str) (raw : Bool) (ip : Str)
    (port : Int) (command rconPassword reply : Str)
    (hsend : ∀ query timeoutMs, send ip port query timeoutMs = reply)
    (hcmd : SanitizeCommand command = "getinfo".toList ∨
      SanitizeCommand command = "getstatus".toList ∨
      startsWith (SanitizeCommand command) "rcon ".toList = true) :
    (CallOfDutyHandler.ProcessCommand send raw ip port command rconPassword).1 =
      codAfterSend raw (SanitizeCommand command) reply := by
  obtain ⟨query, hq⟩ := codQuery_some _ rconPassword hcmd
  rw [CallOfDutyHandler_of_query send raw ip port command rconPassword query hq, hsend]

theorem not_rcon_of_getstatus (cmd : Str) (h : cmd = "getstatus".toList) :
    startsWith cmd "rcon ".toList = false ∧ startsWith cmd "rcon map ".toList = false ∧
      cmd ≠ "getinfo".toList ∧ cmd ≠ "rcon status".toList := by
  subst h; decide

theorem not_rcon_of_getinfo (cmd : Str) (h : cmd = "getinfo".toList) :
    startsWith cmd "rcon ".toList = false ∧ startsWith cmd "rcon map ".toList = false ∧
      cmd ≠ "getstatus".toList ∧ cmd ≠ "rcon status".toList := by
  subst h; decide

theorem not_query_of_rcon (cmd : Str) (h : startsWith cmd "rcon ".toList = true) :
    cmd ≠ "getstatus".toList ∧ cmd ≠ "getinfo".toList := by
  constructor
  · intro hc
    rw [(not_rcon_of_getstatus cmd hc).1] at h
    exact Bool.noConfusion h
  · intro hc
    rw [(not_rcon_of_getinfo cmd hc).1] at h
    exact Bool.noConfusion h

/-- C22. Missing envelope marker: for both handlers and every accepted command other than
a map change, when the transport reply is not empty, does not begin with `error=` and does
not contain the expected marker (`statusResponse` for `getstatus`, `infoResponse` for
`getinfo`, `print` for an rcon command), the result is exactly
`error=Invalid server response;raw=` followed by the whole reply, whatever the raw flag. -/
theorem missing_envelope_marker (send : Str → Int → Str → Int → Str) (raw : Bool) (ip : Str)
    (port : Int) (command rconPassword reply : Str)
    (hsend : ∀ query timeoutMs, send ip port query timeoutMs = reply)
    (hne : reply ≠ []) (herr : startsWith reply "error=".toList = false) :
    (SanitizeCommand command = "getstatus".toList → ¬ "statusResponse".toList <:+: reply →
      (MedalOfHonorHandler.ProcessCommand send raw ip port command rconPassword).1 =
        some ("error=Invalid server response;raw=".toList ++ reply) ∧
      (CallOfDutyHandler.ProcessCommand send raw ip port command rconPassword).1 =
        some ("error=Invalid server response;raw=".toList ++ reply)) ∧
    (SanitizeCommand command = "getinfo".toList → ¬ "infoResponse".toList <:+: reply →
      (CallOfDutyHandler.ProcessCommand send raw ip port command rconPassword).1 =
        some ("error=Invalid server response;raw=".toList ++ reply)) ∧
    (startsWith (SanitizeCommand command) "rcon ".toList = true →
      startsWith (SanitizeCommand command) "rcon map ".toList = false →
      ¬ "print".toList <:+: reply →
      (MedalOfHonorHandler.ProcessCommand send raw ip port command rconPassword).1 =
        some ("error=Invalid server response;raw=".toList ++ reply) ∧
      (CallOfDutyHandler.ProcessCommand send raw ip port command rconPassword).1 =
        some ("error=Invalid server response;raw=".toList ++ reply)) := by
  refine ⟨?_, ?_, ?_⟩
  · intro hc hm
    obtain ⟨_, hmap, hgi, _⟩ := not_rcon_of_getstatus _ hc
    refine ⟨?_, ?_⟩
    · rw [mohHandler_result send raw ip port command rconPassword reply hsend (Or.inl hc),
        mohAfterSend_reply raw _ reply hmap hne herr, if_pos hc, afterMarker_missing _ _ _ _ _ hm]
    · rw [codHandler_result send raw ip port command rconPassword reply hsend
          (Or.inr (Or.inl hc)),
        codAfterSend_reply raw _ reply hmap hne herr, if_neg hgi, if_pos hc,
        afterMarker_missing _ _ _ _ _ hm]
  · intro hc hm
    obtain ⟨_, hmap, _, _⟩ := not_rcon_of_getinfo _ hc
    rw [codHandler_result send raw ip port command rconPassword reply hsend (Or.inl hc),
      codAfterSend_reply raw _ reply hmap hne herr, if_pos hc, afterMarker_missing _ _ _ _ _ hm]
  · intro hc hmap hm
    obtain ⟨hgs, hgi⟩ := not_query_of_rcon _ hc
    refine ⟨?_, ?_⟩
    · rw [mohHandler_result send raw ip port command rconPassword reply hsend (Or.inr hc),
        mohAfterSend_reply raw _ reply hmap hne herr, if_neg hgs, if_pos hc,
        afterPrint_missing _ _ _ _ hm]
    · rw [codHandler_result send raw ip port command rconPassword reply hsend
          (Or.inr (Or.inr hc)),
        codAfterSend_reply raw _ reply hmap hne herr, if_neg hgi, if_neg hgs, if_pos hc,
        afterPrint_missing _ _ _ _ hm]

/-- An instance of C22: `getstatus` answered by `\xff\xff\xff\xffdisconnect`. -/
theorem missing_envelope_marker_witness :
    "\xff\xff\xff\xffdisconnect".toList ≠ [] ∧
    startsWith "\xff\xff\xff\xffdisconnect".toList "error=".toList = false ∧
    SanitizeCommand "getstatus".toList = "getstatus".toList ∧
    ¬ "statusResponse".toList <:+: "\xff\xff\xff\xffdisconnect".toList ∧
    (CallOfDutyHandler.ProcessCommand (fun _ _ _ _ => "\xff\xff\xff\xffdisconnect".toList)
        false "127.0.0.1".toList 28960 "getstatus".toList []).1 =
      some "error=Invalid server response;raw=\xff\xff\xff\xffdisconnect".toList :=
  ⟨by decide, by decide, by decide, by decide,
    ((missing_envelope_marker (fun _ _ _ _ => "\xff\xff\xff\xffdisconnect".toList) false
      "127.0.0.1".toList 28960 "getstatus".toList [] "\xff\xff\xff\xffdisconnect".toList
      (fun _ _ => rfl) (by decide) (by decide)).1 (by decide) (by decide)).2⟩

theorem afterMarker_empty_body (marker : Str) (protocolId : Int) (raw : Bool) (pre : Str)
    (hfirst : ∀ m, m < pre.length → ¬ marker <+: (pre ++ (marker ++ [])).drop m) :
    afterMarker marker marker.length protocolId raw (pre ++ (marker ++ [])) =
      some "error=Empty response after header removal;raw=".toList := by
  have hd : substrFrom (pre ++ (marker ++ [])) (pre.length + marker.length) = [] := by
    rw [substrFrom, ← List.append_assoc]
    exact drop_at _ _ _ (by simp)
  unfold afterMarker
  rw [findStr_first marker pre [] hfirst]
  simp only []
  rw [hd, if_pos rfl]
  rfl

/-- C23 (the code departs from the claim). When nothing follows the marker, the result is
`error=Empty response after header removal;raw=` with NOTHING after `;raw=`: the reply has
been replaced by its empty remainder before it is appended. So for `getstatus` answered by
`\xff\xff\xff\xffstatusResponse`, for `getinfo` answered by `\xff\xff\xff\xffinfoResponse`
and for `rcon status` answered by `\xff\xff\xff\xffprint`; the sibling path of a missing
marker does carry the reply. -/
theorem empty_body_error_carries_no_reply :
    (MedalOfHonorHandler.ProcessCommand (fun _ _ _ _ => "\xff\xff\xff\xffstatusResponse".toList)
        false "127.0.0.1".toList 12203 "getstatus".toList []).1 =
      some "error=Empty response after header removal;raw=".toList ∧
    (CallOfDutyHandler.ProcessCommand (fun _ _ _ _ => "\xff\xff\xff\xffstatusResponse".toList)
        false "127.0.0.1".toList 28960 "getstatus".toList []).1 =
      some "error=Empty response after header removal;raw=".toList ∧
    (CallOfDutyHandler.ProcessCommand (fun _ _ _ _ => "\xff\xff\xff\xffinfoResponse".toList)
        true "127.0.0.1".toList 28960 "getinfo".toList []).1 =
      some "error=Empty response after header removal;raw=".toList ∧
    (CallOfDutyHandler.ProcessCommand (fun _ _ _ _ => "\xff\xff\xff\xffprint".toList)
        false "127.0.0.1".toList 28960 "rcon status".toList "secret".toList).1 =
      some "error=Empty response after header removal;raw=".toList ∧
    (CallOfDutyHandler.ProcessCommand (fun _ _ _ _ => "\xff\xff\xff\xffdisconnect".toList)
        false "127.0.0.1".toList 28960 "getstatus".toList []).1 =
      some "error=Invalid server response;raw=\xff\xff\xff\xffdisconnect".toList := by
  refine ⟨by decide, by decide, by decide, by decide, by decide⟩

/-- C21 (amended). Raw mode: for both handlers and every accepted command other than a map
change, with raw = true and a transport reply that does not begin with `error=` and holds
the expected marker followed by a non-empty remainder, the result is the reply text after
the first occurrence of the marker, unchanged, for `getstatus`, `getinfo` and
`rcon status`; for any other rcon command whose remainder is not made of line feeds only,
it is this text without its leading line feeds, and it is not empty. -/
theorem raw_mode_body (send : Str → Int → Str → Int → Str) (ip : Str) (port : Int)
    (command rconPassword marker pre rest : Str)
    (hsend : ∀ query timeoutMs, send ip port query timeoutMs = pre ++ (marker ++ rest))
    (hfirst : ∀ m, m < pre.length → ¬ marker <+: (pre ++ (marker ++ rest)).drop m)
    (hrest : rest ≠ [])
    (herr : startsWith (pre ++ (marker ++ rest)) "error=".toList = false) :
    (SanitizeCommand command = "getstatus".toList → marker = "statusResponse".toList →
      (MedalOfHonorHandler.ProcessCommand send true ip port command rconPassword).1 =
        some rest ∧
      (CallOfDutyHandler.ProcessCommand send true ip port command rconPassword).1 =
        some rest) ∧
    (SanitizeCommand command = "getinfo".toList → marker = "infoResponse".toList →
      (CallOfDutyHandler.ProcessCommand send true ip port command rconPassword).1 =
        some rest) ∧
    (SanitizeCommand command = "rcon status".toList → marker = "print".toList →
      (MedalOfHonorHandler.ProcessCommand send true ip port command rconPassword).1 =
        some rest ∧
      (CallOfDutyHandler.ProcessCommand send true ip port command rconPassword).1 =
        some rest) ∧
    (startsWith (SanitizeCommand command) "rcon ".toList = true →
      startsWith (SanitizeCommand command) "rcon map ".toList = false →
      SanitizeCommand command ≠ "rcon status".toList → marker = "print".toList →
      rest.dropWhile (fun c => c == '\n') ≠ [] →
      (MedalOfHonorHandler.ProcessCommand send true ip port command rconPassword).1 =
        some (rest.dropWhile (fun c => c == '\n')) ∧
      (CallOfDutyHandler.ProcessCommand send true ip port command rconPassword).1 =
        some (rest.dropWhile (fun c => c == '\n')) ∧
      some (rest.dropWhile (fun c => c == '\n')) ≠ some []) := by
  have hne : pre ++ (marker ++ rest) ≠ [] := by
    intro h
    simp only [List.append_eq_nil] at h
    exact hrest h.2.2
  have hrcon : ∀ cmd : Str, startsWith cmd "rcon ".toList = true →
      startsWith cmd "rcon map ".toList = false → marker = "print".toList →
      mohAfterSend true cmd (pre ++ (marker ++ rest)) =
        some (if cmd = "rcon status".toList then rest
          else rest.dropWhile (fun c => c == '\n')) ∧
      codAfterSend true cmd (pre ++ (marker ++ rest)) =
        some (if cmd = "rcon status".toList then rest
          else rest.dropWhile (fun c => c == '\n')) := by
    intro cmd hc hmap hm
    subst hm
    obtain ⟨hgs, hgi⟩ := not_query_of_rcon _ hc
    refine ⟨?_, ?_⟩
    · rw [mohAfterSend_reply true _ _ hmap hne herr, if_neg hgs, if_pos hc,
        afterPrint_raw _ _ pre rest hfirst hrest]
    · rw [codAfterSend_reply true _ _ hmap hne herr, if_neg hgi, if_neg hgs, if_pos hc,
        afterPrint_raw _ _ pre rest hfirst hrest]
  refine ⟨?_, ?_, ?_, ?_⟩
  · intro hc hm
    subst hm
    obtain ⟨_, hmap, hgi, _⟩ := not_rcon_of_getstatus _ hc
    have ha := fun protocolId : Int =>
      afterMarker_raw "statusResponse".toList protocolId pre rest hfirst hrest
    refine ⟨?_, ?_⟩
    · rw [mohHandler_result send true ip port command rconPassword _ hsend (Or.inl hc),
        mohAfterSend_reply true _ _ hmap hne herr, if_pos hc]
      exact ha 1
    · rw [codHandler_result send true ip port command rconPassword _ hsend
          (Or.inr (Or.inl hc)),
        codAfterSend_reply true _ _ hmap hne herr, if_neg hgi, if_pos hc]
      exact ha 2
  · intro hc hm
    subst hm
    obtain ⟨_, hmap, _, _⟩ := not_rcon_of_getinfo _ hc
    rw [codHandler_result send true ip port command rconPassword _ hsend (Or.inl hc),
      codAfterSend_reply true _ _ hmap hne herr, if_pos hc]
    exact afterMarker_raw "infoResponse".toList 2 pre rest hfirst hrest
  · intro hc hm
    have h1 : startsWith (SanitizeCommand command) "rcon ".toList = true := by
      rw [hc]; decide
    have h2 : startsWith (SanitizeCommand command) "rcon map ".toList = false := by
      rw [hc]; decide
    obtain ⟨ha, hb⟩ := hrcon _ h1 h2 hm
    rw [if_pos hc] at ha hb
    exact ⟨by rw [mohHandler_result send true ip port command rconPassword _ hsend
        (Or.inr h1), ha],
      by rw [codHandler_result send true ip port command rconPassword _ hsend
        (Or.inr (Or.inr h1)), hb]⟩
  · intro h1 h2 hc hm hbody
    obtain ⟨ha, hb⟩ := hrcon _ h1 h2 hm
    rw [if_neg hc] at ha hb
    exact ⟨by rw [mohHandler_result send true ip port command rconPassword _ hsend
        (Or.inr h1), ha],
      by rw [codHandler_result send true ip port command rconPassword _ hsend
        (Or.inr (Or.inr h1)), hb],
      fun h => hbody (Option.some.inj h)⟩

/-- Two instances of C21: `getstatus` in raw mode, answered by
`\xff\xff\xff\xffstatusResponse\n\mapname\mp_harbor\n`, returns `\n\mapname\mp_harbor\n`;
`rcon say hi` in raw mode, answered by `\xff\xff\xff\xffprint\nhello`, returns `hello`. -/
theorem raw_mode_body_witness :
    (∀ m, m < "\xff\xff\xff\xff".toList.length →
      ¬ "statusResponse".toList <+:
        ("\xff\xff\xff\xff".toList ++
          ("statusResponse".toList ++ "\n\\mapname\\mp_harbor\n".toList)).drop m) ∧
    "\n\\mapname\\mp_harbor\n".toList ≠ [] ∧
    startsWith ("\xff\xff\xff\xff".toList ++
      ("statusResponse".toList ++ "\n\\mapname\\mp_harbor\n".toList)) "error=".toList = false ∧
    (CallOfDutyHandler.ProcessCommand
        (fun _ _ _ _ => "\xff\xff\xff\xff".toList ++
          ("statusResponse".toList ++ "\n\\mapname\\mp_harbor\n".toList))
        true "127.0.0.1".toList 28960 "getstatus".toList []).1 =
      some "\n\\mapname\\mp_harbor\n".toList ∧
    (∀ m, m < "\xff\xff\xff\xff".toList.length →
      ¬ "print".toList <+:
        ("\xff\xff\xff\xff".toList ++ ("print".toList ++ "\nhello".toList)).drop m) ∧
    "\nhello".toList.dropWhile (fun c => c == '\n') ≠ [] ∧
    (MedalOfHonorHandler.ProcessCommand
        (fun _ _ _ _ => "\xff\xff\xff\xff".toList ++ ("print".toList ++ "\nhello".toList))
        true "127.0.0.1".toList 12203 "rcon say hi".toList "secret".toList).1 =
      some "hello".toList :=
  ⟨by decide, by decide, by decide,
    ((raw_mode_body
      (fun _ _ _ _ => "\xff\xff\xff\xff".toList ++
        ("statusResponse".toList ++ "\n\\mapname\\mp_harbor\n".toList))
      "127.0.0.1".toList 28960 "getstatus".toList [] "statusResponse".toList
      "\xff\xff\xff\xff".toList "\n\\mapname\\mp_harbor\n".toList (fun _ _ => rfl)
      (by decide) (by decide) (by decide)).1 (by decide) rfl).2,
    by decide, by decide,
    ((raw_mode_body
      (fun _ _ _ _ => "\xff\xff\xff\xff".toList ++ ("print".toList ++ "\nhello".toList))
      "127.0.0.1".toList 12203 "rcon say hi".toList "secret".toList "print".toList
      "\xff\xff\xff\xff".toList "\nhello".toList (fun _ _ => rfl)
      (by decide) (by decide) (by decide)).2.2.2 (by decide) (by decide) (by decide) rfl
      (by decide)).1⟩

/-- C21 as stated fails for an rcon command other than `rcon status`: in raw mode,
`rcon say hi` answered by `\xff\xff\xff\xffprint\nhello` returns `hello`, not the text
`\nhello` that follows the marker. -/
theorem raw_rcon_trims_line_feeds_counterexample :
    (CallOfDutyHandler.ProcessCommand (fun _ _ _ _ => "\xff\xff\xff\xffprint\nhello".toList)
        true "127.0.0.1".toList 28960 "rcon say hi".toList "secret".toList).1 =
      some "hello".toList ∧
    (MedalOfHonorHandler.ProcessCommand (fun _ _ _ _ => "\xff\xff\xff\xffprint\nhello".toList)
        true "127.0.0.1".toList 12203 "rcon say hi".toList "secret".toList).1 =
      some "hello".toList ∧
    findStr "print".toList "\xff\xff\xff\xffprint\nhello".toList = some 4 ∧
    substrFrom "\xff\xff\xff\xffprint\nhello".toList (4 + 5) = "\nhello".toList ∧
    "hello".toList ≠ "\nhello".toList := by
  refine ⟨by decide, by decide, by decide, by decide, by decide⟩

/-! ## Header markers anywhere in a line -/

theorem containsStr_iff (s pat : Str) : containsStr s pat = true ↔ pat <:+: s := by
  rw [containsStr]
  cases h : findStr pat s with
  | none => simpa using (findStr_none_iff pat s).mp h
  | some n =>
    have : ¬ findStr pat s = none := by rw [h]; simp
    simpa using not_not.mp (fun hc => this ((findStr_none_iff pat s).mpr hc))

theorem isHeaderLine_iff (line : Str) :
    isHeaderLine line = true ↔ ∃ marker ∈ headerMarkers, marker <:+: line := by
  simp only [isHeaderLine, Bool.or_eq_true, containsStr_iff, headerMarkers, List.mem_cons,
    List.mem_singleton, List.not_mem_nil, or_false, exists_eq_or_imp, exists_eq_left,
    or_assoc]

theorem infix_dropWhile (c : Char) (m l : Str) (hc : isspace c = false)
    (h : (c :: m) <:+: l) : (c :: m) <:+: l.dropWhile isspace := by
  obtain ⟨a, b, hab⟩ := h
  subst hab
  induction a with
  | nil =>
    simp only [List.nil_append, List.cons_append, List.dropWhile_cons, hc,
      Bool.false_eq_true, if_false]
    exact ⟨[], b, rfl⟩
  | cons x xs ih =>
    simp only [List.cons_append, List.dropWhile_cons]
    split
    · simpa using ih
    · exact ⟨x :: xs, b, by simp⟩

theorem infix_trim (m l : Str) (hne : m ≠ [])
    (hhead : ∀ c, m.head? = some c → isspace c = false)
    (hlast : ∀ c, m.getLast? = some c → isspace c = false)
    (h : m <:+: l) : m <:+: trim l := by
  cases m with
  | nil => exact absurd rfl hne
  | cons c cs =>
    have h1 := infix_dropWhile c cs l (hhead c rfl) h
    have h2 : (c :: cs).reverse <:+: (l.dropWhile isspace).reverse :=
      List.reverse_infix.mpr h1
    cases hr : (c :: cs).reverse with
    | nil => simp at hr
    | cons d ds =>
      have hd : isspace d = false := by
        apply hlast d
        rw [← List.head?_reverse, hr]; rfl
      rw [hr] at h2
      have h3 := infix_dropWhile d ds _ hd h2
      rw [← hr] at h3
      have h4 := List.reverse_infix.mpr h3
      rw [List.reverse_reverse] at h4
      exact h4

theorem headerMarkers_ends (marker : Str) (h : marker ∈ headerMarkers) :
    marker ≠ [] ∧ (∀ c, marker.head? = some c → isspace c = false) ∧
      (∀ c, marker.getLast? = some c → isspace c = false) := by
  simp only [headerMarkers, List.mem_cons, List.mem_singleton, List.not_mem_nil,
    or_false] at h
  rcases h with h | h | h | h | h | h | h | h <;> subst h <;>
    refine ⟨by decide, ?_, ?_⟩ <;> intro c hc <;>
    · have := Option.some.inj hc
      subst this
      decide

theorem rconLine_header (protocolId : Int) (isSteam : Bool) (line marker : Str)
    (hm : marker ∈ headerMarkers) (hin : marker <:+: line) :
    rconLine protocolId isSteam line = none := by
  obtain ⟨hne, hh, hl⟩ := headerMarkers_ends marker hm
  have ht : marker <:+: trim line := infix_trim marker line hne hh hl hin
  have hhdr : isHeaderLine (trim line) = true := (isHeaderLine_iff _).mpr ⟨marker, hm, ht⟩
  unfold rconLine
  simp only [hhdr, if_true]
  split <;> rfl

theorem getlinesAux_append (a b cur : Str) :
    getlinesAux (a ++ '\n' :: b) cur = getlinesAux (a ++ ['\n']) cur ++ getlinesAux b [] := by
  induction a generalizing cur with
  | nil => simp [getlinesAux]
  | cons c cs ih =>
    rw [List.cons_append, List.cons_append, getlinesAux, getlinesAux]
    by_cases hc : c = '\n'
    · rw [if_pos hc, if_pos hc, ih]; simp
    · rw [if_neg hc, if_neg hc, ih]

theorem getlines_append (pre rest : Str) (hpre : pre = [] ∨ pre.getLast? = some '\n') :
    getlines (pre ++ rest) = getlines pre ++ getlines rest := by
  rcases hpre with h | h
  · subst h; simp [getlines, getlinesAux]
  · obtain ⟨a, ha⟩ : ∃ a, pre = a ++ ['\n'] := by
      rcases List.eq_nil_or_concat pre with hp | ⟨a, c, hp⟩
      · subst hp; simp at h
      · subst hp
        rw [List.concat_eq_append] at h ⊢
        simp at h
        exact ⟨a, by rw [h]⟩
    subst ha
    simp only [getlines, List.append_assoc, List.singleton_append]
    exact getlinesAux_append a rest []

/-- C27. Header markers are matched anywhere in a line: for every protocol id, a line that
holds one of `map:`, `num score ping`, `----`, `hostname:`, `version :`, `udp/ip  :`,
`os      :`, `type    :` at any position gives no record, whatever else it holds; and
removing such a line (with its line feed, or as the last line of the body) from the body
does not change the records `ParseRconStatusPlayers` emits when the detected variant is
the same with and without the line. -/
theorem header_marker_anywhere (protocolId : Int) (isSteam : Bool)
    (pre line post marker : Str) (hm : marker ∈ headerMarkers) (hin : marker <:+: line)
    (hpre : pre = [] ∨ pre.getLast? = some '\n') (hnl : '\n' ∉ line) :
    rconLine protocolId isSteam line = none ∧
    (detectSteam (getlines (pre ++ (line ++ '\n' :: post))) =
        detectSteam (getlines (pre ++ post)) →
      ParseRconStatusPlayers (pre ++ (line ++ '\n' :: post)) protocolId =
        ParseRconStatusPlayers (pre ++ post) protocolId) ∧
    (detectSteam (getlines (pre ++ line)) = detectSteam (getlines pre) →
      ParseRconStatusPlayers (pre ++ line) protocolId =
        ParseRconStatusPlayers pre protocolId) := by
  have hnone : ∀ s : Bool, rconLine protocolId s line = none :=
    fun s => rconLine_header protocolId s line marker hm hin
  have hne : line ≠ [] := by
    intro h
    subst h
    exact (headerMarkers_ends marker hm).1 (List.eq_nil_of_infix_nil hin)
  refine ⟨hnone isSteam, ?_, ?_⟩
  · intro hv
    have h1 : getlines (pre ++ (line ++ '\n' :: post)) =
        getlines pre ++ line :: getlines post := by
      rw [getlines_append pre _ hpre]
      congr 1
      have := getlinesAux_line line [] post hnl
      simpa [getlines] using this
    have h2 : getlines (pre ++ post) = getlines pre ++ getlines post :=
      getlines_append pre _ hpre
    simp only [ParseRconStatusPlayers]
    rw [hv]
    rw [h1, h2, List.filterMap_append, List.filterMap_append, List.filterMap_cons, hnone]
  · intro hv
    have h1 : getlines (pre ++ line) = getlines pre ++ [line] := by
      rw [getlines_append pre _ hpre, getlines_single line hne hnl]
    simp only [ParseRconStatusPlayers]
    rw [hv, h1, List.filterMap_append, List.filterMap_cons, hnone]
    simp

/-- An instance of C27: the row `0 5 30 map:king 25 1.2.3.4:28960 1234 25000` gives no
record, although the same row with the name `mapking` gives one; removing the row from a
body of two rows leaves the record of the other row. -/
theorem header_marker_anywhere_witness :
    "map:".toList ∈ headerMarkers ∧
    "map:".toList <:+: "0 5 30 map:king 25 1.2.3.4:28960 1234 25000".toList ∧
    '\n' ∉ "0 5 30 map:king 25 1.2.3.4:28960 1234 25000".toList ∧
    rconLine 1 false "0 5 30 map:king 25 1.2.3.4:28960 1234 25000".toList = none ∧
    rconLine 1 false "0 5 30 mapking 25 1.2.3.4:28960 1234 25000".toList =
      some (playerA "0".toList "5".toList "30".toList "mapking".toList "25".toList
        "1.2.3.4:28960".toList "1234".toList "25000".toList) ∧
    ParseRconStatusPlayers
        ("0 5 30 map:king 25 1.2.3.4:28960 1234 25000".toList ++
          '\n' :: "1 7 40 Bob 30 5.6.7.8:28960 4321 25000".toList) 1 =
      ParseRconStatusPlayers "1 7 40 Bob 30 5.6.7.8:28960 4321 25000".toList 1 :=
  ⟨by decide, ⟨"0 5 30 ".toList, "king 25 1.2.3.4:28960 1234 25000".toList, by decide⟩,
    by decide,
    (header_marker_anywhere 1 false [] "0 5 30 map:king 25 1.2.3.4:28960 1234 25000".toList
      "1 7 40 Bob 30 5.6.7.8:28960 4321 25000".toList "map:".toList (by decide)
      ⟨"0 5 30 ".toList, "king 25 1.2.3.4:28960 1234 25000".toList, by decide⟩
      (Or.inl rfl) (by decide)).1,
    by decide,
    (header_marker_anywhere 1 false [] "0 5 30 map:king 25 1.2.3.4:28960 1234 25000".toList
      "1 7 40 Bob 30 5.6.7.8:28960 4321 25000".toList "map:".toList (by decide)
      ⟨"0 5 30 ".toList, "king 25 1.2.3.4:28960 1234 25000".toList, by decide⟩
      (Or.inl rfl) (by decide)).2.1 (by decide)⟩

/-! ## The header pairs followed by the player rows -/

theorem parseKeyValuesLoop_pair_line (pre k v rows : Str) (fuel : Nat) (acc : StrMap)
    (hk : k ≠ []) (hkb : '\\' ∉ k) (hvb : '\\' ∉ v) (hvn : '\n' ∉ v) (hrows : '\\' ∉ rows) :
    parseKeyValuesLoop (pre ++ '\\' :: (k ++ '\\' :: (v ++ '\n' :: rows))) (fuel + 1)
        pre.length acc =
      parseKeyValuesLoop (pre ++ '\\' :: (k ++ '\\' :: (v ++ '\n' :: rows))) fuel
        (pre ++ '\\' :: (k ++ ['\\'] ++ v)).length (mapAssign acc k v) := by
  have e1 : pre ++ '\\' :: (k ++ '\\' :: (v ++ '\n' :: rows)) =
      (pre ++ ['\\']) ++ (k ++ '\\' :: (v ++ '\n' :: rows)) := by simp
  have e2 : pre ++ '\\' :: (k ++ '\\' :: (v ++ '\n' :: rows)) =
      (pre ++ '\\' :: (k ++ ['\\'])) ++ (v ++ '\n' :: rows) := by simp
  have f1 : findChar (pre ++ '\\' :: (k ++ '\\' :: (v ++ '\n' :: rows))) '\\'
      (pre.length + 1) = some (pre.length + 1 + k.length) := by
    rw [e1]; exact findChar_at _ _ _ _ _ (by simp) hkb
  have s1 : substr (pre ++ '\\' :: (k ++ '\\' :: (v ++ '\n' :: rows))) (pre.length + 1)
      (pre.length + 1 + k.length - (pre.length + 1)) = k := by
    rw [e1]; exact substr_at _ _ _ _ _ (by simp) (by omega)
  have hp2 : pre.length + 1 + k.length + 1 = (pre ++ '\\' :: (k ++ ['\\'])).length := by
    simp only [List.length_append, List.length_cons, List.length_nil]; omega
  have f2 : valueEnd (pre ++ '\\' :: (k ++ '\\' :: (v ++ '\n' :: rows)))
      (pre.length + 1 + k.length + 1) = pre.length + 1 + k.length + 1 + v.length := by
    have g1 := findChar_none (pre ++ '\\' :: (k ++ ['\\'])) (v ++ '\n' :: rows) '\\' _ hp2
      (by
        intro hmem
        rcases List.mem_append.mp hmem with h | h
        · exact hvb h
        · rcases List.mem_cons.mp h with h | h
          · exact absurd h (by decide)
          · exact hrows h)
    have g2 := findChar_at (pre ++ '\\' :: (k ++ ['\\'])) v rows '\n' _ hp2 hvn
    rw [valueEnd, e2, g1, g2]
  have s2 : substr (pre ++ '\\' :: (k ++ '\\' :: (v ++ '\n' :: rows)))
      (pre.length + 1 + k.length + 1)
      (pre.length + 1 + k.length + 1 + v.length - (pre.length + 1 + k.length + 1)) = v := by
    rw [e2]; exact substr_at _ _ _ _ _ hp2 (by omega)
  have hlt : pre.length < (pre ++ '\\' :: (k ++ '\\' :: (v ++ '\n' :: rows))).length := by
    simp
  have hc : charAt (pre ++ '\\' :: (k ++ '\\' :: (v ++ '\n' :: rows))) pre.length = '\\' :=
    charAt_at _ _ _ _ rfl
  rw [parseKeyValuesLoop]
  simp only [hlt, hc, if_true, f1, s1, f2, s2, bne_self_eq_false, Bool.false_eq_true,
    if_false, ne_eq, hk, not_false_eq_true]
  congr 1
  simp only [List.length_append, List.length_cons, List.length_nil]; ring

theorem parseKeyValuesLoop_stop (response : Str) (fuel pos : Nat) (acc : StrMap)
    (h : charAt response pos ≠ '\\') : parseKeyValuesLoop response fuel pos acc = acc := by
  cases fuel with
  | zero => rfl
  | succ f =>
    rw [parseKeyValuesLoop]
    split
    · simp [h]
    · rfl

theorem parseKeyValuesLoop_encode_line (rows : Str) (hrows : '\\' ∉ rows)
    (pairs : List (Str × Str)) :
    ∀ (pre : Str) (fuel : Nat) (acc : StrMap), pairs.length ≤ fuel →
      (∀ e ∈ pairs, e.1 ≠ [] ∧ '\\' ∉ e.1 ∧ '\\' ∉ e.2 ∧ '\n' ∉ e.2) →
      parseKeyValuesLoop (pre ++ (encodePairs pairs ++ '\n' :: rows)) fuel pre.length acc =
        pairs.foldl (fun m e => mapAssign m e.1 e.2) acc := by
  induction pairs with
  | nil =>
    intro pre fuel acc _ _
    simp only [encodePairs, List.nil_append, List.foldl_nil]
    exact parseKeyValuesLoop_stop _ _ _ _ (by rw [charAt_at pre '\n' rows _ rfl]; decide)
  | cons e es ih =>
    intro pre fuel acc hfuel hall
    obtain ⟨hk, hkb, hvb, hvn⟩ := hall e (List.mem_cons_self _ _)
    cases fuel with
    | zero => simp at hfuel
    | succ f =>
      have hih := ih (pre ++ '\\' :: (e.1 ++ ['\\'] ++ e.2)) f (mapAssign acc e.1 e.2)
        (by simpa using hfuel) (fun x hx => hall x (List.mem_cons_of_mem _ hx))
      have e3 : pre ++ '\\' :: (e.1 ++ ['\\'] ++ e.2) ++ (encodePairs es ++ '\n' :: rows) =
          pre ++ '\\' :: (e.1 ++ '\\' :: (e.2 ++ (encodePairs es ++ '\n' :: rows))) := by simp
      rw [e3] at hih
      have e4 : pre ++ (encodePairs (e :: es) ++ '\n' :: rows) =
          pre ++ '\\' :: (e.1 ++ '\\' :: (e.2 ++ (encodePairs es ++ '\n' :: rows))) := by
        simp [encodePairs]
      rw [e4, List.foldl_cons, ← hih]
      rcases encodePairs_head es with h | ⟨t, h⟩
      · rw [h, List.nil_append]
        exact parseKeyValuesLoop_pair_line pre e.1 e.2 rows f acc hk hkb hvb hvn hrows
      · exact parseKeyValuesLoop_pair pre e.1 e.2 _ f acc hk hkb hvb hvn
          (Or.inr ⟨t ++ '\n' :: rows, by rw [h]; rfl⟩)

/-- C24 (amended). The server header is not polluted by player rows that hold no
backslash: for every header line made of `\key\value` pairs with non-empty keys, no
backslash inside a key or a value and no line feed inside a value, and every following
text `R` without a backslash, `ParseKeyValues` of the header, a line feed and `R` equals
`ParseKeyValues` of the header alone: the value of the final pair ends at the line feed. -/
theorem header_not_polluted (pairs : List (Str × Str)) (R : Str)
    (hkeys : ∀ e ∈ pairs, e.1 ≠ [] ∧ '\\' ∉ e.1)
    (hvals : ∀ e ∈ pairs, '\\' ∉ e.2 ∧ '\n' ∉ e.2)
    (hR : '\\' ∉ R) :
    ParseKeyValues (encodePairs pairs ++ '\n' :: R) = ParseKeyValues (encodePairs pairs) := by
  have hall : ∀ e ∈ pairs, e.1 ≠ [] ∧ '\\' ∉ e.1 ∧ '\\' ∉ e.2 ∧ '\n' ∉ e.2 :=
    fun e he => ⟨(hkeys e he).1, (hkeys e he).2, (hvals e he).1, (hvals e he).2⟩
  have hright : ParseKeyValues (encodePairs pairs) =
      pairs.foldl (fun m e => mapAssign m e.1 e.2) [] := by
    have hpos : ((encodePairs pairs).takeWhile (fun c => c == '\n')).length = 0 := by
      rcases encodePairs_head pairs with h | ⟨t, h⟩ <;> rw [h] <;> simp
    have hloop := parseKeyValuesLoop_encode pairs [] (encodePairs pairs).length []
      (length_le_encodePairs pairs) hall
    simp only [List.nil_append, List.length_nil] at hloop
    simp only [ParseKeyValues, hpos, hloop]
  rw [hright]
  cases pairs with
  | nil =>
    simp only [encodePairs, List.nil_append, List.foldl_nil, ParseKeyValues]
    apply parseKeyValuesLoop_stop
    intro hc
    have hmem : '\\' ∈ '\n' :: R := by
      by_cases hlt : (('\n' :: R).takeWhile (fun c => c == '\n')).length < ('\n' :: R).length
      · rw [charAt, List.getD_eq_getElem _ _ hlt] at hc
        rw [← hc]
        exact List.getElem_mem _
      · rw [charAt, List.getD_eq_default _ _ (Nat.not_lt.mp hlt)] at hc
        exact absurd hc (by decide)
    rcases List.mem_cons.mp hmem with h | h
    · exact absurd h (by decide)
    · exact hR h
  | cons e es =>
    have hpos : ((encodePairs (e :: es) ++ '\n' :: R).takeWhile
        (fun c => c == '\n')).length = 0 := by
      simp [encodePairs]
    have hloop := parseKeyValuesLoop_encode_line R hR (e :: es) []
      (encodePairs (e :: es) ++ '\n' :: R).length []
      (by
        have := length_le_encodePairs (e :: es)
        simp only [List.length_append]
        omega)
      hall
    simp only [List.nil_append, List.length_nil] at hloop
    simp only [ParseKeyValues, hpos, hloop]

/-- An instance of C24: the header `\mapname\mp_harbor\sv_maxclients\20` followed by the
row `5 30 "Bob"`. -/
theorem header_not_polluted_witness :
    (∀ e ∈ [("mapname".toList, "mp_harbor".toList), ("sv_maxclients".toList, "20".toList)],
      e.1 ≠ [] ∧ '\\' ∉ e.1) ∧
    (∀ e ∈ [("mapname".toList, "mp_harbor".toList), ("sv_maxclients".toList, "20".toList)],
      '\\' ∉ e.2 ∧ '\n' ∉ e.2) ∧
    '\\' ∉ "5 30 \"Bob\"\n".toList ∧
    ParseKeyValues ("\\mapname\\mp_harbor\\sv_maxclients\\20".toList ++
        '\n' :: "5 30 \"Bob\"\n".toList) =
      ParseKeyValues "\\mapname\\mp_harbor\\sv_maxclients\\20".toList :=
  ⟨by decide, by decide, by decide,
    header_not_polluted
      [("mapname".toList, "mp_harbor".toList), ("sv_maxclients".toList, "20".toList)]
      "5 30 \"Bob\"\n".toList (by decide) (by decide) (by decide)⟩

/-- C24 as stated fails when a player row holds a backslash: after the header
`\mapname\mp_harbor`, the row `5 30 "a\b"` makes the value of `mapname` run over the line
feed up to the backslash of the row. -/
theorem header_polluted_by_backslash_counterexample :
    ParseKeyValues ("\\mapname\\mp_harbor".toList ++ '\n' :: "5 30 \"a\\b\"".toList) =
      [("mapname".toList, "mp_harbor\n5 30 \"a".toList)] ∧
    ParseKeyValues "\\mapname\\mp_harbor".toList =
      [("mapname".toList, "mp_harbor".toList)] ∧
    "\\mapname\\mp_harbor".toList = encodePairs [("mapname".toList, "mp_harbor".toList)] := by
  refine ⟨by decide, by decide, by decide⟩

/-! ## The order of the keys of a map -/

theorem strLt_irrefl (a : Str) : strLt a a = false := by
  induction a with
  | nil => rfl
  | cons c cs ih => simp [strLt, ih]

theorem strLt_asymm (a : Str) : ∀ b : Str, strLt a b = true → strLt b a = false := by
  induction a with
  | nil => intro b h; cases b <;> simp [strLt] at h ⊢
  | cons c cs ih =>
    intro b h
    cases b with
    | nil => simp [strLt] at h
    | cons d ds =>
      simp only [strLt] at h ⊢
      by_cases h1 : c.toNat < d.toNat
      · have h2 : ¬ d.toNat < c.toNat := by omega
        simp [h1, h2]
      · by_cases h2 : d.toNat < c.toNat
        · simp [h1, h2] at h
        · simp only [h1, h2, if_false] at h ⊢
          exact ih ds h

theorem strLt_trans (a : Str) : ∀ b c : Str, strLt a b = true → strLt b c = true →
    strLt a c = true := by
  induction a with
  | nil =>
    intro b c h1 h2
    cases b with
    | nil => simp [strLt] at h1
    | cons d ds =>
      cases c with
      | nil => simp [strLt] at h2
      | cons e es => rfl
  | cons x xs ih =>
    intro b c h1 h2
    cases b with
    | nil => simp [strLt] at h1
    | cons d ds =>
      cases c with
      | nil => simp [strLt] at h2
      | cons e es =>
        simp only [strLt] at h1 h2 ⊢
        by_cases hxd : x.toNat < d.toNat
        · by_cases hde : d.toNat < e.toNat
          · have : x.toNat < e.toNat := by omega
            simp [this]
          · by_cases hed : e.toNat < d.toNat
            · simp [hde, hed] at h2
            · have : x.toNat < e.toNat := by omega
              simp [this]
        · by_cases hdx : d.toNat < x.toNat
          · simp [hxd, hdx] at h1
          · simp only [hxd, hdx, if_false] at h1
            by_cases hde : d.toNat < e.toNat
            · have : x.toNat < e.toNat := by omega
              simp [this]
            · by_cases hed : e.toNat < d.toNat
              · simp [hde, hed] at h2
              · simp only [hde, hed, if_false] at h2
                have g1 : ¬ x.toNat < e.toNat := by omega
                have g2 : ¬ e.toNat < x.toNat := by omega
                simp only [g1, g2, if_false]
                exact ih ds es h1 h2

theorem strLt_total (a : Str) : ∀ b : Str, strLt a b = false → a ≠ b → strLt b a = true := by
  induction a with
  | nil =>
    intro b h hne
    cases b with
    | nil => exact absurd rfl hne
    | cons d ds => simp [strLt] at h
  | cons c cs ih =>
    intro b h hne
    cases b with
    | nil => rfl
    | cons d ds =>
      simp only [strLt] at h ⊢
      by_cases h1 : c.toNat < d.toNat
      · simp [h1] at h
      · by_cases h2 : d.toNat < c.toNat
        · simp [h2]
        · simp only [h1, h2, if_false] at h ⊢
          have hcd : c = d := by
            apply Char.ext
            apply UInt32.ext
            have : c.toNat = d.toNat := by omega
            simpa [Char.toNat] using this
          subst hcd
          exact ih ds h (fun e => hne (by rw [e]))

theorem mapInsertNew_sorted (k v : Str) (m : StrMap)
    (hs : m.Pairwise (fun a b => strLt a.1 b.1 = true)) (hk : ∀ e ∈ m, e.1 ≠ k) :
    (mapInsertNew k v m).Pairwise (fun a b => strLt a.1 b.1 = true) := by
  induction m with
  | nil => simp [mapInsertNew]
  | cons e es ih =>
    rw [List.pairwise_cons] at hs
    simp only [mapInsertNew]
    split
    · rename_i hlt
      rw [List.pairwise_cons]
      refine ⟨?_, List.pairwise_cons.mpr hs⟩
      intro x hx
      rcases List.mem_cons.mp hx with h | h
      · rw [h]; exact hlt
      · exact strLt_trans _ _ _ hlt (hs.1 x h)
    · rename_i hlt
      rw [List.pairwise_cons]
      refine ⟨?_, ih hs.2 (fun x hx => hk x (List.mem_cons_of_mem _ hx))⟩
      intro x hx
      have hx2 := (mapInsertNew_perm k v es).subset hx
      rcases List.mem_cons.mp hx2 with h | h
      · rw [h]
        exact strLt_total _ _ (by simpa using hlt)
          (fun heq => hk e (List.mem_cons_self _ _) heq.symm)
      · exact hs.1 x h

theorem mapAssign_sorted (m : StrMap) (k v : Str)
    (hs : m.Pairwise (fun a b => strLt a.1 b.1 = true)) :
    (mapAssign m k v).Pairwise (fun a b => strLt a.1 b.1 = true) := by
  unfold mapAssign
  split
  · rw [List.pairwise_map]
    refine hs.imp ?_
    intro a b hab
    have ha : (if (a.1 == k) = true then (a.1, v) else a).1 = a.1 := by split <;> rfl
    have hb : (if (b.1 == k) = true then (b.1, v) else b).1 = b.1 := by split <;> rfl
    rw [ha, hb]; exact hab
  · rename_i hc
    apply mapInsertNew_sorted k v m hs
    intro e he heq
    apply hc
    rw [mapContains_iff]
    exact List.mem_map.mpr ⟨e, he, heq⟩

theorem parseKeyValuesLoop_sorted (response : Str) :
    ∀ (fuel pos : Nat) (acc : StrMap), acc.Pairwise (fun a b => strLt a.1 b.1 = true) →
      (parseKeyValuesLoop response fuel pos acc).Pairwise
        (fun a b => strLt a.1 b.1 = true) := by
  intro fuel
  induction fuel with
  | zero => intro pos acc h; exact h
  | succ f ih =>
    intro pos acc h
    rw [parseKeyValuesLoop]
    split
    · split
      · exact h
      · simp only []
        cases hf : findChar response '\\' (pos + 1) with
        | none => exact h
        | some next =>
          simp only []
          apply ih
          split
          · exact mapAssign_sorted _ _ _ h
          · exact h
    · exact h

theorem ParseKeyValues_sorted (response : Str) :
    (ParseKeyValues response).Pairwise (fun a b => strLt a.1 b.1 = true) :=
  parseKeyValuesLoop_sorted response _ _ [] List.Pairwise.nil

theorem sorted_perm_eq (m1 m2 : StrMap)
    (h1 : m1.Pairwise (fun a b => strLt a.1 b.1 = true))
    (h2 : m2.Pairwise (fun a b => strLt a.1 b.1 = true)) (hp : List.Perm m1 m2) :
    m1 = m2 := by
  haveI : IsAntisymm (Str × Str) (fun a b => strLt a.1 b.1 = true) :=
    ⟨fun a b hab hba => by rw [strLt_asymm _ _ hab] at hba; exact Bool.noConfusion hba⟩
  exact List.eq_of_perm_of_sorted hp h1 h2

theorem serverLoop_false (kv : StrMap) : ∀ (done : List Str) (result : Str), done ≠ [] →
    serverLoop kv false (result ++ joinComma done) =
      result ++ joinComma (done ++ kv.map serverMember) := by
  induction kv with
  | nil => intro done result _; simp [serverLoop]
  | cons e es ih =>
    intro done result hd
    have hstep : joinComma (done ++ [serverMember e]) = joinComma done ++ ',' :: serverMember e :=
      joinComma_append_option done (some (serverMember e)) hd
    have hr : result ++ joinComma done ++ ",".toList ++
        ("\"".toList ++ EscapeJson e.1 ++ "\":\"".toList ++ EscapeJson e.2 ++ "\"".toList) =
        result ++ joinComma (done ++ [serverMember e]) := by
      rw [hstep]; simp [serverMember]
    rw [serverLoop]
    simp only [Bool.false_eq_true, if_false]
    rw [hr, ih (done ++ [serverMember e]) result (by simp)]
    simp

theorem serverLoop_true (kv : StrMap) (result : Str) :
    serverLoop kv true result = result ++ joinComma (kv.map serverMember) := by
  cases kv with
  | nil => simp [serverLoop, joinComma]
  | cons e es =>
    have hr : result ++
        ("\"".toList ++ EscapeJson e.1 ++ "\":\"".toList ++ EscapeJson e.2 ++ "\"".toList) =
        result ++ joinComma [serverMember e] := by
      simp [serverMember, joinComma]
    rw [serverLoop]
    simp only [if_true]
    rw [hr, serverLoop_false es [serverMember e] result (by simp)]
    simp

/-- C28. The structured output does not depend on the order of the pairs on the wire: for
two lists of `\key\value` pairs that are permutations of each other, with non-empty,
pairwise different keys, `ParseKeyValues` gives the same map for both texts, so `ToJson`
gives the same text; the entries of the map are in ascending byte order of their keys, and
the `server` object lists one member per entry in the order of the map. -/
theorem ToJson_wire_order (pairs1 pairs2 : List (Str × Str)) (players : List StrMap)
    (hperm : List.Perm pairs1 pairs2)
    (hkeys : ∀ e ∈ pairs1, e.1 ≠ [] ∧ '\\' ∉ e.1)
    (hvals : ∀ e ∈ pairs1, '\\' ∉ e.2 ∧ '\n' ∉ e.2)
    (huniq : (pairs1.map Prod.fst).Nodup) :
    ParseKeyValues (encodePairs pairs1) = ParseKeyValues (encodePairs pairs2) ∧
    ToJson (ParseKeyValues (encodePairs pairs1)) players =
      ToJson (ParseKeyValues (encodePairs pairs2)) players ∧
    (ParseKeyValues (encodePairs pairs1)).Pairwise (fun a b => strLt a.1 b.1 = true) ∧
    List.Perm (ParseKeyValues (encodePairs pairs1)) pairs1 ∧
    serverLoop (ParseKeyValues (encodePairs pairs1)) true
        ("\x7b".toList ++ "\"server\":\x7b".toList) =
      "\x7b\"server\":\x7b".toList ++
        joinComma ((ParseKeyValues (encodePairs pairs1)).map serverMember) := by
  have hp1 : List.Perm (ParseKeyValues (encodePairs pairs1)) pairs1 := by
    have hpos : ((encodePairs pairs1).takeWhile (fun c => c == '\n')).length = 0 := by
      rcases encodePairs_head pairs1 with h | ⟨t, h⟩ <;> rw [h] <;> simp
    have hloop := parseKeyValuesLoop_encode pairs1 [] (encodePairs pairs1).length []
      (length_le_encodePairs pairs1)
      (fun e he => ⟨(hkeys e he).1, (hkeys e he).2, (hvals e he).1, (hvals e he).2⟩)
    simp only [List.nil_append, List.length_nil] at hloop
    simp only [ParseKeyValues, hpos, hloop]
    simpa using foldl_mapAssign_perm pairs1 [] (by simpa using huniq)
  have hp2 : List.Perm (ParseKeyValues (encodePairs pairs2)) pairs2 := by
    have hpos : ((encodePairs pairs2).takeWhile (fun c => c == '\n')).length = 0 := by
      rcases encodePairs_head pairs2 with h | ⟨t, h⟩ <;> rw [h] <;> simp
    have hloop := parseKeyValuesLoop_encode pairs2 [] (encodePairs pairs2).length []
      (length_le_encodePairs pairs2)
      (fun e he =>
        have he1 := hperm.symm.subset he
        ⟨(hkeys e he1).1, (hkeys e he1).2, (hvals e he1).1, (hvals e he1).2⟩)
    simp only [List.nil_append, List.length_nil] at hloop
    simp only [ParseKeyValues, hpos, hloop]
    have hu2 : (pairs2.map Prod.fst).Nodup :=
      (List.Perm.nodup_iff (hperm.map Prod.fst)).mp huniq
    simpa using foldl_mapAssign_perm pairs2 [] (by simpa using hu2)
  have heq : ParseKeyValues (encodePairs pairs1) = ParseKeyValues (encodePairs pairs2) :=
    sorted_perm_eq _ _ (ParseKeyValues_sorted _) (ParseKeyValues_sorted _)
      (hp1.trans (hperm.trans hp2.symm))
  refine ⟨heq, by rw [heq], ParseKeyValues_sorted _, hp1, ?_⟩
  rw [serverLoop_true]
  rfl

/-- An instance of C28: the pairs `b`, `a`, `c` in two orders. -/
theorem ToJson_wire_order_witness :
    List.Perm [("b".toList, "2".toList), ("a".toList, "1".toList), ("c".toList, [])]
      [("c".toList, []), ("b".toList, "2".toList), ("a".toList, "1".toList)] ∧
    ToJson (ParseKeyValues "\\b\\2\\a\\1\\c\\".toList) [] =
      ToJson (ParseKeyValues "\\c\\\\b\\2\\a\\1".toList) [] ∧
    ToJson (ParseKeyValues "\\b\\2\\a\\1\\c\\".toList) [] =
      some "\x7b\"server\":\x7b\"a\":\"1\",\"b\":\"2\",\"c\":\"\"\x7d,\"players\":[]\x7d".toList :=
  ⟨by decide,
    (ToJson_wire_order [("b".toList, "2".toList), ("a".toList, "1".toList), ("c".toList, [])]
      [("c".toList, []), ("b".toList, "2".toList), ("a".toList, "1".toList)] []
      (by decide) (by decide) (by decide) (by decide)).2.1,
    by decide⟩

/-! ## The tokens of a line of `ParseGetStatusPlayers`, joined again -/

theorem fieldsText_concat (ts : List Str) (t : Str) :
    fieldsText (ts ++ [t]) = fieldsText ts ++ (t ++ [' ']) := by
  induction ts with
  | nil => simp [fieldsText]
  | cons x xs ih => simp [fieldsText, ih]

theorem joinSpaces_concat (ts : List Str) (t : Str) :
    joinSpaces (ts ++ [t]) = fieldsText ts ++ t := by
  induction ts with
  | nil => simp [joinSpaces, fieldsText]
  | cons x xs ih =>
    cases xs with
    | nil => simp [joinSpaces, fieldsText]
    | cons y ys =>
      have e : joinSpaces (x :: (y :: ys ++ [t])) = x ++ ' ' :: joinSpaces (y :: ys ++ [t]) := rfl
      rw [List.cons_append, e, ih]
      simp [fieldsText]

theorem statusTokensAux_text (l : Str) :
    ∀ (tokens : List Str) (token : Str) (q : Bool),
      fieldsText (statusTokensAux l tokens token q).1 ++ (statusTokensAux l tokens token q).2 =
        fieldsText tokens ++ (token ++ l) := by
  induction l with
  | nil => intro tokens token q; simp [statusTokensAux]
  | cons c cs ih =>
    intro tokens token q
    rw [statusTokensAux]
    split
    · rw [ih]; simp
    · split
      · rename_i hc
        rw [ih, fieldsText_concat, hc.1]; simp
      · rw [ih]; simp

theorem trim_last (line : Str) (c : Char) (h : (trim line).getLast? = some c) :
    isspace c = false := by
  rw [trim, List.getLast?_reverse] at h
  have := List.head?_dropWhile_not isspace (line.dropWhile isspace).reverse
  rw [h] at this
  simpa using this

theorem statusTokensAux_last_token (line : Str) (hne : line ≠ [])
    (hlast : line.getLast? ≠ some ' ') : (statusTokensAux line [] [] false).2 ≠ [] := by
  intro h
  have ht := statusTokensAux_text line [] [] false
  rw [h] at ht
  simp only [List.append_nil, fieldsText, List.nil_append] at ht
  by_cases hr : (statusTokensAux line [] [] false).1 = []
  · rw [hr] at ht
    exact hne ht.symm
  · have := fieldsText_getLast _ hr
    rw [ht] at this
    exact hlast this

theorem statusTokensAux_index (i : Nat) (c : Char) (l : Str) :
    ∀ (tokens : List Str) (token : Str) (q : Bool),
      (∃ t, (tokens ++ [token])[i]? = some (c :: t)) →
      ∃ t, ((statusTokensAux l tokens token q).1 ++ [(statusTokensAux l tokens token q).2])[i]? =
        some (c :: t) := by
  have grow : ∀ (d : Char) (tokens : List Str) (token : Str),
      (∃ t, (tokens ++ [token])[i]? = some (c :: t)) →
      ∃ t, (tokens ++ [token ++ [d]])[i]? = some (c :: t) := by
    intro d tokens token ⟨t, ht⟩
    by_cases hi : i < tokens.length
    · rw [List.getElem?_append_left hi] at ht ⊢
      exact ⟨t, ht⟩
    · have hi2 : tokens.length ≤ i := Nat.not_lt.mp hi
      rw [List.getElem?_append_right hi2] at ht ⊢
      cases hk : i - tokens.length with
      | zero =>
        rw [hk] at ht
        simp only [List.getElem?_cons_zero, Option.some.injEq] at ht ⊢
        exact ⟨t ++ [d], by rw [ht]; simp⟩
      | succ k => rw [hk] at ht; simp at ht
  have push : ∀ (tokens : List Str) (token : Str),
      (∃ t, (tokens ++ [token])[i]? = some (c :: t)) →
      ∃ t, ((tokens ++ [token]) ++ [[]])[i]? = some (c :: t) := by
    intro tokens token ⟨t, ht⟩
    have hi : i < (tokens ++ [token]).length := by
      by_contra hc
      rw [List.getElem?_eq_none (Nat.not_lt.mp hc)] at ht
      exact Option.noConfusion ht
    exact ⟨t, by rw [List.getElem?_append_left hi]; exact ht⟩
  induction l with
  | nil => intro tokens token q h; simpa [statusTokensAux] using h
  | cons d ds ih =>
    intro tokens token q h
    rw [statusTokensAux]
    split
    · exact ih _ _ _ (grow d tokens token h)
    · split
      · exact ih _ _ _ (push tokens token h)
      · exact ih _ _ _ (grow d tokens token h)

theorem statusTokens_index (i : Nat) (c : Char) (line : Str)
    (h : ∃ t, ((statusTokensAux line [] [] false).1 ++
      [(statusTokensAux line [] [] false).2])[i]? = some (c :: t)) :
    ∃ t, (statusTokens line)[i]? = some (c :: t) := by
  obtain ⟨t, ht⟩ := h
  simp only [statusTokens]
  split
  · exact ⟨t, ht⟩
  · rename_i hne
    simp only [ne_eq, not_not] at hne
    rw [hne] at ht
    by_cases hi : i < (statusTokensAux line [] [] false).1.length
    · rw [List.getElem?_append_left hi] at ht
      exact ⟨t, ht⟩
    · rw [List.getElem?_append_right (Nat.not_lt.mp hi)] at ht
      cases hk : i - (statusTokensAux line [] [] false).1.length with
      | zero => rw [hk] at ht; simp at ht
      | succ k => rw [hk] at ht; simp at ht

theorem statusTokensAux_quotes (rest : Str) (a : Str) :
    ∀ (tokens : List Str) (token : Str) (q : Bool),
      ∃ tokens2 token2, statusTokensAux (a ++ rest) tokens token q =
        statusTokensAux rest tokens2 token2 (if a.count '"' % 2 = 0 then q else !q) := by
  induction a with
  | nil => intro tokens token q; exact ⟨tokens, token, by simp⟩
  | cons c cs ih =>
    intro tokens token q
    rw [List.cons_append, statusTokensAux]
    by_cases hc : c = '"'
    · rw [if_pos hc]
      obtain ⟨t2, k2, h2⟩ := ih tokens (token ++ [c]) (!q)
      refine ⟨t2, k2, ?_⟩
      rw [h2, hc, List.count_cons_self]
      have hcases : cs.count '"' % 2 = 0 ∨ cs.count '"' % 2 = 1 := by omega
      rcases hcases with h | h
      · have h3 : (cs.count '"' + 1) % 2 ≠ 0 := by omega
        rw [if_pos h, if_neg h3]
      · have h3 : (cs.count '"' + 1) % 2 = 0 := by omega
        have h4 : ¬ cs.count '"' % 2 = 0 := by omega
        rw [if_neg h4, if_pos h3]; simp
    · rw [if_neg hc]
      have hcount : (c :: cs).count '"' = cs.count '"' := by
        rw [List.count_cons_of_ne (fun e => hc e.symm)]
      rw [hcount]
      split
      · exact ih _ _ _
      · exact ih _ _ _

theorem statusTokensAux_two_spaces (rest : Str) (tokens : List Str) (token : Str) :
    ∃ (i : Nat) (t : Str), ((statusTokensAux (' ' :: ' ' :: rest) tokens token false).1 ++
      [(statusTokensAux (' ' :: ' ' :: rest) tokens token false).2])[i]? = some (' ' :: t) := by
  by_cases ht : token = []
  · subst ht
    have e : statusTokensAux (' ' :: ' ' :: rest) tokens [] false =
        statusTokensAux rest (tokens ++ [[' ']]) [] false := by
      rw [statusTokensAux, if_neg (by decide), if_neg (by simp), statusTokensAux,
        if_neg (by decide), if_pos (by simp)]
      rfl
    rw [e]
    obtain ⟨t, h⟩ := statusTokensAux_index tokens.length ' ' rest (tokens ++ [[' ']]) [] false
      ⟨[], by rw [List.append_assoc, List.getElem?_append_right (le_refl _)]; simp⟩
    exact ⟨tokens.length, t, h⟩
  · have e : statusTokensAux (' ' :: ' ' :: rest) tokens token false =
        statusTokensAux rest (tokens ++ [token]) [' '] false := by
      rw [statusTokensAux, if_neg (by decide), if_pos ⟨rfl, rfl, ht⟩, statusTokensAux,
        if_neg (by decide), if_neg (by simp)]
      rfl
    rw [e]
    obtain ⟨t, h⟩ := statusTokensAux_index (tokens.length + 1) ' ' rest (tokens ++ [token])
      [' '] false
      ⟨[], by rw [List.append_assoc, List.getElem?_append_right (by omega)]; simp⟩
    exact ⟨tokens.length + 1, t, h⟩

/-- C29. The tokenizer of the info/status rows: for every trimmed non-empty line, no token
is empty and the tokens joined by single spaces give back the line; so two spaces in a row
outside quotes make a token that begins with a space, and a Protocol B row whose score is
followed by two or more spaces gives no record (its `ping` token begins with a space). -/
theorem statusTokens_join (line : Str) (htrim : trim line = line) (hne : line ≠ []) :
    (∀ t ∈ statusTokens line, t ≠ []) ∧
    joinSpaces (statusTokens line) = line ∧
    (∀ a b : Str, line = a ++ ' ' :: ' ' :: b → a.count '"' % 2 = 0 →
      ∃ t ∈ statusTokens line, t.head? = some ' ') ∧
    (∀ score rest : Str, line = score ++ ' ' :: ' ' :: rest → score ≠ [] → '"' ∉ score →
      ' ' ∉ score → statusRow 2 line = none) := by
  have hlast : line.getLast? ≠ some ' ' := by
    intro h
    rw [← htrim] at h
    have := trim_last line ' ' h
    exact absurd this (by decide)
  refine ⟨statusTokens_nonempty line, ?_, ?_, ?_⟩
  · have h2 := statusTokensAux_last_token line hne hlast
    have ht := statusTokensAux_text line [] [] false
    simp only [fieldsText, List.nil_append] at ht
    simp only [statusTokens, h2, ne_eq, not_false_eq_true, if_true]
    rw [joinSpaces_concat, ht]
  · intro a b hab hq
    obtain ⟨tokens2, token2, h2⟩ :=
      statusTokensAux_quotes (' ' :: ' ' :: b) a [] [] false
    rw [if_pos hq] at h2
    obtain ⟨i, t, hi⟩ := statusTokensAux_two_spaces b tokens2 token2
    rw [← h2, ← hab] at hi
    obtain ⟨t2, h3⟩ := statusTokens_index i ' ' line ⟨t, hi⟩
    exact ⟨' ' :: t2, List.getElem?_mem h3, rfl⟩
  · intro score rest hline hs hq hsp
    have e : statusTokensAux line [] [] false =
        statusTokensAux rest [score] [' '] false := by
      rw [hline, statusTokensAux_word score _ [] [] hq hsp, List.nil_append, statusTokensAux,
        if_neg (by decide), if_pos ⟨rfl, rfl, hs⟩, statusTokensAux, if_neg (by decide),
        if_neg (by simp)]
      rfl
    obtain ⟨t, h1⟩ := statusTokensAux_index 1 ' ' rest [score] [' '] false ⟨[], rfl⟩
    rw [← e] at h1
    obtain ⟨t2, h3⟩ := statusTokens_index 1 ' ' line ⟨t, h1⟩
    have htok : tok (statusTokens line) 1 = ' ' :: t2 := by
      rw [tok, List.getD_eq_getElem?_getD, h3]; rfl
    cases hrow : statusRow 2 line with
    | none => rfl
    | some r =>
      rcases statusRow_some 2 line r hrow with ⟨h, _⟩ | ⟨_, _, _, _, _, hping⟩
      · exact absurd h (by decide)
      · rw [htok] at hping
        simp [pingOk, isdigit] at hping

/-- An instance of C29: the row `5  30 "Big Bob"`, with two spaces after the score, has
the tokens `5`, ` 30` and `"Big Bob"` and gives no record for Protocol B. -/
theorem statusTokens_join_witness :
    trim "5  30 \"Big Bob\"".toList = "5  30 \"Big Bob\"".toList ∧
    "5  30 \"Big Bob\"".toList ≠ [] ∧
    statusTokens "5  30 \"Big Bob\"".toList =
      ["5".toList, " 30".toList, "\"Big Bob\"".toList] ∧
    joinSpaces (statusTokens "5  30 \"Big Bob\"".toList) = "5  30 \"Big Bob\"".toList ∧
    statusRow 2 "5  30 \"Big Bob\"".toList = none :=
  ⟨by decide, by decide, by decide,
    (statusTokens_join "5  30 \"Big Bob\"".toList (by decide) (by decide)).2.1,
    (statusTokens_join "5  30 \"Big Bob\"".toList (by decide) (by decide)).2.2.2
      "5".toList "30 \"Big Bob\"".toList (by decide) (by decide) (by decide) (by decide)⟩

/-! ## The text up to the first numeric word -/

theorem uptoNumericWord_spaces (sp rest : Str) (hsp : ∀ c ∈ sp, c = ' ') :
    uptoNumericWord true (sp ++ rest) = sp ++ uptoNumericWord true rest := by
  induction sp with
  | nil => rfl
  | cons c cs ih =>
    have hc : c = ' ' := hsp c (List.mem_cons_self _ _)
    subst hc
    rw [List.cons_append, uptoNumericWord]
    have h1 : ((' ' :: (cs ++ rest)).takeWhile (fun d => d != ' ')) = [] := by simp
    have h2 : ((' ' : Char) == ' ') = true := rfl
    rw [h1, h2, ih (fun d hd => hsp d (List.mem_cons_of_mem _ hd))]
    simp [isNumber]

theorem uptoNumericWord_inside (w rest : Str) (hw : ' ' ∉ w) :
    uptoNumericWord false (w ++ rest) = w ++ uptoNumericWord false rest := by
  induction w with
  | nil => rfl
  | cons c cs ih =>
    have hc : c ≠ ' ' := fun e => hw (e ▸ List.mem_cons_self _ _)
    have hcs : ' ' ∉ cs := fun e => hw (List.mem_cons_of_mem _ e)
    have hb : (c == ' ') = false := by simpa using hc
    rw [List.cons_append, uptoNumericWord, hb, ih hcs]
    simp

theorem uptoNumericWord_false_space (rest : Str) :
    uptoNumericWord false (' ' :: rest) = ' ' :: uptoNumericWord true rest := by
  rw [uptoNumericWord]
  simp

theorem takeWhile_word_text (w rest : Str) (hw : ' ' ∉ w)
    (hrest : ∀ c, rest.head? = some c → c = ' ') :
    (w ++ rest).takeWhile (fun d => d != ' ') = w := by
  apply takeWhile_word
  · intro d hd
    have : d ≠ ' ' := fun e => hw (e ▸ hd)
    simpa using this
  · intro d hd; simp [hrest d hd]

theorem uptoNumericWord_word (w rest : Str) (hne : w ≠ []) (hw : ' ' ∉ w)
    (hrest : ∀ c, rest.head? = some c → c = ' ') :
    uptoNumericWord true (w ++ rest) =
      if isNumber w then [] else w ++ uptoNumericWord false rest := by
  cases w with
  | nil => exact absurd rfl hne
  | cons c cs =>
    have hc : c ≠ ' ' := fun e => hw (e ▸ List.mem_cons_self _ _)
    have hcs : ' ' ∉ cs := fun e => hw (List.mem_cons_of_mem _ e)
    have hb : (c == ' ') = false := by simpa using hc
    have htw := takeWhile_word_text (c :: cs) rest hw hrest
    rw [List.cons_append] at htw
    rw [List.cons_append, uptoNumericWord, htw, hb, uptoNumericWord_inside cs rest hcs]
    cases isNumber (c :: cs) <;> simp

theorem popSpaces_append_spaces (x sp : Str) (hsp : ∀ c ∈ sp, c = ' ') :
    popSpaces (x ++ sp) = popSpaces x := by
  have h : ∀ (a b : Str), (∀ c ∈ a, c = ' ') →
      (a ++ b).dropWhile (fun c => c == ' ') = b.dropWhile (fun c => c == ' ') := by
    intro a b ha
    induction a with
    | nil => rfl
    | cons c cs ih =>
      have hc : c = ' ' := ha c (List.mem_cons_self _ _)
      subst hc
      rw [List.cons_append, List.dropWhile_cons]
      simp only [beq_self_eq_true, if_true]
      exact ih (fun d hd => ha d (List.mem_cons_of_mem _ hd))
  rw [popSpaces, popSpaces, List.reverse_append,
    h sp.reverse x.reverse (fun c hc => hsp c (List.mem_reverse.mp hc))]

theorem line_split (line : Str) (n : Nat) (h : n ≤ line.length) :
    ∃ pre sp w rest, line = pre ++ (sp ++ (w ++ rest)) ∧ pre.length = n ∧
      (∀ c ∈ sp, c = ' ') ∧ ' ' ∉ w ∧ (w ++ rest).head? ≠ some ' ' ∧
      (∀ c, rest.head? = some c → c = ' ') := by
  refine ⟨line.take n, (line.drop n).takeWhile (fun c => c == ' '),
    ((line.drop n).dropWhile (fun c => c == ' ')).takeWhile (fun c => c != ' '),
    ((line.drop n).dropWhile (fun c => c == ' ')).dropWhile (fun c => c != ' '),
    ?_, ?_, ?_, ?_, ?_, ?_⟩
  · rw [List.takeWhile_append_dropWhile, List.takeWhile_append_dropWhile,
      List.take_append_drop]
  · simp [h]
  · intro c hc
    simpa using List.mem_takeWhile_imp hc
  · intro hc
    have := List.mem_takeWhile_imp hc
    simp at this
  · rw [List.takeWhile_append_dropWhile]
    intro hc
    have := List.head?_dropWhile_not (fun c => c == ' ') (line.drop n)
    rw [hc] at this
    simp at this
  · intro c hc
    have := List.head?_dropWhile_not (fun c => c != ' ')
      ((line.drop n).dropWhile (fun c => c == ' '))
    rw [hc] at this
    simpa using this

theorem nameScan_end (line : Str) (protocolId : Int) (fuel nextField : Nat) (lc : Option Nat)
    (h : line.length ≤ nextField) :
    nameScan line protocolId fuel nextField lc = (nextField, lc) := by
  cases fuel with
  | zero => rfl
  | succ f =>
    rw [nameScan]
    simp [Nat.not_lt.mpr h]

theorem nameScan_round (line pre sp w rest : Str) (protocolId : Int) (f n : Nat)
    (lc : Option Nat) (hline : line = pre ++ (sp ++ (w ++ rest))) (hn : pre.length = n)
    (hsp : ∀ c ∈ sp, c = ' ') (hw : ' ' ∉ w) (hhead : (w ++ rest).head? ≠ some ' ')
    (hrest : ∀ c, rest.head? = some c → c = ' ') (hlt : n < line.length)
    (hb : 1 ≤ n → charAt line (n - 1) = ' ') :
    nameScan line protocolId (f + 1) n lc =
      if isNumber w = true then (n, lc)
      else nameScan line protocolId f (n + sp.length + w.length + 1) lc := by
  have hss : skipSpaces line n = n + sp.length :=
    skipSpaces_at line pre sp (w ++ rest) n hline hn.symm hsp hhead
  have hsw : skipWord line (n + sp.length) = n + sp.length + w.length :=
    skipWord_at line (pre ++ sp) w rest _ (by rw [hline]; simp) (by simp [hn]) hw hrest
  have hsub : substr line (n + sp.length) (n + sp.length + w.length - (n + sp.length)) = w := by
    have := substr_at (pre ++ sp) w rest (n + sp.length) w.length (by simp [hn]) rfl
    rw [hline]
    have e : n + sp.length + w.length - (n + sp.length) = w.length := by omega
    rw [e]
    simpa using this
  have hprev : 1 ≤ n + sp.length → charAt line (n + sp.length - 1) = ' ' := by
    intro h1
    rcases List.eq_nil_or_concat sp with h | ⟨sp0, c, h⟩
    · subst h
      simpa using hb (by simpa using h1)
    · rw [List.concat_eq_append] at h
      subst h
      have hc : c = ' ' := hsp c (by simp)
      subst hc
      apply charAt_eq line (pre ++ sp0) ' ' (w ++ rest)
      · rw [hline]; simp
      · simp only [List.length_append, List.length_singleton, hn]; omega
  have hcaret : ¬ (protocolId = 2 ∧ n + sp.length ≥ 2 ∧
      charAt line (n + sp.length - 2) = '^' ∧ charAt line (n + sp.length - 1) = '7') := by
    rintro ⟨_, h2, _, h7⟩
    rw [hprev (by omega)] at h7
    exact absurd h7 (by decide)
  rw [nameScan]
  simp only [hlt, if_true, hss, hsw, hsub]
  by_cases hnum : isNumber w = true
  · rw [if_pos ((isNumber_iff w).mp hnum), if_pos hnum]
  · rw [if_neg (fun h => hnum ((isNumber_iff w).mpr h)), if_neg hnum, if_neg hcaret]

theorem nameScan_spec (line : Str) (protocolId : Int) :
    ∀ (fuel nextField : Nat) (lc : Option Nat), line.length ≤ fuel + nextField →
      (nextField ≤ line.length → 1 ≤ nextField → charAt line (nextField - 1) = ' ') →
      nameScan line protocolId fuel nextField lc =
          ((nameScan line 1 fuel nextField lc).1, lc) ∧
        (∃ sp, (∀ c ∈ sp, c = ' ') ∧
          uptoNumericWord true (line.drop nextField) =
            (line.drop nextField).take
              ((nameScan line protocolId fuel nextField lc).1 - nextField) ++ sp) ∧
        ((nameScan line protocolId fuel nextField lc).1 < line.length →
          isNumber ((line.drop
            (skipSpaces line (nameScan line protocolId fuel nextField lc).1)).takeWhile
              (fun c => c != ' ')) = true) := by
  have hend : ∀ (fuel n : Nat) (lc : Option Nat), line.length ≤ n →
      nameScan line protocolId fuel n lc = ((nameScan line 1 fuel n lc).1, lc) ∧
        (∃ sp, (∀ c ∈ sp, c = ' ') ∧
          uptoNumericWord true (line.drop n) =
            (line.drop n).take ((nameScan line protocolId fuel n lc).1 - n) ++ sp) ∧
        ((nameScan line protocolId fuel n lc).1 < line.length →
          isNumber ((line.drop
            (skipSpaces line (nameScan line protocolId fuel n lc).1)).takeWhile
              (fun c => c != ' ')) = true) := by
    intro fuel n lc h
    rw [nameScan_end line protocolId fuel n lc h, nameScan_end line 1 fuel n lc h]
    refine ⟨rfl, ⟨[], by simp, ?_⟩, ?_⟩
    · simp [List.drop_of_length_le h, uptoNumericWord]
    · intro h2
      simp only at h2
      omega
  intro fuel
  induction fuel with
  | zero =>
    intro n lc h _
    exact hend 0 n lc (by simpa using h)
  | succ f ih =>
    intro n lc hfuel hb
    by_cases hlt : n < line.length
    · obtain ⟨pre, sp, w, rest, hline, hn, hsp, hw, hhead, hrest⟩ :=
        line_split line n (le_of_lt hlt)
      have hb2 : 1 ≤ n → charAt line (n - 1) = ' ' := hb (le_of_lt hlt)
      have hlen : line.length = n + sp.length + w.length + rest.length := by
        rw [hline]
        simp only [List.length_append, hn]
        omega
      have hdrop : line.drop n = sp ++ (w ++ rest) := by
        rw [hline]; exact drop_at pre _ n hn.symm
      have hr := nameScan_round line pre sp w rest protocolId f n lc hline hn hsp hw hhead
        hrest hlt hb2
      have hr1 := nameScan_round line pre sp w rest 1 f n lc hline hn hsp hw hhead
        hrest hlt hb2
      by_cases hnum : isNumber w = true
      · rw [if_pos hnum] at hr hr1
        rw [hr, hr1]
        have hwne : w ≠ [] := ((isNumber_iff w).mp hnum).1
        refine ⟨rfl, ⟨sp, hsp, ?_⟩, ?_⟩
        · rw [hdrop, uptoNumericWord_spaces sp _ hsp,
            uptoNumericWord_word w rest hwne hw hrest, if_pos hnum]
          simp
        · intro _
          have hss : skipSpaces line n = n + sp.length :=
            skipSpaces_at line pre sp (w ++ rest) n hline hn.symm hsp hhead
          have hd2 : line.drop (n + sp.length) = w ++ rest := by
            rw [hline, ← List.append_assoc]
            exact drop_at (pre ++ sp) _ _ (by simp [hn])
          simp only
          rw [hss, hd2, takeWhile_word_text w rest hw hrest]
          exact hnum
      · rw [if_neg hnum] at hr hr1
        cases hrest2 : rest with
        | nil =>
          subst hrest2
          simp only [List.length_nil, Nat.add_zero] at hlen
          have hge : line.length ≤ n + sp.length + w.length + 1 := by omega
          rw [hr, hr1, nameScan_end line protocolId f _ lc hge, nameScan_end line 1 f _ lc hge]
          refine ⟨rfl, ⟨[], by simp, ?_⟩, ?_⟩
          · have hU : uptoNumericWord true w = w := by
              by_cases hwne : w = []
              · subst hwne; rfl
              · have := uptoNumericWord_word w [] hwne hw (by simp)
                simp only [List.append_nil] at this
                rw [this, if_neg hnum]
                simp [uptoNumericWord]
            rw [hdrop, uptoNumericWord_spaces sp _ hsp, List.append_nil, hU, List.append_nil]
            rw [List.take_of_length_le]
            simp only [List.length_append]
            omega
          · intro h2
            simp only at h2
            omega
        | cons c r3 =>
          have hc : c = ' ' := hrest c (by rw [hrest2]; rfl)
          subst hc
          subst hrest2
          have hwne : w ≠ [] := by
            intro e
            subst e
            exact hhead rfl
          have hbn : 1 ≤ n + sp.length + w.length + 1 →
              charAt line (n + sp.length + w.length + 1 - 1) = ' ' := by
            intro _
            apply charAt_eq line (pre ++ (sp ++ w)) ' ' r3
            · rw [hline]; simp
            · simp only [List.length_append, hn]; omega
          obtain ⟨i1, ⟨sp3, hsp3, i2⟩, i3⟩ := ih (n + sp.length + w.length + 1) lc (by omega)
            (fun _ => hbn)
          rw [hr, hr1]
          refine ⟨i1, ⟨sp3, hsp3, ?_⟩, i3⟩
          have hge := nameScan_ge line protocolId f (n + sp.length + w.length + 1) lc
          have hd3 : line.drop (n + sp.length + w.length + 1) = r3 := by
            have e : line = (pre ++ (sp ++ (w ++ [' ']))) ++ r3 := by rw [hline]; simp
            rw [e]
            exact drop_at _ _ _ (by simp only [List.length_append, List.length_singleton, hn]; omega)
          rw [hd3] at i2
          have hk : (nameScan line protocolId f (n + sp.length + w.length + 1) lc).1 - n =
              (sp ++ (w ++ [' '])).length +
                ((nameScan line protocolId f (n + sp.length + w.length + 1) lc).1 -
                  (n + sp.length + w.length + 1)) := by
            simp only [List.length_append, List.length_singleton]
            omega
          have hd4 : sp ++ (w ++ ' ' :: r3) = (sp ++ (w ++ [' '])) ++ r3 := by simp
          rw [hdrop, uptoNumericWord_spaces sp _ hsp,
            uptoNumericWord_word w (' ' :: r3) hwne hw (by simp), if_neg hnum,
            uptoNumericWord_false_space, i2, hk, hd4, List.take_append]
          simp
    · exact hend (f + 1) n lc (Nat.not_lt.mp hlt)

/-! ## The name field in the tokenizer of the rcon status, on an arbitrary line -/

theorem head?_drop_charAt (line : Str) (i : Nat) (h : i < line.length) :
    (line.drop i).head? = some (charAt line i) := by
  rw [List.head?_drop, charAt, List.getD_eq_getElem?_getD, List.getElem?_eq_getElem h]
  rfl

theorem drop_eq_cons (line : Str) (i : Nat) (h : i < line.length) :
    line.drop i = charAt line i :: line.drop (i + 1) := by
  rw [List.drop_eq_getElem_cons h, charAt, List.getD_eq_getElem _ _ h]

theorem drop_length_takeWhile (p : Char → Bool) (l : Str) :
    l.drop (l.takeWhile p).length = l.dropWhile p := by
  conv_lhs =>
    arg 2
    rw [← List.takeWhile_append_dropWhile p l]
  rw [List.drop_left]

theorem drop_skipSpaces (line : Str) (m : Nat) :
    line.drop (skipSpaces line m) = (line.drop m).dropWhile (fun c => c == ' ') := by
  have h : ∀ k, line.drop (m + k) = (line.drop m).drop k := by
    intro k
    rw [List.drop_drop]
  rw [skipSpaces, h, drop_length_takeWhile]

theorem skipSpaces_not_space (line : Str) (m : Nat)
    (h : skipSpaces line m < line.length) : charAt line (skipSpaces line m) ≠ ' ' := by
  intro hc
  have h1 := head?_drop_charAt line _ h
  rw [drop_skipSpaces, hc] at h1
  have := List.head?_dropWhile_not (fun c => c == ' ') (line.drop m)
  rw [h1] at this
  simp at this

theorem skipSpaces_prev (line : Str) (m : Nat) (hm : m ≤ line.length)
    (hb : 1 ≤ m → charAt line (m - 1) = ' ') (h1 : 1 ≤ skipSpaces line m) :
    charAt line (skipSpaces line m - 1) = ' ' := by
  obtain ⟨pre, sp, w, rest, hline, hn, hsp, _, hhead, _⟩ := line_split line m hm
  have hss : skipSpaces line m = m + sp.length :=
    skipSpaces_at line pre sp (w ++ rest) m hline hn.symm hsp hhead
  rw [hss] at h1 ⊢
  rcases List.eq_nil_or_concat sp with h | ⟨sp0, c, h⟩
  · subst h
    simpa using hb (by simpa using h1)
  · rw [List.concat_eq_append] at h
    subst h
    have hc : c = ' ' := hsp c (by simp)
    subst hc
    apply charAt_eq line (pre ++ sp0) ' ' (w ++ rest)
    · rw [hline]; simp
    · simp only [List.length_append, List.length_singleton, hn]; omega

theorem dropFields_space (k : Nat) (line : Str) (i : Nat) (h : i < line.length)
    (hc : charAt line i = ' ') :
    dropFields (k + 1) (line.drop i) = dropFields k (line.drop (skipSpaces line (i + 1))) := by
  rw [dropFields, drop_skipSpaces, drop_eq_cons line i h, hc]
  simp

theorem dropFields_inside (k : Nat) (line : Str) (i : Nat) (h : i < line.length)
    (hc : charAt line i ≠ ' ') :
    dropFields (k + 1) (line.drop i) = dropFields (k + 1) (line.drop (i + 1)) := by
  have hb : (charAt line i != ' ') = true := by simpa using hc
  rw [dropFields, dropFields, drop_eq_cons line i h, List.dropWhile_cons, hb]
  simp

theorem tok_append_left (T X : List Str) (j : Nat) (h : j < T.length) :
    tok (T ++ X) j = tok T j := by
  rw [tok, tok, List.getD_eq_getElem?_getD, List.getD_eq_getElem?_getD,
    List.getElem?_append_left h]

theorem tok_append_length (T : List Str) (x : Str) : tok (T ++ [x]) T.length = x := by
  rw [tok, List.getD_eq_getElem?_getD, List.getElem?_append_right (le_refl _)]
  simp

theorem tok_of_length_le (T : List Str) (j : Nat) (h : T.length ≤ j) : tok T j = [] := by
  rw [tok, List.getD_eq_default _ _ h]

theorem isLastField_ge (protocolId : Int) (isSteam : Bool) (fc : Nat)
    (h : isLastField protocolId isSteam fc = true) :
    nameFieldOf protocolId isSteam + 4 ≤ fc := by
  unfold isLastField at h
  unfold nameFieldOf
  simp only [Bool.or_eq_true, Bool.and_eq_true, decide_eq_true_eq] at h
  rcases h with ⟨h1, h2⟩ | ⟨h1, h2⟩
  · rw [if_pos h1]; omega
  · have hne : ¬ protocolId = 1 := by omega
    rw [if_neg hne]
    cases isSteam <;> simp at h2 ⊢ <;> omega

theorem dropFields_nil (k : Nat) : dropFields k [] = [] := by
  induction k with
  | zero => rfl
  | succ k ih => rw [dropFields]; simpa using ih

theorem nameText_nil : nameText [] = [] := rfl

theorem nameFacts_extend (line : Str) (n : Nat) (T X : List Str) (h1 : n + 2 ≤ T.length)
    (h2 : tok T n = nameText (dropFields n line))
    (h3 : (dropFields n line).head? ≠ some ' ') (h4 : isNumber (tok T (n + 1)) = true) :
    nameFacts line n (T ++ X) := by
  refine ⟨?_, fun _ => ⟨h3, ?_⟩⟩
  · rw [tok_append_left T X n (by omega)]; exact h2
  · rw [tok_append_left T X (n + 1) (by omega)]; exact h4

theorem nameInv_push (line : Str) (n : Nat) (s : RconTok) (h : nameInv line n s)
    (hfc : s.fieldCount ≠ n) (hlt : s.i < line.length) (hc : charAt line s.i = ' ') :
    nameInv line n
      ⟨skipSpaces line (s.i + 1), [], s.tokens ++ [s.token], s.fieldCount + 1⟩ := by
  have hge := skipSpaces_ge line (s.i + 1)
  rcases h with ⟨h1, h2, _, h4⟩ | ⟨h1, _⟩ | ⟨h1, h2, h3, h4, h5⟩ | ⟨h1, h2, h3, h4, h5⟩
  · have hk : n - s.fieldCount = (n - (s.fieldCount + 1)) + 1 := by omega
    rw [hk, dropFields_space _ line s.i hlt hc] at h4
    by_cases hn : s.fieldCount + 1 < n
    · left
      refine ⟨hn, ?_, ?_, h4⟩
      · simp only [List.length_append, List.length_singleton, h2]
      · intro _ hj
        exact skipSpaces_not_space line _ hj
    · right; left
      have he : s.fieldCount + 1 = n := by omega
      have hz : n - (s.fieldCount + 1) = 0 := by omega
      rw [hz] at h4
      refine ⟨he, ?_, rfl, ⟨?_, ?_, ?_⟩, h4⟩
      · simp only [List.length_append, List.length_singleton, h2]; exact he
      · show 1 ≤ skipSpaces line (s.i + 1)
        omega
      · exact skipSpaces_prev line (s.i + 1) (by omega) (fun _ => by simpa using hc)
          (by omega)
      · exact skipSpaces_not_space line _
  · exact absurd h1 hfc
  · have hnum : isNumber s.token = true := by
      rcases h5 with ⟨_, h6⟩ | h6
      · omega
      · rw [drop_eq_cons line s.i hlt, hc] at h6
        simpa using h6
    right; right; right
    refine ⟨?_, ?_, ?_, h4, ?_⟩
    · show n + 2 ≤ s.fieldCount + 1
      omega
    · simp only [List.length_append, List.length_singleton, h2]; omega
    · show tok (s.tokens ++ [s.token]) n = _
      rw [tok_append_left _ _ n (by omega)]; exact h3
    · show isNumber (tok (s.tokens ++ [s.token]) (n + 1)) = true
      have : tok (s.tokens ++ [s.token]) (n + 1) = s.token := by
        rw [← h2]; exact tok_append_length _ _
      rw [this]; exact hnum
  · right; right; right
    refine ⟨?_, ?_, ?_, h4, ?_⟩
    · show n + 2 ≤ s.fieldCount + 1
      omega
    · simp only [List.length_append, List.length_singleton]; omega
    · show tok (s.tokens ++ [s.token]) n = _
      rw [tok_append_left _ _ n (by omega)]; exact h3
    · show isNumber (tok (s.tokens ++ [s.token]) (n + 1)) = true
      rw [tok_append_left _ _ (n + 1) (by omega)]; exact h5

theorem nameInv_append (line : Str) (n : Nat) (s : RconTok) (h : nameInv line n s)
    (hfc : s.fieldCount ≠ n) (hlt : s.i < line.length)
    (hc : ¬ (charAt line s.i = ' ' ∧ s.token ≠ [])) :
    nameInv line n ⟨s.i + 1, s.token ++ [charAt line s.i], s.tokens, s.fieldCount⟩ := by
  rcases h with ⟨h1, h2, h3, h4⟩ | ⟨h1, _⟩ | ⟨h1, h2, h3, h4, h5⟩ | ⟨h1, h2, h3, h4, h5⟩
  · have hne : charAt line s.i ≠ ' ' := by
      intro e
      have ht : s.token = [] := by
        by_contra hx
        exact hc ⟨e, hx⟩
      exact h3 ht hlt e
    have hk : n - s.fieldCount = (n - s.fieldCount - 1) + 1 := by omega
    rw [hk, dropFields_inside _ line s.i hlt hne, ← hk] at h4
    left
    refine ⟨h1, h2, ?_, h4⟩
    intro ht
    simp at ht
  · exact absurd h1 hfc
  · have h6 : isNumber (s.token ++ (line.drop s.i).takeWhile (fun c => c != ' ')) = true := by
      rcases h5 with ⟨_, h6⟩ | h6
      · omega
      · exact h6
    have hne : charAt line s.i ≠ ' ' := by
      intro e
      have ht : s.token = [] := by
        by_contra hx
        exact hc ⟨e, hx⟩
      rw [drop_eq_cons line s.i hlt, e, ht] at h6
      simp [isNumber] at h6
    have hb : (charAt line s.i != ' ') = true := by simpa using hne
    rw [drop_eq_cons line s.i hlt, List.takeWhile_cons, hb] at h6
    right; right; left
    refine ⟨h1, h2, h3, h4, Or.inr ?_⟩
    show isNumber ((s.token ++ [charAt line s.i]) ++
      (line.drop (s.i + 1)).takeWhile (fun c => c != ' ')) = true
    simpa using h6
  · right; right; right
    exact ⟨h1, h2, h3, h4, h5⟩

theorem nameInv_name (line : Str) (protocolId : Int) (n : Nat) (s : RconTok)
    (h : nameInv line n s) (hfc : s.fieldCount = n) (hlt : s.i < line.length) :
    nameEnd line protocolId s.i = (nameScan line 1 line.length s.i none).1 ∧
    popSpaces (substr line s.i (nameEnd line protocolId s.i - s.i)) =
      nameText (dropFields n line) ∧
    nameInv line n
      ⟨skipSpaces line (nameEnd line protocolId s.i), [],
        s.tokens ++ [popSpaces (substr line s.i (nameEnd line protocolId s.i - s.i))],
        s.fieldCount + 1⟩ := by
  rcases h with ⟨h1, _⟩ | ⟨_, h2, _, ⟨hs1, hs2, hs3⟩, h5⟩ | ⟨h1, _⟩ | ⟨h1, _⟩
  · omega
  · obtain ⟨k1, ⟨sp, hsp, k2⟩, k3⟩ := nameScan_spec line protocolId line.length s.i none
      (by omega) (fun _ _ => hs2)
    have hend : nameEnd line protocolId s.i = (nameScan line 1 line.length s.i none).1 := by
      rw [nameEnd, k1]
    have hname : popSpaces (substr line s.i (nameEnd line protocolId s.i - s.i)) =
        nameText (dropFields n line) := by
      rw [hend, ← h5, nameText, ← (congrArg Prod.fst k1 : (nameScan line protocolId
        line.length s.i none).1 = _), k2, popSpaces_append_spaces _ sp hsp]
      rfl
    have hhead : (dropFields n line).head? ≠ some ' ' := by
      rw [← h5, head?_drop_charAt line s.i hlt]
      intro e
      exact hs3 hlt (Option.some.inj e)
    refine ⟨hend, hname, ?_⟩
    right; right; left
    refine ⟨by show s.fieldCount + 1 = n + 1; omega, ?_, ?_, hhead, ?_⟩
    · simp only [List.length_append, List.length_singleton, h2]
    · show tok (s.tokens ++ [_]) n = _
      rw [← h2, tok_append_length, h2]
      exact hname
    · have hr1 : (nameScan line protocolId line.length s.i none).1 =
          nameEnd line protocolId s.i := by rw [hend, k1]
      rw [hr1] at k3
      by_cases hlt2 : nameEnd line protocolId s.i < line.length
      · right
        simpa using k3 hlt2
      · left
        refine ⟨rfl, ?_⟩
        have := skipSpaces_ge line (nameEnd line protocolId s.i)
        show line.length ≤ skipSpaces line (nameEnd line protocolId s.i)
        omega
  · omega
  · omega

theorem nameInv_exit (line : Str) (n : Nat) (s : RconTok) (h : nameInv line n s)
    (hlt : ¬ s.i < line.length) :
    nameFacts line n (if s.token ≠ [] then s.tokens ++ [s.token] else s.tokens) := by
  have hdrop : line.drop s.i = [] := List.drop_of_length_le (Nat.not_lt.mp hlt)
  have hlen : (if s.token ≠ [] then s.tokens ++ [s.token] else s.tokens).length ≤
      s.tokens.length + 1 := by
    split <;> simp
  rcases h with ⟨h1, h2, _, h4⟩ | ⟨_, h2, h3, _, h5⟩ | ⟨h1, h2, h3, h4, h5⟩ |
    ⟨h1, h2, h3, h4, h5⟩
  · rw [hdrop, dropFields_nil] at h4
    refine ⟨?_, fun hc => ?_⟩
    · rw [← h4, nameText_nil]
      exact tok_of_length_le _ _ (by omega)
    · omega
  · rw [hdrop] at h5
    refine ⟨?_, fun hc => ?_⟩
    · rw [← h5, nameText_nil, if_neg (by simp [h3])]
      exact tok_of_length_le _ _ (by omega)
    · rw [if_neg (by simp [h3])] at hc
      omega
  · split
    · rename_i hne
      refine ⟨?_, fun _ => ⟨h4, ?_⟩⟩
      · rw [tok_append_left _ _ n (by omega)]; exact h3
      · have : tok (s.tokens ++ [s.token]) (n + 1) = s.token := by
          rw [← h2]; exact tok_append_length _ _
        rw [this]
        rcases h5 with ⟨h6, _⟩ | h6
        · exact absurd h6 hne
        · rw [hdrop] at h6
          simpa using h6
    · refine ⟨h3, fun hc => ?_⟩
      omega
  · split
    · exact nameFacts_extend line n s.tokens [s.token] h2 h3 h4 h5
    · have := nameFacts_extend line n s.tokens [] h2 h3 h4 h5
      simpa using this

theorem nameInv_last (line : Str) (protocolId : Int) (isSteam : Bool) (s : RconTok)
    (h : nameInv line (nameFieldOf protocolId isSteam) s)
    (hl : isLastField protocolId isSteam s.fieldCount = true) (tk : Str) :
    nameFacts line (nameFieldOf protocolId isSteam)
      (if tk ≠ [] then (if tk ≠ [] then s.tokens ++ [tk] else s.tokens) ++ [tk]
        else (if tk ≠ [] then s.tokens ++ [tk] else s.tokens)) := by
  have hge := isLastField_ge protocolId isSteam s.fieldCount hl
  rcases h with ⟨h1, _⟩ | ⟨h1, _⟩ | ⟨h1, _⟩ | ⟨h1, h2, h3, h4, h5⟩
  · omega
  · omega
  · omega
  · by_cases ht : tk = []
    · simp only [ht, ne_eq, not_true_eq_false, if_false]
      have := nameFacts_extend line _ s.tokens [] h2 h3 h4 h5
      simpa using this
    · simp only [ne_eq, ht, not_false_eq_true, if_true, List.append_assoc]
      exact nameFacts_extend line _ s.tokens _ h2 h3 h4 h5

theorem rconTokenLoop_nameFacts (line : Str) (protocolId : Int) (isSteam : Bool) :
    ∀ (fuel : Nat) (s : RconTok), nameInv line (nameFieldOf protocolId isSteam) s →
      roundsLeft line protocolId isSteam s ≤ fuel →
      nameFacts line (nameFieldOf protocolId isSteam)
        (if (rconTokenLoop line protocolId isSteam fuel s).token ≠ [] then
          (rconTokenLoop line protocolId isSteam fuel s).tokens ++
            [(rconTokenLoop line protocolId isSteam fuel s).token]
        else (rconTokenLoop line protocolId isSteam fuel s).tokens) := by
  intro fuel
  induction fuel with
  | zero =>
    intro s h hr
    have hi : ¬ s.i < line.length := by
      simp only [roundsLeft] at hr
      omega
    exact nameInv_exit line _ s h hi
  | succ f ih =>
    intro s h hr
    rw [rconTokenLoop]
    split
    · rename_i hlt
      split
      · rename_i hnf
        apply ih
        · exact (nameInv_name line protocolId _ s h hnf hlt).2.2
        · have h1 := nameEnd_ge line protocolId s.i
          have h2 := skipSpaces_ge line (nameEnd line protocolId s.i)
          simp only [roundsLeft, hnf, le_refl, if_true] at hr
          simp only [roundsLeft]
          have h3 : ¬ (nameFieldOf protocolId isSteam + 1 ≤
              nameFieldOf protocolId isSteam) := by omega
          simp only [hnf, h3, if_false]
          omega
      · rename_i hnf
        split
        · rename_i hsp
          apply ih
          · exact nameInv_push line _ s h hnf hlt hsp.1
          · have h2 := skipSpaces_ge line (s.i + 1)
            simp only [roundsLeft] at hr ⊢
            split at hr <;> split <;> omega
        · rename_i hsp
          split
          · rename_i hl
            exact nameInv_last line protocolId isSteam s h hl _
          · apply ih
            · exact nameInv_append line _ s h hnf hlt hsp
            · simp only [roundsLeft] at hr ⊢
              split at hr <;> split <;> omega
    · rename_i hlt
      exact nameInv_exit line _ s h hlt

/-- The facts about the name field hold for the tokens of every line that does not begin
with a space. -/
theorem rconTokens_nameFacts (line : Str) (protocolId : Int) (isSteam : Bool)
    (hhead : line.head? ≠ some ' ') :
    nameFacts line (nameFieldOf protocolId isSteam) (rconTokens line protocolId isSteam) := by
  have hn := nameFieldOf_ge protocolId isSteam
  have hinit : nameInv line (nameFieldOf protocolId isSteam) ⟨0, [], [], 0⟩ := by
    left
    refine ⟨by show 0 < _; omega, rfl, ?_, rfl⟩
    intro _ hlt e
    have := head?_drop_charAt line 0 hlt
    rw [List.drop_zero, e] at this
    exact hhead this
  exact rconTokenLoop_nameFacts line protocolId isSteam (line.length + 1) _ hinit
    (by simp [roundsLeft])

theorem skipWord_space (line : Str) (m : Nat) (h : skipWord line m < line.length) :
    charAt line (skipWord line m) = ' ' := by
  have hd : line.drop (skipWord line m) = (line.drop m).dropWhile (fun c => c != ' ') := by
    have hk : ∀ k, line.drop (m + k) = (line.drop m).drop k := by
      intro k
      rw [List.drop_drop]
    rw [skipWord, hk, drop_length_takeWhile]
  have h1 := head?_drop_charAt line _ h
  rw [hd] at h1
  have := List.head?_dropWhile_not (fun c => c != ' ') (line.drop m)
  rw [h1] at this
  simpa using this

/-- C25 (amended). The `^7` back-off of the name scan never fires. For every line and every protocol
id: the candidate token of a scan step starts right after a space whenever the scan
position does, and the word of the candidate ends at a space, so that the next scan
position is again right after a space; hence a scan that starts right after a space leaves
the recorded `^7` position as it was and ends where the scan of Protocol A ends. The tokenizer starts the scan at such a position, and for every
line that does not begin with a space (every trimmed line) and both protocols the token of
the name is the text from the name column up to the first space-delimited word that is a
non-empty digit string, with its trailing spaces removed; only the space byte delimits a
word, so a digit word set off by a tab does not end the name. -/
theorem caret7_backoff_never_fires (line : Str) (protocolId : Int) (isSteam : Bool) :
    (∀ m : Nat, m ≤ line.length → (1 ≤ m → charAt line (m - 1) = ' ') →
      1 ≤ skipSpaces line m → charAt line (skipSpaces line m - 1) = ' ') ∧
    (∀ m : Nat, skipWord line m < line.length → charAt line (skipWord line m) = ' ') ∧
    (∀ (fuel nextField : Nat) (lastCaret7 : Option Nat), line.length ≤ fuel + nextField →
      (nextField ≤ line.length → 1 ≤ nextField → charAt line (nextField - 1) = ' ') →
      nameScan line protocolId fuel nextField lastCaret7 =
        ((nameScan line 1 fuel nextField lastCaret7).1, lastCaret7)) ∧
    (line.head? ≠ some ' ' →
      tok (rconTokens line protocolId isSteam) (nameFieldOf protocolId isSteam) =
        nameText (dropFields (nameFieldOf protocolId isSteam) line)) := by
  refine ⟨fun m hm hb h1 => skipSpaces_prev line m hm hb h1,
    fun m h => skipWord_space line m h, ?_, ?_⟩
  · intro fuel nextField lc hf hb
    exact (nameScan_spec line protocolId fuel nextField lc hf hb).1
  · intro hhead
    exact (rconTokens_nameFacts line protocolId isSteam hhead).1

/-- An instance of C25: in the Protocol B row `1 5 30 abc Bob^7 x 25 1.2.3.4:28960 1234 25000`
the name column starts at `Bob^7 x 25 ...`, and the token of the name is `Bob^7 x`, the
text up to the number `25`: nothing is cut at the `^7`. -/
theorem caret7_backoff_never_fires_witness :
    "1 5 30 abc Bob^7 x 25 1.2.3.4:28960 1234 25000".toList.head? ≠ some ' ' ∧
    dropFields (nameFieldOf 2 false) "1 5 30 abc Bob^7 x 25 1.2.3.4:28960 1234 25000".toList =
      "Bob^7 x 25 1.2.3.4:28960 1234 25000".toList ∧
    nameText "Bob^7 x 25 1.2.3.4:28960 1234 25000".toList = "Bob^7 x".toList ∧
    tok (rconTokens "1 5 30 abc Bob^7 x 25 1.2.3.4:28960 1234 25000".toList 2 false)
        (nameFieldOf 2 false) =
      nameText (dropFields (nameFieldOf 2 false)
        "1 5 30 abc Bob^7 x 25 1.2.3.4:28960 1234 25000".toList) :=
  ⟨by decide, by decide, by decide,
    (caret7_backoff_never_fires "1 5 30 abc Bob^7 x 25 1.2.3.4:28960 1234 25000".toList 2
      false).2.2.2 (by decide)⟩

/-- C25 as stated fails when a digit word of the name is set off by a tab: in the row
`0 5 30 a<TAB>12 b 25 1.2.3.4:28960 1234 25000` (and in the Protocol B row with a `guid`
column) the name column starts at `a<TAB>12 b 25 ...`; the first whitespace-delimited
numeric token is `12`, so the text up to it is `a<TAB>`, but the token of the name is
`a<TAB>12 b`, the text up to the space-delimited number `25`. -/
theorem name_scan_tab_word_counterexample :
    dropFields (nameFieldOf 1 false) "0 5 30 a\t12 b 25 1.2.3.4:28960 1234 25000".toList =
      "a\t12 b 25 1.2.3.4:28960 1234 25000".toList ∧
    uptoNumericWordWs true "a\t12 b 25 1.2.3.4:28960 1234 25000".toList = "a\t".toList ∧
    popSpaces (uptoNumericWordWs true "a\t12 b 25 1.2.3.4:28960 1234 25000".toList) =
      "a\t".toList ∧
    tok (rconTokens "0 5 30 a\t12 b 25 1.2.3.4:28960 1234 25000".toList 1 false)
        (nameFieldOf 1 false) = "a\t12 b".toList ∧
    tok (rconTokens "1 5 30 abc a\t12 b 25 1.2.3.4:28960 1234 25000".toList 2 false)
        (nameFieldOf 2 false) = "a\t12 b".toList ∧
    "a\t12 b".toList ≠ "a\t".toList := by
  refine ⟨by decide, by decide, by decide, by decide, by decide, by decide⟩

end GameServerQuery
